import Mathlib

/-!
Verification of the FinancialExchange matching engine core.

This file shallowly embeds the order-book core (`OrderBookSide`, `OrderBook`
from `order_book.hpp` / `market_data_dispatch.cpp`) and the engine callback
fanout (`Exchange` from `exchange.cpp`) of the repository, and proves or
refutes the frozen specification claims about them.

Modelling conventions, chosen to mirror the source:
* `Price_t` (`int64_t`) is `Int`; `Volume_t`/`Id_t` (`uint32_t`) are `Nat`.
  All arithmetic in the verified paths is guarded in the source exactly where
  the corresponding `Nat` subtraction is used, and the counters in the
  modelled traces stay far below `2^32`, so no wraparound modulus is needed.
* The intrusive doubly-linked FIFO of a `PriceLevel` is a `List Order`
  (`first_` is the head, `last_` the last element); unlinking an order is
  removal of the (unique) list element with its `order_id`.
* The `OrderPool` free-list allocator is modelled by its observable content:
  the number of live orders (`pool_live`); `allocate` succeeds exactly when
  `pool_live < MAX_ORDERS` (the free list is non-null), `deallocate`
  decrements it.
* The `order_id → Order*` index is a total function `Nat → IndexEntry`;
  a `nullptr` stored in the map (which the source does on pool exhaustion)
  is the `IndexEntry.null` entry, and dereferencing it is modelled by the
  `crashed` flag of a result (undefined behaviour in C++).
* The dense `levels_[NUM_BOOK_LEVELS]` array is a function `Nat → PriceLevel`,
  read and written pointwise just as the source indexes it.
* Wall-clock timestamps (`utc_now_ns`) and the human-readable error strings
  carry no engine state and are omitted from payloads.
* `match_loop`'s two nested `while` loops are flattened into one fuel-indexed
  recursion that re-checks all loop conditions before each maker trade; this
  is observationally identical because every condition re-checked early is
  unchanged between the points where the source checks it.  Exhausted fuel
  (`out_of_fuel`) marks divergence of the source loop; all theorems either
  quantify over the fuel or supply a sufficient concrete amount.
-/

/-- Message side, `enum class Side : uint8_t {SELL, BUY}` from `types.hpp`. -/
inductive SideT where
  | SELL
  | BUY
deriving DecidableEq, Repr

/-- Order lifespan, `enum class Lifespan : uint8_t {FILL_AND_KILL, GOOD_FOR_DAY}`. -/
inductive Lifespan where
  | FILL_AND_KILL
  | GOOD_FOR_DAY
deriving DecidableEq, Repr

/-- Error codes of `enum class ErrorType : uint16_t` from `types.hpp`. -/
def ERR_ORDER_BOOK_FULL : Nat := 1

def ERR_INVALID_VOLUME : Nat := 2

def ERR_ORDER_NOT_FOUND : Nat := 3

def ERR_UNAUTHORISED : Nat := 4

def ERR_INVALID_PRICE : Nat := 5

/-- `MAX_ORDERS` from `types.hpp` (capacity of each side's `OrderPool`). -/
def MAX_ORDERS : Nat := 100000

/-- `MINIMUM_BID` from `types.hpp`. -/
def MINIMUM_BID : Int := 1

/-- `MAXIMUM_ASK` from `types.hpp`. -/
def MAXIMUM_ASK : Int := 10000

/-- `NUM_BOOK_LEVELS = MAXIMUM_ASK - MINIMUM_BID + 1` from `types.hpp`. -/
def NUM_BOOK_LEVELS : Nat := 10000

/-- `ORDER_BOOK_MESSAGE_DEPTH` from `types.hpp`. -/
def ORDER_BOOK_MESSAGE_DEPTH : Nat := 10

/-- The `Order` struct of `order.hpp`.  The intrusive `next_`/`previous_`
pointers are represented by list position inside a price level, and the
pool-internal `order_handle_` is not observable. -/
structure Order where
  client_id : Nat
  order_id : Nat
  price : Int
  quantity : Nat
  quantity_remaining : Nat
  quantity_cumulative : Nat
  is_bid : Bool
deriving DecidableEq, Repr

/-- The `PriceLevel` struct of `pricelevel.hpp`: `first_`/`last_` become the
order list (head = `first_`); `idx_` is the position in the side's array and
is kept implicit. -/
structure PriceLevel where
  price : Int
  total_quantity : Nat
  orders : List Order
deriving DecidableEq, Repr

/-- One entry of `OrderBook::order_index_` (`std::unordered_map<Id_t, Order*>`):
absent key, stored null pointer, or a pointer to the live order resting on
side `is_bid` at price `price`. -/
inductive IndexEntry where
  | absent
  | null
  | live (is_bid : Bool) (price : Int)
deriving DecidableEq, Repr

/-- The `OrderBookSide` struct of `order_book.hpp`. -/
structure OrderBookSide where
  levels : Nat → PriceLevel
  pool_live : Nat
  is_bid : Bool
  best_price_index : Nat

/-- The `OrderBook` struct of `order_book.hpp`; `trade_id_` lives in the
`Exchange` in the current source, and the scratch `filled_order_ids_` vector
is threaded through `match_loop` explicitly. -/
structure OrderBook where
  bids : OrderBookSide
  asks : OrderBookSide
  order_id : Nat
  order_index : Nat → IndexEntry

/-- `OrderBookSide::price_to_index`: `price - MINIMUM_BID` as `size_t`. -/
def price_to_index (price : Int) : Nat := (price - MINIMUM_BID).toNat

/-- The `OrderBookSide(bool)` constructor: every level initialised with
`price_ = MINIMUM_BID + i`, zero volume and an empty FIFO; empty-side
sentinel `best_price_index_ = NUM_BOOK_LEVELS`; an empty pool. -/
def initSide (is_bid : Bool) : OrderBookSide :=
  { levels := fun i => { price := MINIMUM_BID + i, total_quantity := 0, orders := [] }
    pool_live := 0
    is_bid := is_bid
    best_price_index := NUM_BOOK_LEVELS }

/-- The `OrderBook()` constructor: both sides fresh, id counter 0, empty index. -/
def initBook : OrderBook :=
  { bids := initSide true
    asks := initSide false
    order_id := 0
    order_index := fun _ => IndexEntry.absent }

/-- Write one slot of the dense `levels_` array. -/
def setLevel (s : OrderBookSide) (i : Nat) (lv : PriceLevel) : OrderBookSide :=
  { s with levels := fun j => if j = i then lv else s.levels j }

/-- Write one entry of `order_index_`. -/
def setIndex (f : Nat → IndexEntry) (id : Nat) (e : IndexEntry) : Nat → IndexEntry :=
  fun j => if j = id then e else f j

/-- Erase a batch of ids from the index: the `order_index_.erase(order_idx)`
loop over `filled_order_ids_` at the end of `OrderBook::submit_order`. -/
def eraseIds : (Nat → IndexEntry) → List Nat → Nat → IndexEntry
  | f, [] => f
  | f, id :: rest => eraseIds (setIndex f id IndexEntry.absent) rest

/-- Sum of `quantity_remaining_` over a level's linked orders. -/
def sumRem (l : List Order) : Nat := (l.map Order.quantity_remaining).sum

/-- Dereference by id inside one level's FIFO (first matching order). -/
def findById (l : List Order) (id : Nat) : Option Order :=
  l.find? (fun o => o.order_id == id)

/-- Unlink the (first) order with the given id from a level's FIFO:
the pointer surgery of `OrderBook::remove_order`. -/
def eraseById : List Order → Nat → List Order
  | [], _ => []
  | o :: rest, id => if o.order_id = id then rest else o :: eraseById rest id

/-- Overwrite the (first) order with the given id: in-place mutation through
the `Order*` in `OrderBook::amend_order`. -/
def updateById : List Order → Nat → Order → List Order
  | [], _, _ => []
  | o :: rest, id, o' => if o.order_id = id then o' :: rest else o :: updateById rest id o'

/-- One callback invocation of the `OrderBookCallbacks` interface
(`callbacks.hpp`), in emission order.  Timestamps and error strings are
omitted (see the module comment). -/
inductive BookEvent where
  | onTrade (maker : Order) (taker_client_id taker_order_id : Nat) (price : Int)
      (taker_total_quantity taker_cumulative_quantity traded_quantity : Nat)
  | onLevelUpdate (side : SideT) (price : Int) (total_volume : Nat)
  | onOrderInserted (client_request_id : Nat) (order : Order)
  | onOrderCancelled (client_request_id : Nat) (order : Order)
  | onOrderAmended (client_request_id : Nat) (quantity_old : Nat) (order : Order)
  | onError (client_id client_request_id : Nat) (code : Nat)
deriving DecidableEq, Repr

/-- Side tag of a side structure, as the source computes `is_bid_ ? Side::BUY
: Side::SELL`. -/
def sideTag (is_bid : Bool) : SideT := if is_bid then SideT.BUY else SideT.SELL

/-- `OrderBookSide::update_best_bid_after_order`. -/
def update_best_bid_after_order (s : OrderBookSide) (price_idx : Nat) : OrderBookSide :=
  if s.best_price_index = NUM_BOOK_LEVELS ∨ price_idx > s.best_price_index then
    { s with best_price_index := price_idx }
  else s

/-- `OrderBookSide::update_best_ask_after_order`. -/
def update_best_ask_after_order (s : OrderBookSide) (price_idx : Nat) : OrderBookSide :=
  if s.best_price_index = NUM_BOOK_LEVELS ∨ price_idx < s.best_price_index then
    { s with best_price_index := price_idx }
  else s

/-- The downward scan `for (size_t i = old_idx; i-- > 0; )` of
`update_best_bid_after_empty`: first index strictly below the argument whose
level has positive volume. -/
def scanDown (levels : Nat → PriceLevel) : Nat → Option Nat
  | 0 => none
  | i + 1 => if (levels i).total_quantity > 0 then some i else scanDown levels i

/-- The upward scan `for (size_t i = old_idx + 1; i < NUM_BOOK_LEVELS; ++i)`
of `update_best_ask_after_empty`, running on the remaining distance to the
end of the array. -/
def scanUp (levels : Nat → PriceLevel) : Nat → Nat → Option Nat
  | _, 0 => none
  | i, fuel + 1 => if (levels i).total_quantity > 0 then some i else scanUp levels (i + 1) fuel

/-- `OrderBookSide::update_best_bid_after_empty`. -/
def update_best_bid_after_empty (s : OrderBookSide) : OrderBookSide :=
  match scanDown s.levels s.best_price_index with
  | some i => { s with best_price_index := i }
  | none => { s with best_price_index := NUM_BOOK_LEVELS }

/-- `OrderBookSide::update_best_ask_after_empty`. -/
def update_best_ask_after_empty (s : OrderBookSide) : OrderBookSide :=
  match scanUp s.levels (s.best_price_index + 1) (NUM_BOOK_LEVELS - (s.best_price_index + 1)) with
  | some i => { s with best_price_index := i }
  | none => { s with best_price_index := NUM_BOOK_LEVELS }

/-- Result of `OrderBookSide::match_loop`: the mutated side, the unmatched
remainder of the incoming quantity, the callbacks emitted, the
`filled_order_ids` scratch vector, and whether the fuel ran out before the
source loop would have exited. -/
structure MatchResult where
  side : OrderBookSide
  remaining : Nat
  events : List BookEvent
  filled : List Nat
  out_of_fuel : Bool

/-- `OrderBookSide::match_loop` (market_data_dispatch.cpp, lines 871-944),
flattened to one recursion; `crosses` is the price-cross lambda and
`advance` the `advance_best` lambda of `match_buy`/`match_sell`.
`total_incoming_quantity` is the immutable initial quantity. -/
def match_loop (crosses : Int → Int → Bool) (advance : OrderBookSide → OrderBookSide)
    (incoming_price : Int) (total_incoming_quantity : Nat) (order_id client_id : Nat)
    (maker_side : SideT) :
    Nat → OrderBookSide → Nat → List BookEvent → List Nat → MatchResult
  | 0, s, q, evs, filled =>
      { side := s, remaining := q, events := evs, filled := filled, out_of_fuel := true }
  | fuel + 1, s, q, evs, filled =>
      if q = 0 then
        { side := s, remaining := q, events := evs, filled := filled, out_of_fuel := false }
      else if s.best_price_index = NUM_BOOK_LEVELS then
        { side := s, remaining := q, events := evs, filled := filled, out_of_fuel := false }
      else
        let lidx := s.best_price_index
        let level := s.levels lidx
        if ¬ crosses level.price incoming_price then
          { side := s, remaining := q, events := evs, filled := filled, out_of_fuel := false }
        else
          match level.orders with
          | [] =>
              -- the source's inner loop makes no progress and its outer loop
              -- re-enters forever: only fuel exhaustion can end this branch
              match_loop crosses advance incoming_price total_incoming_quantity order_id
                client_id maker_side fuel s q evs filled
          | maker :: rest =>
              let t := min maker.quantity_remaining q
              let maker' := { maker with
                quantity_remaining := maker.quantity_remaining - t
                quantity_cumulative := maker.quantity_cumulative + t }
              let q' := q - t
              let level' := { level with
                total_quantity := level.total_quantity - t
                orders := maker' :: rest }
              let evs' := evs ++
                [BookEvent.onTrade maker' client_id order_id maker.price
                    total_incoming_quantity (total_incoming_quantity - q') t,
                  BookEvent.onLevelUpdate maker_side level'.price level'.total_quantity]
              if maker'.quantity_remaining = 0 then
                let filled' := filled ++ [maker.order_id]
                let level'' := { level' with orders := rest }
                let s₁ := setLevel s lidx level''
                let s₂ := if rest.isEmpty then advance s₁ else s₁
                let s₃ := { s₂ with pool_live := s₂.pool_live - 1 }
                match_loop crosses advance incoming_price total_incoming_quantity order_id
                  client_id maker_side fuel s₃ q' evs' filled'
              else
                match_loop crosses advance incoming_price total_incoming_quantity order_id
                  client_id maker_side fuel (setLevel s lidx level') q' evs' filled

/-- `OrderBookSide::match_buy`: an incoming BUY matching against this (ask)
side; crosses when `level_price ≤ incoming`. -/
def match_buy (s : OrderBookSide) (incoming_price : Int) (incoming_quantity : Nat)
    (order_id client_id : Nat) (fuel : Nat) : MatchResult :=
  match_loop (fun level_price incoming => level_price ≤ incoming)
    update_best_ask_after_empty incoming_price incoming_quantity order_id client_id
    SideT.SELL fuel s incoming_quantity [] []

/-- `OrderBookSide::match_sell`: an incoming SELL matching against this (bid)
side; crosses when `level_price ≥ incoming`. -/
def match_sell (s : OrderBookSide) (incoming_price : Int) (incoming_quantity : Nat)
    (order_id client_id : Nat) (fuel : Nat) : MatchResult :=
  match_loop (fun level_price incoming => level_price ≥ incoming)
    update_best_bid_after_empty incoming_price incoming_quantity order_id client_id
    SideT.BUY fuel s incoming_quantity [] []

/-- `OrderBookSide::add_order` (market_data_dispatch.cpp, lines 777-831).
Returns the allocated order (`nullptr` = `none` on pool exhaustion), the
mutated side and the callbacks emitted. -/
def add_order (s : OrderBookSide) (price : Int) (quantity quantity_remaining : Nat)
    (order_id client_id client_request_id : Nat) :
    Option Order × OrderBookSide × List BookEvent :=
  if s.pool_live = MAX_ORDERS then
    (none, s, [BookEvent.onError client_id client_request_id ERR_ORDER_BOOK_FULL])
  else
    let idx := price_to_index price
    let level := s.levels idx
    let order : Order :=
      { client_id := client_id
        order_id := order_id
        price := price
        quantity := quantity
        quantity_remaining := quantity_remaining
        quantity_cumulative := quantity - quantity_remaining
        is_bid := s.is_bid }
    let level' := { level with
      orders := level.orders ++ [order]
      total_quantity := level.total_quantity + quantity_remaining }
    let s₁ := { setLevel s idx level' with pool_live := s.pool_live + 1 }
    let s₂ := if s.is_bid then update_best_bid_after_order s₁ idx
              else update_best_ask_after_order s₁ idx
    (some order, s₂, [BookEvent.onLevelUpdate (sideTag s.is_bid) level'.price level'.total_quantity])

/-- Result of one `OrderBook` operation: the book afterwards, the callbacks in
emission order, whether a null/dangling `Order*` dereference was reached
(undefined behaviour in the source), and whether `match_loop` ran out of fuel. -/
structure OpResult where
  book : OrderBook
  events : List BookEvent
  crashed : Bool
  out_of_fuel : Bool

/-- `OrderBook::submit_order` (market_data_dispatch.cpp, lines 1016-1063).
Validation, id allocation, match against the opposite side, then rest any
residual on the own side; note the source passes a literal `0` as the
`client_request_id` of `on_order_inserted` in the bid branch, and assigns the
`add_order` result into `order_index_` before checking it for null. -/
def submit_order (b : OrderBook) (price : Int) (quantity : Nat) (is_bid : Bool)
    (client_id client_request_id : Nat) (fuel : Nat) : OpResult :=
  if quantity = 0 then
    { book := b, events := [BookEvent.onError client_id client_request_id ERR_INVALID_VOLUME]
      crashed := false, out_of_fuel := false }
  else if price < MINIMUM_BID ∨ price > MAXIMUM_ASK then
    { book := b, events := [BookEvent.onError client_id client_request_id ERR_INVALID_PRICE]
      crashed := false, out_of_fuel := false }
  else
    let oid := b.order_id
    let b₁ := { b with order_id := oid + 1 }
    if is_bid then
      let r := match_buy b₁.asks price quantity oid client_id fuel
      let b₂ := { b₁ with asks := r.side }
      if r.out_of_fuel then
        { book := b₂, events := r.events, crashed := false, out_of_fuel := true }
      else if r.remaining > 0 then
        match add_order b₂.bids price quantity r.remaining oid client_id client_request_id with
        | (none, bids', evs) =>
            -- order_index_[order_id] = nullptr, then *resting_order crashes
            { book := { b₂ with
                bids := bids'
                order_index := setIndex b₂.order_index oid IndexEntry.null }
              events := r.events ++ evs, crashed := true, out_of_fuel := false }
        | (some o, bids', evs) =>
            let idx₁ := setIndex b₂.order_index oid (IndexEntry.live true price)
            let idx₂ := eraseIds idx₁ r.filled
            { book := { b₂ with bids := bids', order_index := idx₂ }
              events := r.events ++ evs ++ [BookEvent.onOrderInserted 0 o]
              crashed := false, out_of_fuel := false }
      else
        { book := { b₂ with order_index := eraseIds b₂.order_index r.filled }
          events := r.events, crashed := false, out_of_fuel := false }
    else
      let r := match_sell b₁.bids price quantity oid client_id fuel
      let b₂ := { b₁ with bids := r.side }
      if r.out_of_fuel then
        { book := b₂, events := r.events, crashed := false, out_of_fuel := true }
      else if r.remaining > 0 then
        match add_order b₂.asks price quantity r.remaining oid client_id client_request_id with
        | (none, asks', evs) =>
            { book := { b₂ with
                asks := asks'
                order_index := setIndex b₂.order_index oid IndexEntry.null }
              events := r.events ++ evs, crashed := true, out_of_fuel := false }
        | (some o, asks', evs) =>
            let idx₁ := setIndex b₂.order_index oid (IndexEntry.live false price)
            let idx₂ := eraseIds idx₁ r.filled
            { book := { b₂ with asks := asks', order_index := idx₂ }
              events := r.events ++ evs ++ [BookEvent.onOrderInserted client_request_id o]
              crashed := false, out_of_fuel := false }
      else
        { book := { b₂ with order_index := eraseIds b₂.order_index r.filled }
          events := r.events, crashed := false, out_of_fuel := false }

/-- `OrderBook::cancel_order` (market_data_dispatch.cpp, lines 1070-1118).
The `Order*` stored in the index is dereferenced through its recorded
location; the side and level to mutate are then re-derived from the order's
own `is_bid_`/`price_` fields exactly as the source does. -/
def cancel_order (b : OrderBook) (client_id client_request_id target_order_id : Nat) :
    OpResult :=
  match b.order_index target_order_id with
  | IndexEntry.absent =>
      { book := b, events := [BookEvent.onError client_id client_request_id ERR_ORDER_NOT_FOUND]
        crashed := false, out_of_fuel := false }
  | IndexEntry.null =>
      { book := b, events := [], crashed := true, out_of_fuel := false }
  | IndexEntry.live loc_bid loc_price =>
      let locSide := if loc_bid then b.bids else b.asks
      match findById (locSide.levels (price_to_index loc_price)).orders target_order_id with
      | none => { book := b, events := [], crashed := true, out_of_fuel := false }
      | some order =>
          if order.client_id ≠ client_id then
            { book := b
              events := [BookEvent.onError client_id client_request_id ERR_UNAUTHORISED]
              crashed := false, out_of_fuel := false }
          else
            let side := if order.is_bid then b.bids else b.asks
            let idx := price_to_index order.price
            let level := side.levels idx
            let level₁ := { level with
              total_quantity := level.total_quantity - order.quantity_remaining
              orders := eraseById level.orders target_order_id }
            let side₁ := { setLevel side idx level₁ with pool_live := side.pool_live - 1 }
            let side₂ :=
              if level₁.orders.isEmpty ∧ side₁.best_price_index = idx then
                if order.is_bid then update_best_bid_after_empty side₁
                else update_best_ask_after_empty side₁
              else side₁
            let b' := if order.is_bid then { b with bids := side₂ } else { b with asks := side₂ }
            { book := { b' with
                order_index := setIndex b'.order_index target_order_id IndexEntry.absent }
              events := [BookEvent.onLevelUpdate (sideTag order.is_bid) level₁.price
                  level₁.total_quantity,
                BookEvent.onOrderCancelled client_request_id order]
              crashed := false, out_of_fuel := false }

/-- `OrderBook::amend_order` (market_data_dispatch.cpp, lines 1120-1214).
Note the best-index rescan when the level empties is NOT guarded by
`best_price_index_ == level.idx_` (unlike `cancel_order`). -/
def amend_order (b : OrderBook) (client_id client_request_id target_order_id : Nat)
    (quantity_new : Nat) : OpResult :=
  match b.order_index target_order_id with
  | IndexEntry.absent =>
      { book := b, events := [BookEvent.onError client_id client_request_id ERR_ORDER_NOT_FOUND]
        crashed := false, out_of_fuel := false }
  | IndexEntry.null =>
      { book := b, events := [], crashed := true, out_of_fuel := false }
  | IndexEntry.live loc_bid loc_price =>
      let locSide := if loc_bid then b.bids else b.asks
      match findById (locSide.levels (price_to_index loc_price)).orders target_order_id with
      | none => { book := b, events := [], crashed := true, out_of_fuel := false }
      | some order =>
          if order.client_id ≠ client_id then
            { book := b
              events := [BookEvent.onError client_id client_request_id ERR_UNAUTHORISED]
              crashed := false, out_of_fuel := false }
          else if quantity_new < order.quantity_cumulative then
            { book := b
              events := [BookEvent.onError client_id client_request_id ERR_INVALID_VOLUME]
              crashed := false, out_of_fuel := false }
          else
            let quantity_old_total := order.quantity
            let quantity_old_remaining := order.quantity_remaining
            let quantity_new_remaining := quantity_new - order.quantity_cumulative
            if quantity_old_remaining < quantity_new_remaining then
              { book := b
                events := [BookEvent.onError client_id client_request_id ERR_INVALID_VOLUME]
                crashed := false, out_of_fuel := false }
            else
              let delta := quantity_old_remaining - quantity_new_remaining
              if quantity_new_remaining = quantity_old_remaining then
                { book := b
                  events := [BookEvent.onOrderAmended client_request_id quantity_old_total order]
                  crashed := false, out_of_fuel := false }
              else
                let side := if order.is_bid then b.bids else b.asks
                let idx := price_to_index order.price
                let level := side.levels idx
                let order' := { order with
                  quantity := quantity_new
                  quantity_remaining := quantity_new_remaining }
                let level₁ := { level with
                  orders := updateById level.orders target_order_id order'
                  total_quantity := level.total_quantity - delta }
                let side₁ := setLevel side idx level₁
                let side₂ :=
                  if level₁.total_quantity = 0 then
                    -- source bug: no best_price_index_ == level.idx_ guard here
                    if order'.is_bid then update_best_bid_after_empty side₁
                    else update_best_ask_after_empty side₁
                  else side₁
                let evs := [BookEvent.onOrderAmended client_request_id quantity_old_total order',
                  BookEvent.onLevelUpdate (sideTag order'.is_bid) level₁.price
                    level₁.total_quantity]
                if quantity_new_remaining = 0 then
                  let level₂ := { level₁ with orders := eraseById level₁.orders target_order_id }
                  let side₃ := { setLevel side₂ idx level₂ with pool_live := side₂.pool_live - 1 }
                  let b' := if order.is_bid then { b with bids := side₃ }
                            else { b with asks := side₃ }
                  { book := { b' with
                      order_index := setIndex b'.order_index target_order_id IndexEntry.absent }
                    events := evs, crashed := false, out_of_fuel := false }
                else
                  let b' := if order.is_bid then { b with bids := side₂ }
                            else { b with asks := side₂ }
                  { book := b', events := evs, crashed := false, out_of_fuel := false }

/-- The bid half of `OrderBook::build_snapshot`: walk downward from
`best_price_index_`, collecting up to `depth_left` non-empty levels, stopping
after index 0. -/
def snapWalkBid (levels : Nat → PriceLevel) : Nat → Nat → List (Int × Nat)
  | 0, depth_left =>
      if NUM_BOOK_LEVELS ≤ 0 ∨ depth_left = 0 then []
      else if (levels 0).total_quantity > 0 then [((levels 0).price, (levels 0).total_quantity)]
      else []
  | i + 1, depth_left =>
      if NUM_BOOK_LEVELS ≤ i + 1 ∨ depth_left = 0 then []
      else if (levels (i + 1)).total_quantity > 0 then
        ((levels (i + 1)).price, (levels (i + 1)).total_quantity) ::
          snapWalkBid levels i (depth_left - 1)
      else snapWalkBid levels i depth_left

/-- The ask half of `OrderBook::build_snapshot`: walk upward from
`best_price_index_`; the first argument is the remaining distance
`NUM_BOOK_LEVELS - idx` to the end of the array. -/
def snapWalkAsk (levels : Nat → PriceLevel) : Nat → Nat → Nat → List (Int × Nat)
  | 0, _, _ => []
  | f + 1, idx, depth_left =>
      if depth_left = 0 then []
      else if (levels idx).total_quantity > 0 then
        ((levels idx).price, (levels idx).total_quantity) ::
          snapWalkAsk levels f (idx + 1) (depth_left - 1)
      else snapWalkAsk levels f (idx + 1) depth_left

/-- Zero-pad a column of the snapshot to `ORDER_BOOK_MESSAGE_DEPTH` entries. -/
def padPrices (l : List Int) : List Int := l ++ List.replicate (ORDER_BOOK_MESSAGE_DEPTH - l.length) 0

/-- Zero-pad a volume column of the snapshot. -/
def padVolumes (l : List Nat) : List Nat := l ++ List.replicate (ORDER_BOOK_MESSAGE_DEPTH - l.length) 0

/-- The four arrays filled by `OrderBook::build_snapshot`. -/
structure Snapshot where
  bid_prices : List Int
  bid_volumes : List Nat
  ask_prices : List Int
  ask_volumes : List Nat
deriving DecidableEq, Repr

/-- `OrderBook::build_snapshot` (market_data_dispatch.cpp, lines 1231-1276). -/
def build_snapshot (b : OrderBook) : Snapshot :=
  let bidLvls := snapWalkBid b.bids.levels b.bids.best_price_index ORDER_BOOK_MESSAGE_DEPTH
  let askLvls := snapWalkAsk b.asks.levels (NUM_BOOK_LEVELS - b.asks.best_price_index)
    b.asks.best_price_index ORDER_BOOK_MESSAGE_DEPTH
  { bid_prices := padPrices (bidLvls.map Prod.fst)
    bid_volumes := padVolumes (bidLvls.map Prod.snd)
    ask_prices := padPrices (askLvls.map Prod.fst)
    ask_volumes := padVolumes (askLvls.map Prod.snd) }

/-- A client-directed payload built by the `Exchange` callbacks
(`exchange.cpp`); field order follows the `make_*` helpers of
`protocol.hpp`, timestamps omitted. -/
inductive Frame where
  | confirmOrderInserted (client_request_id exchange_order_id : Nat) (side : SideT)
      (price : Int) (total_quantity leaves_quantity : Nat)
  | confirmOrderCancelled (client_request_id exchange_order_id leaves_quantity : Nat)
      (price : Int) (side : SideT)
  | confirmOrderAmended (client_request_id exchange_order_id old_total_quantity
      new_total_quantity leaves_quantity : Nat)
  | partialFill (exchange_order_id trade_id : Nat) (last_price : Int)
      (last_quantity leaves_quantity cumulative_quantity : Nat)
  | errorMsg (client_request_id : Nat) (code : Nat)
  | orderBookSnapshot (snapshot : Snapshot) (sequence_number : Nat)
deriving DecidableEq, Repr

/-- A market-data payload broadcast to subscribers by the `Exchange`. -/
inductive MdFrame where
  | tradeEvent (sequence_number trade_id : Nat) (price : Int) (quantity : Nat) (taker_side : SideT)
  | orderInsertedEvent (sequence_number order_id : Nat) (side : SideT) (price : Int) (quantity : Nat)
  | orderCancelledEvent (sequence_number order_id remaining_quantity : Nat)
  | orderAmendedEvent (sequence_number order_id quantity_new quantity_old : Nat)
  | priceLevelUpdate (sequence_number : Nat) (side : SideT) (price : Int) (total_volume : Nat)
deriving DecidableEq, Repr

/-- One emission of the engine: `send_to_` builds a frame for one client;
`broadcast_to_subscribers_` builds one market-data frame and sends the same
bytes to every live subscriber, so a broadcast is recorded once. -/
inductive Out where
  | toClient (client_id : Nat) (frame : Frame)
  | feed (frame : MdFrame)
deriving DecidableEq, Repr

/-- The engine-side state of the `Exchange` (exchange.hpp): the book, the
market-data subscriber list, and the `trade_id_` / `sequence_number_`
counters.  `halted` records that the engine crashed on undefined behaviour
(or, in the model, exhausted its fuel) and processes nothing further. -/
structure ExchangeState where
  book : OrderBook
  subscribers : List Nat
  trade_id : Nat
  sequence_number : Nat
  halted : Bool

/-- The initial engine state. -/
def initExchange : ExchangeState :=
  { book := initBook, subscribers := [], trade_id := 0, sequence_number := 0, halted := false }

/-- Fan one `OrderBookCallbacks` invocation out into wire frames:
`Exchange::on_trade` / `on_order_inserted` / `on_order_cancelled` /
`on_order_amended` / `on_level_update` / `on_error` (exchange.cpp,
lines 554-702). -/
def processEvent (st : ExchangeState) : BookEvent → ExchangeState × List Out
  | BookEvent.onTrade maker taker_client_id taker_order_id price taker_total_quantity
      taker_cumulative_quantity traded_quantity =>
      let tid := st.trade_id
      let seq := st.sequence_number
      ({ st with trade_id := tid + 1, sequence_number := seq + 1 },
        [Out.toClient maker.client_id (Frame.partialFill maker.order_id tid price
            traded_quantity maker.quantity_remaining maker.quantity_cumulative),
          Out.toClient taker_client_id (Frame.partialFill taker_order_id tid price
            traded_quantity (taker_total_quantity - taker_cumulative_quantity)
            taker_cumulative_quantity),
          Out.feed (MdFrame.tradeEvent seq tid price traded_quantity
            (if maker.is_bid then SideT.SELL else SideT.BUY))])
  | BookEvent.onLevelUpdate side price total_volume =>
      let seq := st.sequence_number
      ({ st with sequence_number := seq + 1 },
        [Out.feed (MdFrame.priceLevelUpdate seq side price total_volume)])
  | BookEvent.onOrderInserted client_request_id order =>
      let seq := st.sequence_number
      ({ st with sequence_number := seq + 1 },
        [Out.toClient order.client_id (Frame.confirmOrderInserted client_request_id
            order.order_id (sideTag order.is_bid) order.price order.quantity
            order.quantity_remaining),
          Out.feed (MdFrame.orderInsertedEvent seq order.order_id (sideTag order.is_bid)
            order.price order.quantity_remaining)])
  | BookEvent.onOrderCancelled client_request_id order =>
      let seq := st.sequence_number
      ({ st with sequence_number := seq + 1 },
        [Out.toClient order.client_id (Frame.confirmOrderCancelled client_request_id
            order.order_id order.quantity_remaining order.price (sideTag order.is_bid)),
          Out.feed (MdFrame.orderCancelledEvent seq order.order_id order.quantity_remaining)])
  | BookEvent.onOrderAmended client_request_id quantity_old order =>
      let seq := st.sequence_number
      ({ st with sequence_number := seq + 1 },
        [Out.toClient order.client_id (Frame.confirmOrderAmended client_request_id
            order.order_id quantity_old order.quantity order.quantity_remaining),
          Out.feed (MdFrame.orderAmendedEvent seq order.order_id order.quantity quantity_old)])
  | BookEvent.onError client_id client_request_id code =>
      (st, [Out.toClient client_id (Frame.errorMsg client_request_id code)])

/-- Process a list of callbacks in emission order, accumulating outputs. -/
def processEvents (st : ExchangeState) : List BookEvent → ExchangeState × List Out
  | [] => (st, [])
  | ev :: rest =>
      let (st₁, outs₁) := processEvent st ev
      let (st₂, outs₂) := processEvents st₁ rest
      (st₂, outs₁ ++ outs₂)

/-- One parsed inbound message as consumed by `Exchange::dispatch_`
(`InboundMessage` payloads of `protocol.hpp`); the insert carries the
`lifespan` field of `PayloadInsertOrder`. -/
inductive InMsg where
  | insertOrder (connection_id client_request_id : Nat) (side : SideT) (price : Int)
      (quantity : Nat) (lifespan : Lifespan)
  | cancelOrder (connection_id client_request_id exchange_order_id : Nat)
  | amendOrder (connection_id client_request_id exchange_order_id new_total_quantity : Nat)
  | subscribe (connection_id : Nat)
  | unsubscribe (connection_id : Nat)
  | disconnect (connection_id : Nat)
deriving DecidableEq, Repr

/-- `Exchange::subscribe_market_feed_` (exchange.cpp, lines 504-528): append
the subscriber, then send a depth-10 snapshot stamped with the CURRENT
sequence number, which is shared without being incremented. -/
def subscribe_market_feed (st : ExchangeState) (connection_id : Nat) :
    ExchangeState × List Out :=
  let st₁ := { st with subscribers := st.subscribers ++ [connection_id] }
  let seq := st₁.sequence_number
  (st₁, [Out.toClient connection_id (Frame.orderBookSnapshot (build_snapshot st₁.book) seq)])

/-- `Exchange::unsubscribe_market_feed_`: swap-remove one occurrence. -/
def unsubscribe_market_feed (st : ExchangeState) (connection_id : Nat) : ExchangeState :=
  { st with subscribers := st.subscribers.erase connection_id }

/-- `Exchange::dispatch_` (exchange.cpp, lines 446-483): switch on the
message type.  Note the `INSERT_ORDER` case forwards price, quantity, side,
connection id and request id to `submit_order` and drops the `lifespan`
field of the payload. -/
def dispatchMsg (fuel : Nat) (st : ExchangeState) : InMsg → ExchangeState × List Out
  | InMsg.insertOrder connection_id client_request_id side price quantity _lifespan =>
      let r := submit_order st.book price quantity (side = SideT.BUY) connection_id
        client_request_id fuel
      let (st₁, outs) := processEvents { st with book := r.book } r.events
      ({ st₁ with halted := r.crashed ∨ r.out_of_fuel }, outs)
  | InMsg.cancelOrder connection_id client_request_id exchange_order_id =>
      let r := cancel_order st.book connection_id client_request_id exchange_order_id
      let (st₁, outs) := processEvents { st with book := r.book } r.events
      ({ st₁ with halted := r.crashed }, outs)
  | InMsg.amendOrder connection_id client_request_id exchange_order_id new_total_quantity =>
      let r := amend_order st.book connection_id client_request_id exchange_order_id
        new_total_quantity
      let (st₁, outs) := processEvents { st with book := r.book } r.events
      ({ st₁ with halted := r.crashed }, outs)
  | InMsg.subscribe connection_id => subscribe_market_feed st connection_id
  | InMsg.unsubscribe connection_id => (unsubscribe_market_feed st connection_id, [])
  | InMsg.disconnect connection_id => (unsubscribe_market_feed st connection_id, [])

/-- Run the engine loop `Exchange::run_engine_` over a queue of inbound
messages, collecting every emission; a halted (crashed) engine consumes
nothing further. -/
def runEngine (fuel : Nat) (st : ExchangeState) : List InMsg → ExchangeState × List Out
  | [] => (st, [])
  | msg :: rest =>
      if st.halted then (st, [])
      else
        let (st₁, outs₁) := dispatchMsg fuel st msg
        let (st₂, outs₂) := runEngine fuel st₁ rest
        (st₂, outs₁ ++ outs₂)

/-- The sequence numbers of all market-data frames in emission order,
including the `ORDER_BOOK_SNAPSHOT` (claim C8 counts it). -/
def mdSeqs (outs : List Out) : List Nat :=
  outs.filterMap fun o =>
    match o with
    | Out.feed (MdFrame.tradeEvent seq _ _ _ _) => some seq
    | Out.feed (MdFrame.orderInsertedEvent seq _ _ _ _) => some seq
    | Out.feed (MdFrame.orderCancelledEvent seq _ _) => some seq
    | Out.feed (MdFrame.orderAmendedEvent seq _ _ _) => some seq
    | Out.feed (MdFrame.priceLevelUpdate seq _ _ _) => some seq
    | Out.toClient _ (Frame.orderBookSnapshot _ seq) => some seq
    | _ => none

/-- The sequence numbers of the five incremental market-data event frames
only (no snapshot), in emission order. -/
def eventSeqs (outs : List Out) : List Nat :=
  outs.filterMap fun o =>
    match o with
    | Out.feed (MdFrame.tradeEvent seq _ _ _ _) => some seq
    | Out.feed (MdFrame.orderInsertedEvent seq _ _ _ _) => some seq
    | Out.feed (MdFrame.orderCancelledEvent seq _ _) => some seq
    | Out.feed (MdFrame.orderAmendedEvent seq _ _ _) => some seq
    | Out.feed (MdFrame.priceLevelUpdate seq _ _ _) => some seq
    | _ => none

/-- The `client_request_id`s carried by client-directed response frames. -/
def requestIdsOf (outs : List Out) : List Nat :=
  outs.filterMap fun o =>
    match o with
    | Out.toClient _ (Frame.confirmOrderInserted crid _ _ _ _ _) => some crid
    | Out.toClient _ (Frame.confirmOrderCancelled crid _ _ _ _) => some crid
    | Out.toClient _ (Frame.confirmOrderAmended crid _ _ _ _) => some crid
    | Out.toClient _ (Frame.errorMsg crid _) => some crid
    | _ => none

/-! The inductive invariant of the engine state. -/

/-- Well-formedness of one `OrderBookSide`: the claimed level invariant
(volume bookkeeping and homogeneous prices), the side flag stamped on each
linked order, and the constructor-established level prices. -/
structure SideWf (s : OrderBookSide) : Prop where
  sum_eq : ∀ i, i < NUM_BOOK_LEVELS →
    (s.levels i).total_quantity = sumRem (s.levels i).orders
  price_eq : ∀ i, i < NUM_BOOK_LEVELS →
    ∀ o ∈ (s.levels i).orders, o.price = (s.levels i).price
  flag_eq : ∀ i, i < NUM_BOOK_LEVELS →
    ∀ o ∈ (s.levels i).orders, o.is_bid = s.is_bid
  level_price : ∀ i, i < NUM_BOOK_LEVELS → (s.levels i).price = MINIMUM_BID + i
  best_le : s.best_price_index ≤ NUM_BOOK_LEVELS

/-- Well-formedness of the whole book: both sides well-formed, side flags as
constructed, every resting order id below the id counter, and every live
index entry dereferencing to an order whose recorded location matches its
own fields; no null pointer is stored. -/
structure Wf (b : OrderBook) : Prop where
  bids_wf : SideWf b.bids
  asks_wf : SideWf b.asks
  bids_flag : b.bids.is_bid = true
  asks_flag : b.asks.is_bid = false
  fresh_bids : ∀ i, i < NUM_BOOK_LEVELS →
    ∀ o ∈ (b.bids.levels i).orders, o.order_id < b.order_id
  fresh_asks : ∀ i, i < NUM_BOOK_LEVELS →
    ∀ o ∈ (b.asks.levels i).orders, o.order_id < b.order_id
  index_live : ∀ id lb lp, b.order_index id = IndexEntry.live lb lp →
    MINIMUM_BID ≤ lp ∧ lp ≤ MAXIMUM_ASK ∧
    ∃ o, findById ((if lb then b.bids else b.asks).levels (price_to_index lp)).orders id
        = some o ∧ o.is_bid = lb ∧ o.price = lp
  index_no_null : ∀ id, b.order_index id ≠ IndexEntry.null

/-- The order-book states reachable by complete, non-crashing engine
operations from the freshly constructed book. -/
inductive Reachable : OrderBook → Prop where
  | init : Reachable initBook
  | submit (b : OrderBook) (price : Int) (quantity : Nat) (is_bid : Bool)
      (client_id client_request_id fuel : Nat) (hb : Reachable b)
      (hc : (submit_order b price quantity is_bid client_id client_request_id fuel).crashed
        = false)
      (hf : (submit_order b price quantity is_bid client_id client_request_id fuel).out_of_fuel
        = false) :
      Reachable (submit_order b price quantity is_bid client_id client_request_id fuel).book
  | cancel (b : OrderBook) (client_id client_request_id target_order_id : Nat)
      (hb : Reachable b)
      (hc : (cancel_order b client_id client_request_id target_order_id).crashed = false) :
      Reachable (cancel_order b client_id client_request_id target_order_id).book
  | amend (b : OrderBook) (client_id client_request_id target_order_id quantity_new : Nat)
      (hb : Reachable b)
      (hc : (amend_order b client_id client_request_id target_order_id quantity_new).crashed
        = false) :
      Reachable (amend_order b client_id client_request_id target_order_id quantity_new).book

/-! Definitions used to state the claims. -/

/-- Claim C1's per-trade contract, read off a single `on_trade` callback:
the trade price is the resting maker's price, and the traded quantity is
`min(maker remaining, incoming remaining)` at the moment of the trade (the
callback carries the post-trade maker and taker quantities, so the pre-trade
quantities are recovered by adding the traded quantity back). -/
def tradePriceQtyOk (e : BookEvent) : Prop :=
  ∀ mk tcid toid pr tt tc tq, e = BookEvent.onTrade mk tcid toid pr tt tc tq →
    pr = mk.price ∧ tq = min (mk.quantity_remaining + tq) (tt - tc + tq)

/-- The event is not an `on_error` callback. -/
def notErrorEv (e : BookEvent) : Prop :=
  ∀ cid crid code, e ≠ BookEvent.onError cid crid code

/-- Every maker reported by an `on_trade` callback carries the given side
flag. -/
def makerFlagOk (f : Bool) (e : BookEvent) : Prop :=
  ∀ mk tcid toid pr tt tc tq, e = BookEvent.onTrade mk tcid toid pr tt tc tq →
    mk.is_bid = f

/-- A crossed book by content: some bid level and some ask level both hold
resting volume with the bid price at or above the ask price. -/
def crossedBook (b : OrderBook) : Prop :=
  ∃ i j, i < NUM_BOOK_LEVELS ∧ j < NUM_BOOK_LEVELS ∧
    0 < (b.bids.levels i).total_quantity ∧ 0 < (b.asks.levels j).total_quantity ∧
    (b.asks.levels j).price ≤ (b.bids.levels i).price

/-- Strict monotonicity of a sequence-number trace. -/
def seqStrictMono (l : List Nat) : Prop := List.Chain' (· < ·) l

/-- The book after resting `BUY 995×10` on the fresh book (spec scenario 1);
shared base state of several witnesses. -/
def bookAfterBuy995 : OrderBook := (submit_order initBook 995 10 true 0 1 10).book

/-- The spec's scenario 1 then 2: rest `BUY 995×10`, then insert
`SELL 990×4` (claim C1). -/
def c1Msgs : List InMsg :=
  [InMsg.insertOrder 0 1 SideT.BUY 995 10 Lifespan.GOOD_FOR_DAY,
    InMsg.insertOrder 1 2 SideT.SELL 990 4 Lifespan.GOOD_FOR_DAY]

/-- The operation sequence of claim C3's counterexample: rest bids 995×10 and
990×5, amend the 990 order (id 1) to total quantity zero, then insert
`SELL 990×5`. -/
def c3Book : OrderBook :=
  (submit_order
    (amend_order
      (submit_order (submit_order initBook 995 10 true 0 1 10).book 990 5 true 0 2 10).book
      0 3 1 0).book
    990 5 false 7 4 10).book

/-- A book whose bid-side pool has all `MAX_ORDERS` slots live (claim C6's
hypothesis). -/
def fullPoolBook : OrderBook :=
  { initBook with bids := { initBook.bids with pool_live := MAX_ORDERS } }

/-- Claim C8's counterexample run: a subscriber joins (snapshot), then a
resting insert follows. -/
def c8Msgs : List InMsg :=
  [InMsg.subscribe 5, InMsg.insertOrder 0 1 SideT.BUY 995 10 Lifespan.GOOD_FOR_DAY]

/-- Claim C4's failing input: `INSERT_ORDER` from connection 3 with
`client_request_id = 7`, a buy that rests. -/
def c4Msgs : List InMsg := [InMsg.insertOrder 3 7 SideT.BUY 995 10 Lifespan.GOOD_FOR_DAY]

/-- Claim C5's failing input: a fill-and-kill `INSERT_ORDER` whose residual
should be dropped. -/
def c5Msgs : List InMsg := [InMsg.insertOrder 1 9 SideT.SELL 990 4 Lifespan.FILL_AND_KILL]

/-! Helper lemmas about the FIFO-list operations. -/

theorem sumRem_nil : sumRem [] = 0 := rfl

theorem sumRem_cons (o : Order) (l : List Order) :
    sumRem (o :: l) = o.quantity_remaining + sumRem l := by
  simp [sumRem]

theorem sumRem_append_singleton (l : List Order) (o : Order) :
    sumRem (l ++ [o]) = sumRem l + o.quantity_remaining := by
  simp [sumRem]

theorem findById_mem (l : List Order) (id : Nat) (o : Order)
    (h : findById l id = some o) : o ∈ l := by
  exact List.mem_of_find?_eq_some h

theorem findById_id (l : List Order) (id : Nat) (o : Order)
    (h : findById l id = some o) : o.order_id = id := by
  have := List.find?_some h
  simpa using this

theorem findById_cons_self (o : Order) (l : List Order) (id : Nat) (h : o.order_id = id) :
    findById (o :: l) id = some o := by
  simp [findById, List.find?, h]

theorem findById_cons_ne (o : Order) (l : List Order) (id : Nat) (h : o.order_id ≠ id) :
    findById (o :: l) id = findById l id := by
  have hb : (o.order_id == id) = false := beq_eq_false_iff_ne.mpr h
  simp [findById, List.find?, hb]

theorem findById_none_of_lt (l : List Order) (n : Nat)
    (h : ∀ o ∈ l, o.order_id < n) : findById l n = none := by
  induction l with
  | nil => rfl
  | cons o rest ih =>
      have ho : o.order_id ≠ n := Nat.ne_of_lt (h o (List.mem_cons_self o rest))
      rw [findById_cons_ne o rest n ho]
      exact ih (fun o' h' => h o' (List.mem_cons_of_mem o h'))

theorem findById_append_of_some (l : List Order) (tl : List Order) (id : Nat) (o : Order)
    (h : findById l id = some o) : findById (l ++ tl) id = some o := by
  induction l with
  | nil => simp [findById] at h
  | cons a rest ih =>
      by_cases ha : a.order_id = id
      · rw [findById_cons_self a rest id ha] at h
        injection h with h'
        subst h'
        exact findById_cons_self a (rest ++ tl) id ha
      · rw [findById_cons_ne a rest id ha] at h
        rw [List.cons_append, findById_cons_ne a (rest ++ tl) id ha]
        exact ih h

theorem findById_append_of_none (l : List Order) (tl : List Order) (id : Nat)
    (h : findById l id = none) : findById (l ++ tl) id = findById tl id := by
  induction l with
  | nil => simp
  | cons a rest ih =>
      by_cases ha : a.order_id = id
      · rw [findById_cons_self a rest id ha] at h
        cases h
      · rw [findById_cons_ne a rest id ha] at h
        rw [List.cons_append, findById_cons_ne a (rest ++ tl) id ha]
        exact ih h

theorem mem_eraseById (l : List Order) (id : Nat) (o : Order)
    (h : o ∈ eraseById l id) : o ∈ l := by
  induction l with
  | nil => simp [eraseById] at h
  | cons a rest ih =>
      by_cases ha : a.order_id = id
      · simp [eraseById, ha] at h
        exact List.mem_cons_of_mem a h
      · simp [eraseById, ha] at h
        rcases h with h | h
        · exact h ▸ List.mem_cons_self a rest
        · exact List.mem_cons_of_mem a (ih h)

theorem sumRem_eraseById (l : List Order) (id : Nat) (o : Order)
    (h : findById l id = some o) :
    sumRem (eraseById l id) + o.quantity_remaining = sumRem l := by
  induction l with
  | nil => simp [findById] at h
  | cons a rest ih =>
      by_cases ha : a.order_id = id
      · rw [findById_cons_self a rest id ha] at h
        cases h
        simp [eraseById, ha, sumRem_cons, Nat.add_comm]
      · rw [findById_cons_ne a rest id ha] at h
        simp only [eraseById, ha, if_false, sumRem_cons]
        rw [Nat.add_assoc, ih h]

theorem findById_eraseById_ne (l : List Order) (id id' : Nat) (hne : id' ≠ id) :
    findById (eraseById l id) id' = findById l id' := by
  induction l with
  | nil => rfl
  | cons a rest ih =>
      by_cases ha : a.order_id = id
      · have : a.order_id ≠ id' := by rw [ha]; exact fun h => hne h.symm
        simp [eraseById, ha, findById_cons_ne a rest id' this]
      · by_cases ha' : a.order_id = id'
        · simp [eraseById, ha, findById_cons_self a rest id' ha',
            findById_cons_self a (eraseById rest id) id' ha']
        · simp [eraseById, ha, findById_cons_ne a rest id' ha',
            findById_cons_ne a (eraseById rest id) id' ha', ih]

theorem mem_updateById (l : List Order) (id : Nat) (o' o₂ : Order)
    (h : o₂ ∈ updateById l id o') : o₂ ∈ l ∨ o₂ = o' := by
  induction l with
  | nil => simp [updateById] at h
  | cons a rest ih =>
      by_cases ha : a.order_id = id
      · simp [updateById, ha] at h
        rcases h with h | h
        · exact Or.inr h
        · exact Or.inl (List.mem_cons_of_mem a h)
      · simp [updateById, ha] at h
        rcases h with h | h
        · exact Or.inl (h ▸ List.mem_cons_self a rest)
        · rcases ih h with h' | h'
          · exact Or.inl (List.mem_cons_of_mem a h')
          · exact Or.inr h'

theorem sumRem_updateById (l : List Order) (id : Nat) (o o' : Order)
    (h : findById l id = some o) :
    sumRem (updateById l id o') + o.quantity_remaining = sumRem l + o'.quantity_remaining := by
  induction l with
  | nil => simp [findById] at h
  | cons a rest ih =>
      by_cases ha : a.order_id = id
      · rw [findById_cons_self a rest id ha] at h
        cases h
        simp [updateById, ha, sumRem_cons]
        omega
      · rw [findById_cons_ne a rest id ha] at h
        have hih := ih h
        simp only [updateById, ha, if_false, sumRem_cons]
        omega

theorem findById_updateById_ne (l : List Order) (id id' : Nat) (o' : Order) (hne : id' ≠ id)
    (ho' : o'.order_id = id) :
    findById (updateById l id o') id' = findById l id' := by
  induction l with
  | nil => rfl
  | cons a rest ih =>
      by_cases ha : a.order_id = id
      · have h₁ : a.order_id ≠ id' := by rw [ha]; exact fun h => hne h.symm
        have h₂ : o'.order_id ≠ id' := by rw [ho']; exact fun h => hne h.symm
        simp [updateById, ha, findById_cons_ne a rest id' h₁,
          findById_cons_ne o' rest id' h₂]
      · by_cases ha' : a.order_id = id'
        · simp [updateById, ha, findById_cons_self a rest id' ha',
            findById_cons_self a (updateById rest id o') id' ha']
        · simp [updateById, ha, findById_cons_ne a rest id' ha',
            findById_cons_ne a (updateById rest id o') id' ha', ih]

theorem findById_updateById_self (l : List Order) (id : Nat) (o o' : Order)
    (h : findById l id = some o) (h' : o'.order_id = id) :
    findById (updateById l id o') id = some o' := by
  induction l with
  | nil => simp [findById] at h
  | cons a rest ih =>
      by_cases ha : a.order_id = id
      · simp [updateById, ha, findById_cons_self o' rest id h']
      · rw [findById_cons_ne a rest id ha] at h
        simp [updateById, ha, findById_cons_ne a (updateById rest id o') id ha, ih h]

/-! Helper lemmas about the state-writing primitives. -/

theorem setLevel_levels_self (s : OrderBookSide) (i : Nat) (lv : PriceLevel) :
    (setLevel s i lv).levels i = lv := by
  simp [setLevel]

theorem setLevel_levels_ne (s : OrderBookSide) (i j : Nat) (lv : PriceLevel) (h : j ≠ i) :
    (setLevel s i lv).levels j = s.levels j := by
  simp [setLevel, h]

theorem setLevel_is_bid (s : OrderBookSide) (i : Nat) (lv : PriceLevel) :
    (setLevel s i lv).is_bid = s.is_bid := rfl

theorem setLevel_pool_live (s : OrderBookSide) (i : Nat) (lv : PriceLevel) :
    (setLevel s i lv).pool_live = s.pool_live := rfl

theorem setIndex_self (f : Nat → IndexEntry) (id : Nat) (e : IndexEntry) :
    setIndex f id e id = e := by
  simp [setIndex]

theorem setIndex_ne (f : Nat → IndexEntry) (id j : Nat) (e : IndexEntry) (h : j ≠ id) :
    setIndex f id e j = f j := by
  simp [setIndex, h]

theorem eraseIds_entry (ids : List Nat) (f : Nat → IndexEntry) (id : Nat) :
    eraseIds f ids id = f id ∨ eraseIds f ids id = IndexEntry.absent := by
  induction ids generalizing f with
  | nil => exact Or.inl rfl
  | cons a rest ih =>
      rcases ih (setIndex f a IndexEntry.absent) with h | h
      · by_cases ha : id = a
        · subst ha
          rw [eraseIds, h, setIndex_self]
          exact Or.inr rfl
        · rw [eraseIds, h, setIndex_ne f a id _ ha]
          exact Or.inl rfl
      · exact Or.inr (by rw [eraseIds, h])

theorem eraseIds_not_mem (ids : List Nat) (f : Nat → IndexEntry) (id : Nat)
    (h : id ∉ ids) : eraseIds f ids id = f id := by
  induction ids generalizing f with
  | nil => rfl
  | cons a rest ih =>
      have ha : id ≠ a := fun he => h (he ▸ List.mem_cons_self a rest)
      have hr : id ∉ rest := fun he => h (List.mem_cons_of_mem a he)
      rw [eraseIds, ih _ hr, setIndex_ne f a id _ ha]

theorem update_best_bid_after_order_levels (s : OrderBookSide) (i : Nat) :
    (update_best_bid_after_order s i).levels = s.levels := by
  unfold update_best_bid_after_order; split <;> rfl

theorem update_best_bid_after_order_pool (s : OrderBookSide) (i : Nat) :
    (update_best_bid_after_order s i).pool_live = s.pool_live := by
  unfold update_best_bid_after_order; split <;> rfl

theorem update_best_bid_after_order_is_bid (s : OrderBookSide) (i : Nat) :
    (update_best_bid_after_order s i).is_bid = s.is_bid := by
  unfold update_best_bid_after_order; split <;> rfl

theorem update_best_ask_after_order_levels (s : OrderBookSide) (i : Nat) :
    (update_best_ask_after_order s i).levels = s.levels := by
  unfold update_best_ask_after_order; split <;> rfl

theorem update_best_ask_after_order_pool (s : OrderBookSide) (i : Nat) :
    (update_best_ask_after_order s i).pool_live = s.pool_live := by
  unfold update_best_ask_after_order; split <;> rfl

theorem update_best_ask_after_order_is_bid (s : OrderBookSide) (i : Nat) :
    (update_best_ask_after_order s i).is_bid = s.is_bid := by
  unfold update_best_ask_after_order; split <;> rfl

theorem update_best_bid_after_empty_levels (s : OrderBookSide) :
    (update_best_bid_after_empty s).levels = s.levels := by
  unfold update_best_bid_after_empty; split <;> rfl

theorem update_best_bid_after_empty_pool (s : OrderBookSide) :
    (update_best_bid_after_empty s).pool_live = s.pool_live := by
  unfold update_best_bid_after_empty; split <;> rfl

theorem update_best_bid_after_empty_is_bid (s : OrderBookSide) :
    (update_best_bid_after_empty s).is_bid = s.is_bid := by
  unfold update_best_bid_after_empty; split <;> rfl

theorem update_best_ask_after_empty_levels (s : OrderBookSide) :
    (update_best_ask_after_empty s).levels = s.levels := by
  unfold update_best_ask_after_empty; split <;> rfl

theorem update_best_ask_after_empty_pool (s : OrderBookSide) :
    (update_best_ask_after_empty s).pool_live = s.pool_live := by
  unfold update_best_ask_after_empty; split <;> rfl

theorem update_best_ask_after_empty_is_bid (s : OrderBookSide) :
    (update_best_ask_after_empty s).is_bid = s.is_bid := by
  unfold update_best_ask_after_empty; split <;> rfl

/-! Lemmas about the best-index scans. -/

theorem scanDown_lt (levels : Nat → PriceLevel) :
    ∀ k j, scanDown levels k = some j → j < k := by
  intro k
  induction k with
  | zero => intro j h; simp [scanDown] at h
  | succ i ih =>
      intro j h
      rw [scanDown] at h
      by_cases hi : (levels i).total_quantity > 0
      · simp [hi] at h
        omega
      · simp [hi] at h
        exact Nat.lt_succ_of_lt (ih j h)

theorem scanUp_lt (levels : Nat → PriceLevel) :
    ∀ fuel i j, scanUp levels i fuel = some j → j < i + fuel := by
  intro fuel
  induction fuel with
  | zero => intro i j h; simp [scanUp] at h
  | succ n ih =>
      intro i j h
      rw [scanUp] at h
      by_cases hi : (levels i).total_quantity > 0
      · simp [hi] at h
        omega
      · simp [hi] at h
        have := ih (i + 1) j h
        omega

theorem update_best_bid_after_order_best_le (s : OrderBookSide) (i : Nat)
    (hi : i < NUM_BOOK_LEVELS) (h : s.best_price_index ≤ NUM_BOOK_LEVELS) :
    (update_best_bid_after_order s i).best_price_index ≤ NUM_BOOK_LEVELS := by
  unfold update_best_bid_after_order
  split
  · exact Nat.le_of_lt hi
  · exact h

theorem update_best_ask_after_order_best_le (s : OrderBookSide) (i : Nat)
    (hi : i < NUM_BOOK_LEVELS) (h : s.best_price_index ≤ NUM_BOOK_LEVELS) :
    (update_best_ask_after_order s i).best_price_index ≤ NUM_BOOK_LEVELS := by
  unfold update_best_ask_after_order
  split
  · exact Nat.le_of_lt hi
  · exact h

theorem update_best_bid_after_empty_best_le (s : OrderBookSide)
    (h : s.best_price_index ≤ NUM_BOOK_LEVELS) :
    (update_best_bid_after_empty s).best_price_index ≤ NUM_BOOK_LEVELS := by
  unfold update_best_bid_after_empty
  cases hs : scanDown s.levels s.best_price_index with
  | none => exact Nat.le_refl _
  | some j =>
      have := scanDown_lt s.levels s.best_price_index j hs
      simp only []
      omega

theorem update_best_ask_after_empty_best_le (s : OrderBookSide)
    (h : s.best_price_index ≤ NUM_BOOK_LEVELS) :
    (update_best_ask_after_empty s).best_price_index ≤ NUM_BOOK_LEVELS := by
  unfold update_best_ask_after_empty
  cases hs : scanUp s.levels (s.best_price_index + 1)
      (NUM_BOOK_LEVELS - (s.best_price_index + 1)) with
  | none => exact Nat.le_refl _
  | some j =>
      have := scanUp_lt s.levels (NUM_BOOK_LEVELS - (s.best_price_index + 1))
        (s.best_price_index + 1) j hs
      simp only []
      omega

/-! Step-characterisation lemmas for `match_loop`. -/

theorem match_loop_fuel_zero (crosses : Int → Int → Bool)
    (advance : OrderBookSide → OrderBookSide) (ip : Int) (T oid cid : Nat) (ms : SideT)
    (s : OrderBookSide) (q : Nat) (evs : List BookEvent) (filled : List Nat) :
    match_loop crosses advance ip T oid cid ms 0 s q evs filled =
      { side := s, remaining := q, events := evs, filled := filled, out_of_fuel := true } := rfl

theorem match_loop_q_zero (crosses : Int → Int → Bool)
    (advance : OrderBookSide → OrderBookSide) (ip : Int) (T oid cid : Nat) (ms : SideT)
    (n : Nat) (s : OrderBookSide) (q : Nat) (evs : List BookEvent) (filled : List Nat)
    (hq : q = 0) :
    match_loop crosses advance ip T oid cid ms (n + 1) s q evs filled =
      { side := s, remaining := q, events := evs, filled := filled, out_of_fuel := false } := by
  rw [match_loop]
  simp [hq]

theorem match_loop_best_empty (crosses : Int → Int → Bool)
    (advance : OrderBookSide → OrderBookSide) (ip : Int) (T oid cid : Nat) (ms : SideT)
    (n : Nat) (s : OrderBookSide) (q : Nat) (evs : List BookEvent) (filled : List Nat)
    (hq : q ≠ 0) (hb : s.best_price_index = NUM_BOOK_LEVELS) :
    match_loop crosses advance ip T oid cid ms (n + 1) s q evs filled =
      { side := s, remaining := q, events := evs, filled := filled, out_of_fuel := false } := by
  rw [match_loop]
  simp [hq, hb]

theorem match_loop_no_cross (crosses : Int → Int → Bool)
    (advance : OrderBookSide → OrderBookSide) (ip : Int) (T oid cid : Nat) (ms : SideT)
    (n : Nat) (s : OrderBookSide) (q : Nat) (evs : List BookEvent) (filled : List Nat)
    (hq : q ≠ 0) (hb : s.best_price_index ≠ NUM_BOOK_LEVELS)
    (hc : crosses (s.levels s.best_price_index).price ip = false) :
    match_loop crosses advance ip T oid cid ms (n + 1) s q evs filled =
      { side := s, remaining := q, events := evs, filled := filled, out_of_fuel := false } := by
  rw [match_loop]
  simp [hq, hb, hc]

theorem match_loop_level_no_orders (crosses : Int → Int → Bool)
    (advance : OrderBookSide → OrderBookSide) (ip : Int) (T oid cid : Nat) (ms : SideT)
    (n : Nat) (s : OrderBookSide) (q : Nat) (evs : List BookEvent) (filled : List Nat)
    (hq : q ≠ 0) (hb : s.best_price_index ≠ NUM_BOOK_LEVELS)
    (hc : crosses (s.levels s.best_price_index).price ip = true)
    (ho : (s.levels s.best_price_index).orders = []) :
    match_loop crosses advance ip T oid cid ms (n + 1) s q evs filled =
      match_loop crosses advance ip T oid cid ms n s q evs filled := by
  rw [match_loop]
  simp [hq, hb, hc, ho]

theorem match_loop_trade_full (crosses : Int → Int → Bool)
    (advance : OrderBookSide → OrderBookSide) (ip : Int) (T oid cid : Nat) (ms : SideT)
    (n : Nat) (s : OrderBookSide) (q : Nat) (evs : List BookEvent) (filled : List Nat)
    (maker : Order) (rest : List Order)
    (hq : q ≠ 0) (hb : s.best_price_index ≠ NUM_BOOK_LEVELS)
    (hc : crosses (s.levels s.best_price_index).price ip = true)
    (ho : (s.levels s.best_price_index).orders = maker :: rest)
    (hz : maker.quantity_remaining - min maker.quantity_remaining q = 0) :
    match_loop crosses advance ip T oid cid ms (n + 1) s q evs filled =
      (let t := min maker.quantity_remaining q
       let maker' := { maker with
        quantity_remaining := maker.quantity_remaining - t
        quantity_cumulative := maker.quantity_cumulative + t }
       let level' := { s.levels s.best_price_index with
        total_quantity := (s.levels s.best_price_index).total_quantity - t
        orders := maker' :: rest }
       let s₁ := setLevel s s.best_price_index { level' with orders := rest }
       let s₂ := if rest.isEmpty then advance s₁ else s₁
       match_loop crosses advance ip T oid cid ms n
        { s₂ with pool_live := s₂.pool_live - 1 } (q - t)
        (evs ++
          [BookEvent.onTrade maker' cid oid maker.price T (T - (q - t)) t,
            BookEvent.onLevelUpdate ms level'.price level'.total_quantity])
        (filled ++ [maker.order_id])) := by
  rw [match_loop]
  simp [hq, hb, hc, ho, hz]

theorem match_loop_trade_remain (crosses : Int → Int → Bool)
    (advance : OrderBookSide → OrderBookSide) (ip : Int) (T oid cid : Nat) (ms : SideT)
    (n : Nat) (s : OrderBookSide) (q : Nat) (evs : List BookEvent) (filled : List Nat)
    (maker : Order) (rest : List Order)
    (hq : q ≠ 0) (hb : s.best_price_index ≠ NUM_BOOK_LEVELS)
    (hc : crosses (s.levels s.best_price_index).price ip = true)
    (ho : (s.levels s.best_price_index).orders = maker :: rest)
    (hz : maker.quantity_remaining - min maker.quantity_remaining q ≠ 0) :
    match_loop crosses advance ip T oid cid ms (n + 1) s q evs filled =
      (let t := min maker.quantity_remaining q
       let maker' := { maker with
        quantity_remaining := maker.quantity_remaining - t
        quantity_cumulative := maker.quantity_cumulative + t }
       let level' := { s.levels s.best_price_index with
        total_quantity := (s.levels s.best_price_index).total_quantity - t
        orders := maker' :: rest }
       match_loop crosses advance ip T oid cid ms n
        (setLevel s s.best_price_index level') (q - t)
        (evs ++
          [BookEvent.onTrade maker' cid oid maker.price T (T - (q - t)) t,
            BookEvent.onLevelUpdate ms level'.price level'.total_quantity])
        filled) := by
  rw [match_loop]
  simp [hq, hb, hc, ho, hz]

/-! Inductive facts about `match_loop`. -/

theorem match_loop_side_is_bid (crosses : Int → Int → Bool)
    (advance : OrderBookSide → OrderBookSide)
    (hadv : ∀ s, (advance s).is_bid = s.is_bid)
    (ip : Int) (T oid cid : Nat) (ms : SideT) :
    ∀ fuel s q evs filled,
      (match_loop crosses advance ip T oid cid ms fuel s q evs filled).side.is_bid
        = s.is_bid := by
  intro fuel
  induction fuel with
  | zero => intro s q evs filled; rw [match_loop_fuel_zero]
  | succ n ih =>
      intro s q evs filled
      by_cases hq : q = 0
      · rw [match_loop_q_zero crosses advance ip T oid cid ms n s q evs filled hq]
      by_cases hb : s.best_price_index = NUM_BOOK_LEVELS
      · rw [match_loop_best_empty crosses advance ip T oid cid ms n s q evs filled hq hb]
      cases hc : crosses (s.levels s.best_price_index).price ip with
      | false =>
          rw [match_loop_no_cross crosses advance ip T oid cid ms n s q evs filled hq hb hc]
      | true =>
          cases ho : (s.levels s.best_price_index).orders with
          | nil =>
              rw [match_loop_level_no_orders crosses advance ip T oid cid ms n s q evs filled
                hq hb hc ho]
              exact ih s q evs filled
          | cons maker rest =>
              by_cases hz : maker.quantity_remaining - min maker.quantity_remaining q = 0
              · rw [match_loop_trade_full crosses advance ip T oid cid ms n s q evs filled
                  maker rest hq hb hc ho hz]
                dsimp only
                rw [ih]
                by_cases hrest : rest.isEmpty <;> simp [hrest, hadv, setLevel]
              · rw [match_loop_trade_remain crosses advance ip T oid cid ms n s q evs filled
                  maker rest hq hb hc ho hz]
                dsimp only
                rw [ih]
                rfl

theorem match_loop_pool_le (crosses : Int → Int → Bool)
    (advance : OrderBookSide → OrderBookSide)
    (hadv : ∀ s, (advance s).pool_live = s.pool_live)
    (ip : Int) (T oid cid : Nat) (ms : SideT) :
    ∀ fuel s q evs filled,
      (match_loop crosses advance ip T oid cid ms fuel s q evs filled).side.pool_live
        ≤ s.pool_live := by
  intro fuel
  induction fuel with
  | zero => intro s q evs filled; rw [match_loop_fuel_zero]
  | succ n ih =>
      intro s q evs filled
      by_cases hq : q = 0
      · rw [match_loop_q_zero crosses advance ip T oid cid ms n s q evs filled hq]
      by_cases hb : s.best_price_index = NUM_BOOK_LEVELS
      · rw [match_loop_best_empty crosses advance ip T oid cid ms n s q evs filled hq hb]
      cases hc : crosses (s.levels s.best_price_index).price ip with
      | false =>
          rw [match_loop_no_cross crosses advance ip T oid cid ms n s q evs filled hq hb hc]
      | true =>
          cases ho : (s.levels s.best_price_index).orders with
          | nil =>
              rw [match_loop_level_no_orders crosses advance ip T oid cid ms n s q evs filled
                hq hb hc ho]
              exact ih s q evs filled
          | cons maker rest =>
              by_cases hz : maker.quantity_remaining - min maker.quantity_remaining q = 0
              · rw [match_loop_trade_full crosses advance ip T oid cid ms n s q evs filled
                  maker rest hq hb hc ho hz]
                dsimp only
                refine Nat.le_trans (ih _ _ _ _) ?_
                by_cases hrest : rest.isEmpty <;> simp [hrest, hadv, setLevel]
              · rw [match_loop_trade_remain crosses advance ip T oid cid ms n s q evs filled
                  maker rest hq hb hc ho hz]
                dsimp only
                exact ih _ _ _ _

theorem match_loop_filled_mono (crosses : Int → Int → Bool)
    (advance : OrderBookSide → OrderBookSide) (ip : Int) (T oid cid : Nat) (ms : SideT) :
    ∀ fuel s q evs filled x, x ∈ filled →
      x ∈ (match_loop crosses advance ip T oid cid ms fuel s q evs filled).filled := by
  intro fuel
  induction fuel with
  | zero => intro s q evs filled x hx; rw [match_loop_fuel_zero]; exact hx
  | succ n ih =>
      intro s q evs filled x hx
      by_cases hq : q = 0
      · rw [match_loop_q_zero crosses advance ip T oid cid ms n s q evs filled hq]; exact hx
      by_cases hb : s.best_price_index = NUM_BOOK_LEVELS
      · rw [match_loop_best_empty crosses advance ip T oid cid ms n s q evs filled hq hb]
        exact hx
      cases hc : crosses (s.levels s.best_price_index).price ip with
      | false =>
          rw [match_loop_no_cross crosses advance ip T oid cid ms n s q evs filled hq hb hc]
          exact hx
      | true =>
          cases ho : (s.levels s.best_price_index).orders with
          | nil =>
              rw [match_loop_level_no_orders crosses advance ip T oid cid ms n s q evs filled
                hq hb hc ho]
              exact ih s q evs filled x hx
          | cons maker rest =>
              by_cases hz : maker.quantity_remaining - min maker.quantity_remaining q = 0
              · rw [match_loop_trade_full crosses advance ip T oid cid ms n s q evs filled
                  maker rest hq hb hc ho hz]
                dsimp only
                exact ih _ _ _ _ x (List.mem_append_left _ hx)
              · rw [match_loop_trade_remain crosses advance ip T oid cid ms n s q evs filled
                  maker rest hq hb hc ho hz]
                dsimp only
                exact ih _ _ _ _ x hx

theorem sideWf_of_eq_fields (s s' : OrderBookSide) (hlv : s'.levels = s.levels)
    (hbid : s'.is_bid = s.is_bid) (hbest : s'.best_price_index ≤ NUM_BOOK_LEVELS)
    (hwf : SideWf s) : SideWf s' := by
  refine ⟨?_, ?_, ?_, ?_, hbest⟩
  · intro i hi; rw [hlv]; exact hwf.sum_eq i hi
  · intro i hi; rw [hlv]; exact hwf.price_eq i hi
  · intro i hi; rw [hlv, hbid]; exact hwf.flag_eq i hi
  · intro i hi; rw [hlv]; exact hwf.level_price i hi

theorem sideWf_setLevel_trade (s : OrderBookSide) (lidx : Nat) (hl : lidx < NUM_BOOK_LEVELS)
    (maker : Order) (rest : List Order) (ho : (s.levels lidx).orders = maker :: rest)
    (t : Nat) (ht : t ≤ maker.quantity_remaining) (hwf : SideWf s)
    (tail : List Order)
    (htail : tail = { maker with
        quantity_remaining := maker.quantity_remaining - t
        quantity_cumulative := maker.quantity_cumulative + t } :: rest ∨
      (tail = rest ∧ maker.quantity_remaining = t)) :
    SideWf (setLevel s lidx
      { s.levels lidx with
        total_quantity := (s.levels lidx).total_quantity - t
        orders := tail }) := by
  refine ⟨?_, ?_, ?_, ?_, ?_⟩
  · intro i hi
    by_cases hil : i = lidx
    · subst hil
      have hsum := hwf.sum_eq i hi
      rw [ho, sumRem_cons] at hsum
      rw [setLevel_levels_self]
      dsimp only
      rcases htail with h | ⟨h, hmt⟩ <;> subst h
      · rw [sumRem_cons]
        dsimp only
        omega
      · omega
    · rw [setLevel_levels_ne s lidx i _ hil]
      exact hwf.sum_eq i hi
  · intro i hi o hmem
    by_cases hil : i = lidx
    · subst hil
      have hp := hwf.price_eq i hi
      rw [ho] at hp
      rw [setLevel_levels_self] at hmem ⊢
      dsimp only at hmem ⊢
      rcases htail with h | ⟨h, _⟩ <;> subst h
      · rcases List.mem_cons.mp hmem with h | h
        · subst h
          exact hp maker (List.mem_cons_self _ _)
        · exact hp o (List.mem_cons_of_mem _ h)
      · exact hp o (List.mem_cons_of_mem _ hmem)
    · rw [setLevel_levels_ne s lidx i _ hil] at hmem ⊢
      exact hwf.price_eq i hi o hmem
  · intro i hi o hmem
    rw [setLevel_is_bid]
    by_cases hil : i = lidx
    · subst hil
      have hf := hwf.flag_eq i hi
      rw [ho] at hf
      rw [setLevel_levels_self] at hmem
      dsimp only at hmem
      rcases htail with h | ⟨h, _⟩ <;> subst h
      · rcases List.mem_cons.mp hmem with h | h
        · subst h
          exact hf maker (List.mem_cons_self _ _)
        · exact hf o (List.mem_cons_of_mem _ h)
      · exact hf o (List.mem_cons_of_mem _ hmem)
    · rw [setLevel_levels_ne s lidx i _ hil] at hmem
      exact hwf.flag_eq i hi o hmem
  · intro i hi
    by_cases hil : i = lidx
    · subst hil
      rw [setLevel_levels_self]
      dsimp only
      exact hwf.level_price i hi
    · rw [setLevel_levels_ne s lidx i _ hil]
      exact hwf.level_price i hi
  · exact hwf.best_le

theorem match_loop_sideWf (crosses : Int → Int → Bool)
    (advance : OrderBookSide → OrderBookSide)
    (hadv_lv : ∀ s, (advance s).levels = s.levels)
    (hadv_bid : ∀ s, (advance s).is_bid = s.is_bid)
    (hadv_best : ∀ s, s.best_price_index ≤ NUM_BOOK_LEVELS →
      (advance s).best_price_index ≤ NUM_BOOK_LEVELS)
    (ip : Int) (T oid cid : Nat) (ms : SideT) :
    ∀ fuel s q evs filled, SideWf s →
      SideWf (match_loop crosses advance ip T oid cid ms fuel s q evs filled).side := by
  intro fuel
  induction fuel with
  | zero => intro s q evs filled hwf; rw [match_loop_fuel_zero]; exact hwf
  | succ n ih =>
      intro s q evs filled hwf
      by_cases hq : q = 0
      · rw [match_loop_q_zero crosses advance ip T oid cid ms n s q evs filled hq]; exact hwf
      by_cases hb : s.best_price_index = NUM_BOOK_LEVELS
      · rw [match_loop_best_empty crosses advance ip T oid cid ms n s q evs filled hq hb]
        exact hwf
      cases hc : crosses (s.levels s.best_price_index).price ip with
      | false =>
          rw [match_loop_no_cross crosses advance ip T oid cid ms n s q evs filled hq hb hc]
          exact hwf
      | true =>
          have hl : s.best_price_index < NUM_BOOK_LEVELS :=
            Nat.lt_of_le_of_ne hwf.best_le hb
          cases ho : (s.levels s.best_price_index).orders with
          | nil =>
              rw [match_loop_level_no_orders crosses advance ip T oid cid ms n s q evs filled
                hq hb hc ho]
              exact ih s q evs filled hwf
          | cons maker rest =>
              by_cases hz : maker.quantity_remaining - min maker.quantity_remaining q = 0
              · rw [match_loop_trade_full crosses advance ip T oid cid ms n s q evs filled
                  maker rest hq hb hc ho hz]
                dsimp only
                apply ih
                have hmt : maker.quantity_remaining = min maker.quantity_remaining q := by
                  have := Nat.min_le_left maker.quantity_remaining q
                  omega
                have hwf₁ : SideWf (setLevel s s.best_price_index
                    { s.levels s.best_price_index with
                      total_quantity := (s.levels s.best_price_index).total_quantity -
                        min maker.quantity_remaining q
                      orders := rest }) :=
                  sideWf_setLevel_trade s s.best_price_index hl maker rest ho
                    (min maker.quantity_remaining q) (Nat.min_le_left _ _) hwf rest
                    (Or.inr ⟨rfl, hmt⟩)
                by_cases hrest : rest.isEmpty = true
                · rw [if_pos hrest]
                  refine sideWf_of_eq_fields _ _ ?_ ?_ ?_ hwf₁
                  · exact hadv_lv _
                  · exact hadv_bid _
                  · exact hadv_best _ hwf₁.best_le
                · rw [if_neg hrest]
                  refine sideWf_of_eq_fields _ _ ?_ ?_ ?_ hwf₁
                  · rfl
                  · rfl
                  · exact hwf₁.best_le
              · rw [match_loop_trade_remain crosses advance ip T oid cid ms n s q evs filled
                  maker rest hq hb hc ho hz]
                dsimp only
                apply ih
                exact sideWf_setLevel_trade s s.best_price_index hl maker rest ho
                  (min maker.quantity_remaining q) (Nat.min_le_left _ _) hwf _ (Or.inl rfl)

theorem match_loop_fresh (crosses : Int → Int → Bool)
    (advance : OrderBookSide → OrderBookSide)
    (hadv_lv : ∀ s, (advance s).levels = s.levels)
    (hadv_best : ∀ s, s.best_price_index ≤ NUM_BOOK_LEVELS →
      (advance s).best_price_index ≤ NUM_BOOK_LEVELS)
    (ip : Int) (T oid cid : Nat) (ms : SideT) (n : Nat) :
    ∀ fuel s q evs filled,
      s.best_price_index ≤ NUM_BOOK_LEVELS →
      (∀ i, i < NUM_BOOK_LEVELS → ∀ o ∈ (s.levels i).orders, o.order_id < n) →
      (∀ x ∈ filled, x < n) →
      (∀ i, i < NUM_BOOK_LEVELS →
        ∀ o ∈ ((match_loop crosses advance ip T oid cid ms fuel s q evs filled).side.levels i).orders,
          o.order_id < n) ∧
      (∀ x ∈ (match_loop crosses advance ip T oid cid ms fuel s q evs filled).filled, x < n) := by
  intro fuel
  induction fuel with
  | zero =>
      intro s q evs filled hbest hlv hfl
      rw [match_loop_fuel_zero]
      exact ⟨hlv, hfl⟩
  | succ m ih =>
      intro s q evs filled hbest hlv hfl
      by_cases hq : q = 0
      · rw [match_loop_q_zero crosses advance ip T oid cid ms m s q evs filled hq]
        exact ⟨hlv, hfl⟩
      by_cases hb : s.best_price_index = NUM_BOOK_LEVELS
      · rw [match_loop_best_empty crosses advance ip T oid cid ms m s q evs filled hq hb]
        exact ⟨hlv, hfl⟩
      cases hc : crosses (s.levels s.best_price_index).price ip with
      | false =>
          rw [match_loop_no_cross crosses advance ip T oid cid ms m s q evs filled hq hb hc]
          exact ⟨hlv, hfl⟩
      | true =>
          have hl : s.best_price_index < NUM_BOOK_LEVELS := Nat.lt_of_le_of_ne hbest hb
          cases ho : (s.levels s.best_price_index).orders with
          | nil =>
              rw [match_loop_level_no_orders crosses advance ip T oid cid ms m s q evs filled
                hq hb hc ho]
              exact ih s q evs filled hbest hlv hfl
          | cons maker rest =>
              have hmaker : maker.order_id < n := by
                have := hlv s.best_price_index hl maker
                rw [ho] at this
                exact this (List.mem_cons_self _ _)
              have hrest_lt : ∀ o ∈ rest, o.order_id < n := by
                intro o hmem
                have := hlv s.best_price_index hl o
                rw [ho] at this
                exact this (List.mem_cons_of_mem _ hmem)
              by_cases hz : maker.quantity_remaining - min maker.quantity_remaining q = 0
              · rw [match_loop_trade_full crosses advance ip T oid cid ms m s q evs filled
                  maker rest hq hb hc ho hz]
                dsimp only
                apply ih
                · by_cases hrest : rest.isEmpty = true
                  · rw [if_pos hrest]
                    exact hadv_best _ hbest
                  · rw [if_neg hrest]
                    exact hbest
                · intro i hi o hmem
                  have hlvls : ∀ j, ({ (if rest.isEmpty = true then
                        advance (setLevel s s.best_price_index
                          { s.levels s.best_price_index with
                            total_quantity := (s.levels s.best_price_index).total_quantity -
                              min maker.quantity_remaining q
                            orders := rest })
                      else setLevel s s.best_price_index
                          { s.levels s.best_price_index with
                            total_quantity := (s.levels s.best_price_index).total_quantity -
                              min maker.quantity_remaining q
                            orders := rest }) with
                      pool_live := (if rest.isEmpty = true then
                        advance (setLevel s s.best_price_index
                          { s.levels s.best_price_index with
                            total_quantity := (s.levels s.best_price_index).total_quantity -
                              min maker.quantity_remaining q
                            orders := rest })
                      else setLevel s s.best_price_index
                          { s.levels s.best_price_index with
                            total_quantity := (s.levels s.best_price_index).total_quantity -
                              min maker.quantity_remaining q
                            orders := rest }).pool_live - 1 } : OrderBookSide).levels j
                      = (setLevel s s.best_price_index
                          { s.levels s.best_price_index with
                            total_quantity := (s.levels s.best_price_index).total_quantity -
                              min maker.quantity_remaining q
                            orders := rest }).levels j := by
                    intro j
                    by_cases hrest : rest.isEmpty = true
                    · rw [if_pos hrest]
                      show (advance _).levels j = _
                      rw [hadv_lv]
                    · rw [if_neg hrest]
                  rw [hlvls] at hmem
                  by_cases hil : i = s.best_price_index
                  · subst hil
                    rw [setLevel_levels_self] at hmem
                    exact hrest_lt o hmem
                  · rw [setLevel_levels_ne _ _ _ _ hil] at hmem
                    exact hlv i hi o hmem
                · intro x hx
                  rcases List.mem_append.mp hx with h | h
                  · exact hfl x h
                  · rw [List.mem_singleton] at h
                    exact h ▸ hmaker
              · rw [match_loop_trade_remain crosses advance ip T oid cid ms m s q evs filled
                  maker rest hq hb hc ho hz]
                dsimp only
                apply ih
                · exact hbest
                · intro i hi o hmem
                  by_cases hil : i = s.best_price_index
                  · subst hil
                    rw [setLevel_levels_self] at hmem
                    dsimp only at hmem
                    rcases List.mem_cons.mp hmem with h | h
                    · subst h
                      exact hmaker
                    · exact hrest_lt o h
                  · rw [setLevel_levels_ne _ _ _ _ hil] at hmem
                    exact hlv i hi o hmem
                · exact hfl

theorem levels_of_ite (advance : OrderBookSide → OrderBookSide)
    (hadv_lv : ∀ s, (advance s).levels = s.levels) (s' : OrderBookSide) (c : Bool) :
    (if c = true then advance s' else s').levels = s'.levels := by
  by_cases hc : c = true
  · rw [if_pos hc]
    exact hadv_lv s'
  · rw [if_neg hc]

theorem match_loop_find_preserved (crosses : Int → Int → Bool)
    (advance : OrderBookSide → OrderBookSide)
    (hadv_lv : ∀ s, (advance s).levels = s.levels)
    (ip : Int) (T oid cid : Nat) (ms : SideT) :
    ∀ fuel s q evs filled i id o, i < NUM_BOOK_LEVELS →
      findById ((s.levels i).orders) id = some o →
      id ∉ (match_loop crosses advance ip T oid cid ms fuel s q evs filled).filled →
      ∃ o', findById
          (((match_loop crosses advance ip T oid cid ms fuel s q evs filled).side.levels i).orders)
          id = some o' ∧ o'.price = o.price ∧ o'.is_bid = o.is_bid := by
  intro fuel
  induction fuel with
  | zero =>
      intro s q evs filled i id o hi hfind hnot
      rw [match_loop_fuel_zero]
      exact ⟨o, hfind, rfl, rfl⟩
  | succ m ih =>
      intro s q evs filled i id o hi hfind hnot
      by_cases hq : q = 0
      · rw [match_loop_q_zero crosses advance ip T oid cid ms m s q evs filled hq]
        exact ⟨o, hfind, rfl, rfl⟩
      by_cases hb : s.best_price_index = NUM_BOOK_LEVELS
      · rw [match_loop_best_empty crosses advance ip T oid cid ms m s q evs filled hq hb]
        exact ⟨o, hfind, rfl, rfl⟩
      cases hc : crosses (s.levels s.best_price_index).price ip with
      | false =>
          rw [match_loop_no_cross crosses advance ip T oid cid ms m s q evs filled hq hb hc]
          exact ⟨o, hfind, rfl, rfl⟩
      | true =>
          cases ho : (s.levels s.best_price_index).orders with
          | nil =>
              rw [match_loop_level_no_orders crosses advance ip T oid cid ms m s q evs filled
                hq hb hc ho]
              rw [match_loop_level_no_orders crosses advance ip T oid cid ms m s q evs filled
                hq hb hc ho] at hnot
              exact ih s q evs filled i id o hi hfind hnot
          | cons maker rest =>
              by_cases hz : maker.quantity_remaining - min maker.quantity_remaining q = 0
              · rw [match_loop_trade_full crosses advance ip T oid cid ms m s q evs filled
                  maker rest hq hb hc ho hz] at hnot ⊢
                dsimp only at hnot ⊢
                by_cases hmid : maker.order_id = id
                · exfalso
                  apply hnot
                  apply match_loop_filled_mono
                  exact hmid ▸ List.mem_append_right _ (List.mem_singleton.mpr rfl)
                · apply ih
                  · exact hi
                  · by_cases hil : i = s.best_price_index
                    · subst hil
                      rw [ho, findById_cons_ne maker rest id hmid] at hfind
                      rw [show (({ (if rest.isEmpty = true then advance (setLevel s
                            s.best_price_index { s.levels s.best_price_index with
                              total_quantity := (s.levels s.best_price_index).total_quantity -
                                min maker.quantity_remaining q
                              orders := rest }) else setLevel s s.best_price_index
                            { s.levels s.best_price_index with
                              total_quantity := (s.levels s.best_price_index).total_quantity -
                                min maker.quantity_remaining q
                              orders := rest }) with
                          pool_live := (if rest.isEmpty = true then advance (setLevel s
                            s.best_price_index { s.levels s.best_price_index with
                              total_quantity := (s.levels s.best_price_index).total_quantity -
                                min maker.quantity_remaining q
                              orders := rest }) else setLevel s s.best_price_index
                            { s.levels s.best_price_index with
                              total_quantity := (s.levels s.best_price_index).total_quantity -
                                min maker.quantity_remaining q
                              orders := rest }).pool_live - 1 } : OrderBookSide).levels)
                        = (setLevel s s.best_price_index
                            { s.levels s.best_price_index with
                              total_quantity := (s.levels s.best_price_index).total_quantity -
                                min maker.quantity_remaining q
                              orders := rest }).levels from levels_of_ite advance hadv_lv _ _,
                        setLevel_levels_self]
                      exact hfind
                    · rw [show (({ (if rest.isEmpty = true then advance (setLevel s
                            s.best_price_index { s.levels s.best_price_index with
                              total_quantity := (s.levels s.best_price_index).total_quantity -
                                min maker.quantity_remaining q
                              orders := rest }) else setLevel s s.best_price_index
                            { s.levels s.best_price_index with
                              total_quantity := (s.levels s.best_price_index).total_quantity -
                                min maker.quantity_remaining q
                              orders := rest }) with
                          pool_live := (if rest.isEmpty = true then advance (setLevel s
                            s.best_price_index { s.levels s.best_price_index with
                              total_quantity := (s.levels s.best_price_index).total_quantity -
                                min maker.quantity_remaining q
                              orders := rest }) else setLevel s s.best_price_index
                            { s.levels s.best_price_index with
                              total_quantity := (s.levels s.best_price_index).total_quantity -
                                min maker.quantity_remaining q
                              orders := rest }).pool_live - 1 } : OrderBookSide).levels)
                        = (setLevel s s.best_price_index
                            { s.levels s.best_price_index with
                              total_quantity := (s.levels s.best_price_index).total_quantity -
                                min maker.quantity_remaining q
                              orders := rest }).levels from levels_of_ite advance hadv_lv _ _,
                        setLevel_levels_ne _ _ _ _ hil]
                      exact hfind
                  · exact hnot
              · rw [match_loop_trade_remain crosses advance ip T oid cid ms m s q evs filled
                  maker rest hq hb hc ho hz] at hnot ⊢
                dsimp only at hnot ⊢
                by_cases hil : i = s.best_price_index
                · subst hil
                  by_cases hmid : maker.order_id = id
                  · rw [ho, findById_cons_self maker rest id hmid] at hfind
                    injection hfind with hfo
                    obtain ⟨o', h₁, h₂, h₃⟩ := ih _ _ _ _ s.best_price_index id
                      { maker with
                        quantity_remaining := maker.quantity_remaining -
                          min maker.quantity_remaining q
                        quantity_cumulative := maker.quantity_cumulative +
                          min maker.quantity_remaining q }
                      hi (by
                        rw [setLevel_levels_self]
                        dsimp only
                        exact findById_cons_self _ rest id hmid) hnot
                    refine ⟨o', h₁, ?_, ?_⟩
                    · rw [h₂, ← hfo]
                    · rw [h₃, ← hfo]
                  · rw [ho, findById_cons_ne maker rest id hmid] at hfind
                    apply ih
                    · exact hi
                    · rw [setLevel_levels_self]
                      dsimp only
                      rw [findById_cons_ne { maker with
                          quantity_remaining := maker.quantity_remaining -
                            min maker.quantity_remaining q
                          quantity_cumulative := maker.quantity_cumulative +
                            min maker.quantity_remaining q } rest id hmid]
                      exact hfind
                    · exact hnot
                · apply ih
                  · exact hi
                  · rw [setLevel_levels_ne _ _ _ _ hil]
                    exact hfind
                  · exact hnot

theorem match_loop_events_shape (crosses : Int → Int → Bool)
    (advance : OrderBookSide → OrderBookSide)
    (ip : Int) (T oid cid : Nat) (ms : SideT) :
    ∀ fuel s q evs filled e,
      e ∈ (match_loop crosses advance ip T oid cid ms fuel s q evs filled).events →
      e ∈ evs ∨ (∃ mk a b c d f g, e = BookEvent.onTrade mk a b c d f g) ∨
        (∃ sd p v, e = BookEvent.onLevelUpdate sd p v) := by
  intro fuel
  induction fuel with
  | zero =>
      intro s q evs filled e he
      rw [match_loop_fuel_zero] at he
      exact Or.inl he
  | succ m ih =>
      intro s q evs filled e he
      by_cases hq : q = 0
      · rw [match_loop_q_zero crosses advance ip T oid cid ms m s q evs filled hq] at he
        exact Or.inl he
      by_cases hb : s.best_price_index = NUM_BOOK_LEVELS
      · rw [match_loop_best_empty crosses advance ip T oid cid ms m s q evs filled hq hb] at he
        exact Or.inl he
      cases hc : crosses (s.levels s.best_price_index).price ip with
      | false =>
          rw [match_loop_no_cross crosses advance ip T oid cid ms m s q evs filled hq hb hc]
            at he
          exact Or.inl he
      | true =>
          cases ho : (s.levels s.best_price_index).orders with
          | nil =>
              rw [match_loop_level_no_orders crosses advance ip T oid cid ms m s q evs filled
                hq hb hc ho] at he
              exact ih s q evs filled e he
          | cons maker rest =>
              have hstep : ∀ s' q' filled',
                  e ∈ (match_loop crosses advance ip T oid cid ms m s' q'
                    (evs ++
                      [BookEvent.onTrade { maker with
                          quantity_remaining := maker.quantity_remaining -
                            min maker.quantity_remaining q
                          quantity_cumulative := maker.quantity_cumulative +
                            min maker.quantity_remaining q } cid oid maker.price T
                          (T - (q - min maker.quantity_remaining q))
                          (min maker.quantity_remaining q),
                        BookEvent.onLevelUpdate ms (s.levels s.best_price_index).price
                          ((s.levels s.best_price_index).total_quantity -
                            min maker.quantity_remaining q)]) filled').events →
                  e ∈ evs ∨ (∃ mk a b c d f g, e = BookEvent.onTrade mk a b c d f g) ∨
                    (∃ sd p v, e = BookEvent.onLevelUpdate sd p v) := by
                intro s' q' filled' he'
                rcases ih s' q' _ filled' e he' with h | h | h
                · rcases List.mem_append.mp h with h | h
                  · exact Or.inl h
                  · rcases List.mem_cons.mp h with h | h
                    · subst h
                      exact Or.inr (Or.inl ⟨_, _, _, _, _, _, _, rfl⟩)
                    · rw [List.mem_singleton] at h
                      subst h
                      exact Or.inr (Or.inr ⟨_, _, _, rfl⟩)
                · exact Or.inr (Or.inl h)
                · exact Or.inr (Or.inr h)
              by_cases hz : maker.quantity_remaining - min maker.quantity_remaining q = 0
              · rw [match_loop_trade_full crosses advance ip T oid cid ms m s q evs filled
                  maker rest hq hb hc ho hz] at he
                dsimp only at he
                exact hstep _ _ _ he
              · rw [match_loop_trade_remain crosses advance ip T oid cid ms m s q evs filled
                  maker rest hq hb hc ho hz] at he
                dsimp only at he
                exact hstep _ _ _ he

theorem match_loop_trade_ok (crosses : Int → Int → Bool)
    (advance : OrderBookSide → OrderBookSide)
    (ip : Int) (T oid cid : Nat) (ms : SideT) :
    ∀ fuel s q evs filled, q ≤ T →
      (∀ e ∈ evs, tradePriceQtyOk e) →
      ∀ e ∈ (match_loop crosses advance ip T oid cid ms fuel s q evs filled).events,
        tradePriceQtyOk e := by
  intro fuel
  induction fuel with
  | zero =>
      intro s q evs filled hqT hacc e he
      rw [match_loop_fuel_zero] at he
      exact hacc e he
  | succ m ih =>
      intro s q evs filled hqT hacc e he
      by_cases hq : q = 0
      · rw [match_loop_q_zero crosses advance ip T oid cid ms m s q evs filled hq] at he
        exact hacc e he
      by_cases hb : s.best_price_index = NUM_BOOK_LEVELS
      · rw [match_loop_best_empty crosses advance ip T oid cid ms m s q evs filled hq hb] at he
        exact hacc e he
      cases hc : crosses (s.levels s.best_price_index).price ip with
      | false =>
          rw [match_loop_no_cross crosses advance ip T oid cid ms m s q evs filled hq hb hc]
            at he
          exact hacc e he
      | true =>
          cases ho : (s.levels s.best_price_index).orders with
          | nil =>
              rw [match_loop_level_no_orders crosses advance ip T oid cid ms m s q evs filled
                hq hb hc ho] at he
              exact ih s q evs filled hqT hacc e he
          | cons maker rest =>
              have hacc' : ∀ e' ∈ (evs ++
                  [BookEvent.onTrade { maker with
                      quantity_remaining := maker.quantity_remaining -
                        min maker.quantity_remaining q
                      quantity_cumulative := maker.quantity_cumulative +
                        min maker.quantity_remaining q } cid oid maker.price T
                      (T - (q - min maker.quantity_remaining q))
                      (min maker.quantity_remaining q),
                    BookEvent.onLevelUpdate ms (s.levels s.best_price_index).price
                      ((s.levels s.best_price_index).total_quantity -
                        min maker.quantity_remaining q)]), tradePriceQtyOk e' := by
                intro e' he'
                rcases List.mem_append.mp he' with h | h
                · exact hacc e' h
                rcases List.mem_cons.mp h with h | h
                · subst h
                  intro mk tcid toid pr tt tc tq heq
                  injection heq with h₁ h₂ h₃ h₄ h₅ h₆ h₇
                  subst h₁
                  subst h₄
                  subst h₅
                  subst h₆
                  subst h₇
                  constructor
                  · rfl
                  · dsimp only
                    have h₈ := Nat.min_le_left maker.quantity_remaining q
                    have h₉ := Nat.min_le_right maker.quantity_remaining q
                    omega
                · rw [List.mem_singleton] at h
                  subst h
                  intro mk tcid toid pr tt tc tq heq
                  cases heq
              by_cases hz : maker.quantity_remaining - min maker.quantity_remaining q = 0
              · rw [match_loop_trade_full crosses advance ip T oid cid ms m s q evs filled
                  maker rest hq hb hc ho hz] at he
                dsimp only at he
                exact ih _ _ _ _ (by omega) hacc' e he
              · rw [match_loop_trade_remain crosses advance ip T oid cid ms m s q evs filled
                  maker rest hq hb hc ho hz] at he
                dsimp only at he
                exact ih _ _ _ _ (by omega) hacc' e he

theorem match_loop_maker_flag (crosses : Int → Int → Bool)
    (advance : OrderBookSide → OrderBookSide)
    (hadv_lv : ∀ s, (advance s).levels = s.levels)
    (hadv_best : ∀ s, s.best_price_index ≤ NUM_BOOK_LEVELS →
      (advance s).best_price_index ≤ NUM_BOOK_LEVELS)
    (ip : Int) (T oid cid : Nat) (ms : SideT) (f : Bool) :
    ∀ fuel s q evs filled,
      s.best_price_index ≤ NUM_BOOK_LEVELS →
      (∀ i, i < NUM_BOOK_LEVELS → ∀ o ∈ (s.levels i).orders, o.is_bid = f) →
      (∀ e ∈ evs, makerFlagOk f e) →
      ∀ e ∈ (match_loop crosses advance ip T oid cid ms fuel s q evs filled).events,
        makerFlagOk f e := by
  intro fuel
  induction fuel with
  | zero =>
      intro s q evs filled hbest hflag hacc e he
      rw [match_loop_fuel_zero] at he
      exact hacc e he
  | succ m ih =>
      intro s q evs filled hbest hflag hacc e he
      by_cases hq : q = 0
      · rw [match_loop_q_zero crosses advance ip T oid cid ms m s q evs filled hq] at he
        exact hacc e he
      by_cases hb : s.best_price_index = NUM_BOOK_LEVELS
      · rw [match_loop_best_empty crosses advance ip T oid cid ms m s q evs filled hq hb] at he
        exact hacc e he
      cases hc : crosses (s.levels s.best_price_index).price ip with
      | false =>
          rw [match_loop_no_cross crosses advance ip T oid cid ms m s q evs filled hq hb hc]
            at he
          exact hacc e he
      | true =>
          have hl : s.best_price_index < NUM_BOOK_LEVELS := Nat.lt_of_le_of_ne hbest hb
          cases ho : (s.levels s.best_price_index).orders with
          | nil =>
              rw [match_loop_level_no_orders crosses advance ip T oid cid ms m s q evs filled
                hq hb hc ho] at he
              exact ih s q evs filled hbest hflag hacc e he
          | cons maker rest =>
              have hmf : maker.is_bid = f := by
                have := hflag s.best_price_index hl maker
                rw [ho] at this
                exact this (List.mem_cons_self _ _)
              have hrest_f : ∀ o ∈ rest, o.is_bid = f := by
                intro o hmem
                have := hflag s.best_price_index hl o
                rw [ho] at this
                exact this (List.mem_cons_of_mem _ hmem)
              have hacc' : ∀ e' ∈ (evs ++
                  [BookEvent.onTrade { maker with
                      quantity_remaining := maker.quantity_remaining -
                        min maker.quantity_remaining q
                      quantity_cumulative := maker.quantity_cumulative +
                        min maker.quantity_remaining q } cid oid maker.price T
                      (T - (q - min maker.quantity_remaining q))
                      (min maker.quantity_remaining q),
                    BookEvent.onLevelUpdate ms (s.levels s.best_price_index).price
                      ((s.levels s.best_price_index).total_quantity -
                        min maker.quantity_remaining q)]), makerFlagOk f e' := by
                intro e' he'
                rcases List.mem_append.mp he' with h | h
                · exact hacc e' h
                rcases List.mem_cons.mp h with h | h
                · subst h
                  intro mk tcid toid pr tt tc tq heq
                  injection heq with h₁ h₂ h₃ h₄ h₅ h₆ h₇
                  subst h₁
                  exact hmf
                · rw [List.mem_singleton] at h
                  subst h
                  intro mk tcid toid pr tt tc tq heq
                  cases heq
              by_cases hz : maker.quantity_remaining - min maker.quantity_remaining q = 0
              · rw [match_loop_trade_full crosses advance ip T oid cid ms m s q evs filled
                  maker rest hq hb hc ho hz] at he
                dsimp only at he
                refine ih _ _ _ _ ?_ ?_ hacc' e he
                · by_cases hrest : rest.isEmpty = true
                  · rw [if_pos hrest]
                    exact hadv_best _ hbest
                  · rw [if_neg hrest]
                    exact hbest
                · intro i hi o hmem
                  rw [show (({ (if rest.isEmpty = true then advance (setLevel s
                        s.best_price_index { s.levels s.best_price_index with
                          total_quantity := (s.levels s.best_price_index).total_quantity -
                            min maker.quantity_remaining q
                          orders := rest }) else setLevel s s.best_price_index
                        { s.levels s.best_price_index with
                          total_quantity := (s.levels s.best_price_index).total_quantity -
                            min maker.quantity_remaining q
                          orders := rest }) with
                      pool_live := (if rest.isEmpty = true then advance (setLevel s
                        s.best_price_index { s.levels s.best_price_index with
                          total_quantity := (s.levels s.best_price_index).total_quantity -
                            min maker.quantity_remaining q
                          orders := rest }) else setLevel s s.best_price_index
                        { s.levels s.best_price_index with
                          total_quantity := (s.levels s.best_price_index).total_quantity -
                            min maker.quantity_remaining q
                          orders := rest }).pool_live - 1 } : OrderBookSide).levels)
                    = (setLevel s s.best_price_index
                        { s.levels s.best_price_index with
                          total_quantity := (s.levels s.best_price_index).total_quantity -
                            min maker.quantity_remaining q
                          orders := rest }).levels from levels_of_ite advance hadv_lv _ _]
                    at hmem
                  by_cases hil : i = s.best_price_index
                  · subst hil
                    rw [setLevel_levels_self] at hmem
                    exact hrest_f o hmem
                  · rw [setLevel_levels_ne _ _ _ _ hil] at hmem
                    exact hflag i hi o hmem
              · rw [match_loop_trade_remain crosses advance ip T oid cid ms m s q evs filled
                  maker rest hq hb hc ho hz] at he
                dsimp only at he
                refine ih _ _ _ _ ?_ ?_ hacc' e he
                · exact hbest
                intro i hi o hmem
                by_cases hil : i = s.best_price_index
                · subst hil
                  rw [setLevel_levels_self] at hmem
                  dsimp only at hmem
                  rcases List.mem_cons.mp hmem with h | h
                  · subst h
                    exact hmf
                  · exact hrest_f o h
                · rw [setLevel_levels_ne _ _ _ _ hil] at hmem
                  exact hflag i hi o hmem

theorem eraseIds_mem (ids : List Nat) (f : Nat → IndexEntry) (id : Nat) (h : id ∈ ids) :
    eraseIds f ids id = IndexEntry.absent := by
  induction ids generalizing f with
  | nil => cases h
  | cons a rest ih =>
      by_cases hr : id ∈ rest
      · rw [eraseIds]
        exact ih _ hr
      · have ha : id = a := by
          rcases List.mem_cons.mp h with h' | h'
          · exact h'
          · exact absurd h' hr
        subst ha
        rw [eraseIds, eraseIds_not_mem rest _ id hr, setIndex_self]

theorem price_to_index_lt (p : Int) (h1 : MINIMUM_BID ≤ p) (h2 : p ≤ MAXIMUM_ASK) :
    price_to_index p < NUM_BOOK_LEVELS := by
  unfold price_to_index MINIMUM_BID MAXIMUM_ASK NUM_BOOK_LEVELS at *
  omega

theorem level_price_at (s : OrderBookSide) (hwf : SideWf s) (p : Int)
    (h1 : MINIMUM_BID ≤ p) (h2 : p ≤ MAXIMUM_ASK) :
    (s.levels (price_to_index p)).price = p := by
  have h := hwf.level_price (price_to_index p) (price_to_index_lt p h1 h2)
  rw [h]
  unfold price_to_index MINIMUM_BID at *
  omega

theorem sideWf_setLevel (s : OrderBookSide) (lidx : Nat) (hl : lidx < NUM_BOOK_LEVELS)
    (lv' : PriceLevel) (hwf : SideWf s)
    (hprice : lv'.price = (s.levels lidx).price)
    (hsum : lv'.total_quantity = sumRem lv'.orders)
    (hop : ∀ o ∈ lv'.orders, o.price = lv'.price)
    (hof : ∀ o ∈ lv'.orders, o.is_bid = s.is_bid) :
    SideWf (setLevel s lidx lv') := by
  refine ⟨?_, ?_, ?_, ?_, hwf.best_le⟩
  · intro i hi
    by_cases hil : i = lidx
    · subst hil
      rw [setLevel_levels_self]
      exact hsum
    · rw [setLevel_levels_ne _ _ _ _ hil]
      exact hwf.sum_eq i hi
  · intro i hi o hmem
    by_cases hil : i = lidx
    · subst hil
      rw [setLevel_levels_self] at hmem ⊢
      exact hop o hmem
    · rw [setLevel_levels_ne _ _ _ _ hil] at hmem ⊢
      exact hwf.price_eq i hi o hmem
  · intro i hi o hmem
    rw [setLevel_is_bid]
    by_cases hil : i = lidx
    · subst hil
      rw [setLevel_levels_self] at hmem
      exact hof o hmem
    · rw [setLevel_levels_ne _ _ _ _ hil] at hmem
      exact hwf.flag_eq i hi o hmem
  · intro i hi
    by_cases hil : i = lidx
    · subst hil
      rw [setLevel_levels_self, hprice]
      exact hwf.level_price i hi
    · rw [setLevel_levels_ne _ _ _ _ hil]
      exact hwf.level_price i hi

theorem sideWf_erase_pool (s : OrderBookSide) (lidx : Nat) (hl : lidx < NUM_BOOK_LEVELS)
    (tid : Nat) (o : Order)
    (hfind : findById (s.levels lidx).orders tid = some o) (hwf : SideWf s) :
    SideWf { setLevel s lidx
        { s.levels lidx with
          total_quantity := (s.levels lidx).total_quantity - o.quantity_remaining
          orders := eraseById (s.levels lidx).orders tid } with
      pool_live := s.pool_live - 1 } := by
  have hsum := hwf.sum_eq lidx hl
  have herase := sumRem_eraseById (s.levels lidx).orders tid o hfind
  have hcore : SideWf (setLevel s lidx
      { s.levels lidx with
        total_quantity := (s.levels lidx).total_quantity - o.quantity_remaining
        orders := eraseById (s.levels lidx).orders tid }) := by
    refine sideWf_setLevel s lidx hl _ hwf rfl ?_ ?_ ?_
    · dsimp only
      omega
    · intro o' hmem
      dsimp only at hmem ⊢
      exact hwf.price_eq lidx hl o' (mem_eraseById _ _ _ hmem)
    · intro o' hmem
      dsimp only at hmem
      exact hwf.flag_eq lidx hl o' (mem_eraseById _ _ _ hmem)
  refine sideWf_of_eq_fields _ _ ?_ ?_ ?_ hcore
  · rfl
  · rfl
  · exact hcore.best_le

theorem cancel_order_wf (b : OrderBook) (cid crid tid : Nat) (hwf : Wf b) :
    (cancel_order b cid crid tid).crashed = false ∧ Wf (cancel_order b cid crid tid).book := by
  cases hentry : b.order_index tid with
  | absent =>
      simp only [cancel_order, hentry]
      exact ⟨trivial, hwf⟩
  | null => exact absurd hentry (hwf.index_no_null tid)
  | live lb lp =>
      obtain ⟨h1, h2, o, hfind, hob, hop⟩ := hwf.index_live tid lb lp hentry
      simp only [cancel_order, hentry, hfind]
      by_cases hcl : o.client_id ≠ cid
      · rw [if_pos hcl]
        exact ⟨rfl, hwf⟩
      rw [if_neg hcl]
      refine ⟨rfl, ?_⟩
      have hidx : price_to_index o.price = price_to_index lp := by rw [hop]
      have hl : price_to_index o.price < NUM_BOOK_LEVELS := by
        rw [hidx]
        exact price_to_index_lt lp h1 h2
      -- the side actually holding the order
      have hfind' : findById
          (((if o.is_bid then b.bids else b.asks).levels (price_to_index o.price)).orders) tid
          = some o := by
        rw [hob, hidx]
        exact hfind
      by_cases hbid : o.is_bid = true
      · have hlb : lb = true := by rw [← hob, hbid]
        have hfindb : findById ((b.bids.levels (price_to_index o.price)).orders) tid
            = some o := by
          rw [hidx]
          rw [hlb, if_pos rfl] at hfind
          exact hfind
        simp only [hbid, if_true]
        have hS₁ := sideWf_erase_pool b.bids (price_to_index o.price) hl tid o hfindb
          hwf.bids_wf
        refine ⟨?_, hwf.asks_wf, ?_, hwf.asks_flag, ?_, hwf.fresh_asks, ?_, ?_⟩
        · split
          · refine sideWf_of_eq_fields _ _ ?_ ?_ ?_ hS₁
            · exact update_best_bid_after_empty_levels _
            · exact update_best_bid_after_empty_is_bid _
            · exact update_best_bid_after_empty_best_le _ hS₁.best_le
          · exact hS₁
        · split
          · rw [update_best_bid_after_empty_is_bid]
            exact hwf.bids_flag
          · exact hwf.bids_flag
        · have hkey : ∀ i, i < NUM_BOOK_LEVELS →
              ∀ o' ∈ ((setLevel b.bids (price_to_index o.price)
                { b.bids.levels (price_to_index o.price) with
                  total_quantity := (b.bids.levels (price_to_index o.price)).total_quantity -
                    o.quantity_remaining
                  orders := eraseById ((b.bids.levels (price_to_index o.price)).orders) tid
                }).levels i).orders,
              o'.order_id < b.order_id := by
            intro i hi o' hmem
            by_cases hil : i = price_to_index o.price
            · subst hil
              rw [setLevel_levels_self] at hmem
              dsimp only at hmem
              exact hwf.fresh_bids _ hi o' (mem_eraseById _ _ _ hmem)
            · rw [setLevel_levels_ne _ _ _ _ hil] at hmem
              exact hwf.fresh_bids i hi o' hmem
          split
          · intro i hi o' hmem
            rw [update_best_bid_after_empty_levels] at hmem
            exact hkey i hi o' hmem
          · intro i hi o' hmem
            exact hkey i hi o' hmem
        · intro id lb' lp' hid
          dsimp only at hid
          by_cases hidt : id = tid
          · subst hidt
            rw [setIndex_self] at hid
            cases hid
          · rw [setIndex_ne _ _ _ _ hidt] at hid
            obtain ⟨g1, g2, o₀, hfind₀, hob₀, hop₀⟩ := hwf.index_live id lb' lp' hid
            refine ⟨g1, g2, ?_⟩
            by_cases hlb' : lb' = true
            · rw [if_pos hlb'] at hfind₀ ⊢
              have hkey : findById ((setLevel b.bids (price_to_index o.price)
                  { b.bids.levels (price_to_index o.price) with
                    total_quantity := (b.bids.levels (price_to_index o.price)).total_quantity -
                      o.quantity_remaining
                    orders := eraseById ((b.bids.levels (price_to_index o.price)).orders) tid
                  }).levels (price_to_index lp')).orders id = some o₀ := by
                by_cases hil : price_to_index lp' = price_to_index o.price
                · rw [hil, setLevel_levels_self]
                  dsimp only
                  rw [findById_eraseById_ne _ _ _ hidt]
                  rw [← hil]
                  exact hfind₀
                · rw [setLevel_levels_ne _ _ _ _ hil]
                  exact hfind₀
              split
              · refine ⟨o₀, ?_, hob₀, hop₀⟩
                rw [update_best_bid_after_empty_levels]
                exact hkey
              · exact ⟨o₀, hkey, hob₀, hop₀⟩
            · rw [if_neg hlb'] at hfind₀ ⊢
              exact ⟨o₀, hfind₀, hob₀, hop₀⟩
        · intro id
          dsimp only
          by_cases hidt : id = tid
          · subst hidt
            rw [setIndex_self]
            exact fun h => IndexEntry.noConfusion h
          · rw [setIndex_ne _ _ _ _ hidt]
            exact hwf.index_no_null id
      · have hbf : o.is_bid = false := by
          cases h : o.is_bid
          · rfl
          · exact absurd h hbid
        have hlb : lb = false := by rw [← hob, hbf]
        have hfinda : findById ((b.asks.levels (price_to_index o.price)).orders) tid
            = some o := by
          rw [hidx]
          rw [hlb] at hfind
          simp only [Bool.false_eq_true, if_false] at hfind
          exact hfind
        simp only [if_neg hbid]
        have hS₁ := sideWf_erase_pool b.asks (price_to_index o.price) hl tid o hfinda
          hwf.asks_wf
        refine ⟨hwf.bids_wf, ?_, hwf.bids_flag, ?_, hwf.fresh_bids, ?_, ?_, ?_⟩
        · split
          · refine sideWf_of_eq_fields _ _ ?_ ?_ ?_ hS₁
            · exact update_best_ask_after_empty_levels _
            · exact update_best_ask_after_empty_is_bid _
            · exact update_best_ask_after_empty_best_le _ hS₁.best_le
          · exact hS₁
        · split
          · rw [update_best_ask_after_empty_is_bid]
            exact hwf.asks_flag
          · exact hwf.asks_flag
        · have hkey : ∀ i, i < NUM_BOOK_LEVELS →
              ∀ o' ∈ ((setLevel b.asks (price_to_index o.price)
                { b.asks.levels (price_to_index o.price) with
                  total_quantity := (b.asks.levels (price_to_index o.price)).total_quantity -
                    o.quantity_remaining
                  orders := eraseById ((b.asks.levels (price_to_index o.price)).orders) tid
                }).levels i).orders,
              o'.order_id < b.order_id := by
            intro i hi o' hmem
            by_cases hil : i = price_to_index o.price
            · subst hil
              rw [setLevel_levels_self] at hmem
              dsimp only at hmem
              exact hwf.fresh_asks _ hi o' (mem_eraseById _ _ _ hmem)
            · rw [setLevel_levels_ne _ _ _ _ hil] at hmem
              exact hwf.fresh_asks i hi o' hmem
          split
          · intro i hi o' hmem
            rw [update_best_ask_after_empty_levels] at hmem
            exact hkey i hi o' hmem
          · intro i hi o' hmem
            exact hkey i hi o' hmem
        · intro id lb' lp' hid
          dsimp only at hid
          by_cases hidt : id = tid
          · subst hidt
            rw [setIndex_self] at hid
            cases hid
          · rw [setIndex_ne _ _ _ _ hidt] at hid
            obtain ⟨g1, g2, o₀, hfind₀, hob₀, hop₀⟩ := hwf.index_live id lb' lp' hid
            refine ⟨g1, g2, ?_⟩
            by_cases hlb' : lb' = true
            · rw [if_pos hlb'] at hfind₀ ⊢
              exact ⟨o₀, hfind₀, hob₀, hop₀⟩
            · rw [if_neg hlb'] at hfind₀ ⊢
              have hkey : findById ((setLevel b.asks (price_to_index o.price)
                  { b.asks.levels (price_to_index o.price) with
                    total_quantity := (b.asks.levels (price_to_index o.price)).total_quantity -
                      o.quantity_remaining
                    orders := eraseById ((b.asks.levels (price_to_index o.price)).orders) tid
                  }).levels (price_to_index lp')).orders id = some o₀ := by
                by_cases hil : price_to_index lp' = price_to_index o.price
                · rw [hil, setLevel_levels_self]
                  dsimp only
                  rw [findById_eraseById_ne _ _ _ hidt]
                  rw [← hil]
                  exact hfind₀
                · rw [setLevel_levels_ne _ _ _ _ hil]
                  exact hfind₀
              split
              · refine ⟨o₀, ?_, hob₀, hop₀⟩
                rw [update_best_ask_after_empty_levels]
                exact hkey
              · exact ⟨o₀, hkey, hob₀, hop₀⟩
        · intro id
          dsimp only
          by_cases hidt : id = tid
          · subst hidt
            rw [setIndex_self]
            exact fun h => IndexEntry.noConfusion h
          · rw [setIndex_ne _ _ _ _ hidt]
            exact hwf.index_no_null id

theorem levels_of_bestupd (c d : Prop) [Decidable c] [Decidable d] (s' : OrderBookSide) :
    (if c then (if d then update_best_bid_after_empty s' else update_best_ask_after_empty s')
      else s').levels = s'.levels := by
  split
  · split
    · exact update_best_bid_after_empty_levels s'
    · exact update_best_ask_after_empty_levels s'
  · rfl

theorem is_bid_of_bestupd (c d : Prop) [Decidable c] [Decidable d] (s' : OrderBookSide) :
    (if c then (if d then update_best_bid_after_empty s' else update_best_ask_after_empty s')
      else s').is_bid = s'.is_bid := by
  split
  · split
    · exact update_best_bid_after_empty_is_bid s'
    · exact update_best_ask_after_empty_is_bid s'
  · rfl

theorem best_le_of_bestupd (c d : Prop) [Decidable c] [Decidable d] (s' : OrderBookSide)
    (h : s'.best_price_index ≤ NUM_BOOK_LEVELS) :
    (if c then (if d then update_best_bid_after_empty s' else update_best_ask_after_empty s')
      else s').best_price_index ≤ NUM_BOOK_LEVELS := by
  split
  · split
    · exact update_best_bid_after_empty_best_le s' h
    · exact update_best_ask_after_empty_best_le s' h
  · exact h

theorem sideWf_of_bestupd (c d : Prop) [Decidable c] [Decidable d] (s' : OrderBookSide)
    (hwf : SideWf s') :
    SideWf (if c then
      (if d then update_best_bid_after_empty s' else update_best_ask_after_empty s')
      else s') := by
  refine sideWf_of_eq_fields _ _ ?_ ?_ ?_ hwf
  · exact levels_of_bestupd c d s'
  · exact is_bid_of_bestupd c d s'
  · exact best_le_of_bestupd c d s' hwf.best_le

theorem sideWf_amend_update (s : OrderBookSide) (lidx : Nat) (hl : lidx < NUM_BOOK_LEVELS)
    (tid : Nat) (o : Order) (qn : Nat)
    (hfind : findById (s.levels lidx).orders tid = some o)
    (hnr : qn - o.quantity_cumulative ≤ o.quantity_remaining)
    (hwf : SideWf s) :
    SideWf (setLevel s lidx
      { s.levels lidx with
        orders := updateById (s.levels lidx).orders tid
          { o with quantity := qn, quantity_remaining := qn - o.quantity_cumulative }
        total_quantity := (s.levels lidx).total_quantity -
          (o.quantity_remaining - (qn - o.quantity_cumulative)) }) := by
  have hsum := hwf.sum_eq lidx hl
  have hle := sumRem_eraseById (s.levels lidx).orders tid o hfind
  have hupd := sumRem_updateById (s.levels lidx).orders tid o
    { o with quantity := qn, quantity_remaining := qn - o.quantity_cumulative } hfind
  refine sideWf_setLevel s lidx hl _ hwf rfl ?_ ?_ ?_
  · dsimp only
    dsimp only at hupd
    omega
  · intro o' hmem
    dsimp only at hmem ⊢
    rcases mem_updateById _ _ _ _ hmem with h | h
    · exact hwf.price_eq lidx hl o' h
    · subst h
      exact hwf.price_eq lidx hl o (findById_mem _ _ _ hfind)
  · intro o' hmem
    dsimp only at hmem
    rcases mem_updateById _ _ _ _ hmem with h | h
    · exact hwf.flag_eq lidx hl o' h
    · subst h
      exact hwf.flag_eq lidx hl o (findById_mem _ _ _ hfind)

theorem sideWf_amend_side (s : OrderBookSide) (lidx : Nat) (hl : lidx < NUM_BOOK_LEVELS)
    (tid : Nat) (o : Order) (qn : Nat) (adv : OrderBookSide → OrderBookSide)
    (hadv_lv : ∀ x, (adv x).levels = x.levels)
    (hadv_bid : ∀ x, (adv x).is_bid = x.is_bid)
    (hadv_best : ∀ x, x.best_price_index ≤ NUM_BOOK_LEVELS →
      (adv x).best_price_index ≤ NUM_BOOK_LEVELS)
    (hfind : findById (s.levels lidx).orders tid = some o)
    (hnr : qn - o.quantity_cumulative ≤ o.quantity_remaining)
    (hwf : SideWf s) :
    SideWf (let lv₁ := { s.levels lidx with
        orders := updateById (s.levels lidx).orders tid
          { o with quantity := qn, quantity_remaining := qn - o.quantity_cumulative }
        total_quantity := (s.levels lidx).total_quantity -
          (o.quantity_remaining - (qn - o.quantity_cumulative)) }
      if lv₁.total_quantity = 0 then adv (setLevel s lidx lv₁) else setLevel s lidx lv₁) := by
  have hU := sideWf_amend_update s lidx hl tid o qn hfind hnr hwf
  dsimp only
  split
  · refine sideWf_of_eq_fields _ _ ?_ ?_ ?_ hU
    · exact hadv_lv _
    · exact hadv_bid _
    · exact hadv_best _ hU.best_le
  · exact hU

theorem sideWf_amend_side_remove (s : OrderBookSide) (lidx : Nat)
    (hl : lidx < NUM_BOOK_LEVELS)
    (tid : Nat) (o : Order) (qn : Nat) (adv : OrderBookSide → OrderBookSide)
    (hadv_lv : ∀ x, (adv x).levels = x.levels)
    (hadv_bid : ∀ x, (adv x).is_bid = x.is_bid)
    (hadv_best : ∀ x, x.best_price_index ≤ NUM_BOOK_LEVELS →
      (adv x).best_price_index ≤ NUM_BOOK_LEVELS)
    (hfind : findById (s.levels lidx).orders tid = some o)
    (hoid : o.order_id = tid)
    (hnr : qn - o.quantity_cumulative ≤ o.quantity_remaining)
    (hnr0 : qn - o.quantity_cumulative = 0)
    (hwf : SideWf s) :
    SideWf (let lv₁ := { s.levels lidx with
        orders := updateById (s.levels lidx).orders tid
          { o with quantity := qn, quantity_remaining := qn - o.quantity_cumulative }
        total_quantity := (s.levels lidx).total_quantity -
          (o.quantity_remaining - (qn - o.quantity_cumulative)) }
      let s₂ := if lv₁.total_quantity = 0 then adv (setLevel s lidx lv₁)
        else setLevel s lidx lv₁
      { setLevel s₂ lidx { lv₁ with orders := eraseById lv₁.orders tid } with
        pool_live := s₂.pool_live - 1 }) := by
  have hS₂ := sideWf_amend_side s lidx hl tid o qn adv hadv_lv hadv_bid hadv_best hfind
    hnr hwf
  dsimp only at hS₂ ⊢
  have hfu := findById_updateById_self (s.levels lidx).orders tid o
    { o with quantity := qn, quantity_remaining := qn - o.quantity_cumulative } hfind hoid
  have hupd := sumRem_updateById (s.levels lidx).orders tid o
    { o with quantity := qn, quantity_remaining := qn - o.quantity_cumulative } hfind
  have hers := sumRem_eraseById
    (updateById (s.levels lidx).orders tid
      { o with quantity := qn, quantity_remaining := qn - o.quantity_cumulative }) tid
    { o with quantity := qn, quantity_remaining := qn - o.quantity_cumulative } hfu
  have hsum := hwf.sum_eq lidx hl
  have hlv₂ : (if ((s.levels lidx).total_quantity -
        (o.quantity_remaining - (qn - o.quantity_cumulative)) = 0) then
        adv (setLevel s lidx { s.levels lidx with
          orders := updateById (s.levels lidx).orders tid
            { o with quantity := qn, quantity_remaining := qn - o.quantity_cumulative }
          total_quantity := (s.levels lidx).total_quantity -
            (o.quantity_remaining - (qn - o.quantity_cumulative)) })
        else setLevel s lidx { s.levels lidx with
          orders := updateById (s.levels lidx).orders tid
            { o with quantity := qn, quantity_remaining := qn - o.quantity_cumulative }
          total_quantity := (s.levels lidx).total_quantity -
            (o.quantity_remaining - (qn - o.quantity_cumulative)) }).levels
      = (setLevel s lidx { s.levels lidx with
          orders := updateById (s.levels lidx).orders tid
            { o with quantity := qn, quantity_remaining := qn - o.quantity_cumulative }
          total_quantity := (s.levels lidx).total_quantity -
            (o.quantity_remaining - (qn - o.quantity_cumulative)) }).levels := by
    split
    · exact hadv_lv _
    · rfl
  have hcore : SideWf (setLevel (if ((s.levels lidx).total_quantity -
        (o.quantity_remaining - (qn - o.quantity_cumulative)) = 0) then
        adv (setLevel s lidx { s.levels lidx with
          orders := updateById (s.levels lidx).orders tid
            { o with quantity := qn, quantity_remaining := qn - o.quantity_cumulative }
          total_quantity := (s.levels lidx).total_quantity -
            (o.quantity_remaining - (qn - o.quantity_cumulative)) })
        else setLevel s lidx { s.levels lidx with
          orders := updateById (s.levels lidx).orders tid
            { o with quantity := qn, quantity_remaining := qn - o.quantity_cumulative }
          total_quantity := (s.levels lidx).total_quantity -
            (o.quantity_remaining - (qn - o.quantity_cumulative)) }) lidx
      { { s.levels lidx with
          orders := updateById (s.levels lidx).orders tid
            { o with quantity := qn, quantity_remaining := qn - o.quantity_cumulative }
          total_quantity := (s.levels lidx).total_quantity -
            (o.quantity_remaining - (qn - o.quantity_cumulative)) } with
        orders := eraseById (updateById (s.levels lidx).orders tid
          { o with quantity := qn, quantity_remaining := qn - o.quantity_cumulative }) tid }) := by
    refine sideWf_setLevel _ lidx hl _ hS₂ ?_ ?_ ?_ ?_
    · rw [hlv₂, setLevel_levels_self]
    · dsimp only
      dsimp only at hupd hers
      omega
    · intro o' hmem
      dsimp only at hmem ⊢
      rcases mem_updateById _ _ _ _ (mem_eraseById _ _ _ hmem) with h | h
      · exact hwf.price_eq lidx hl o' h
      · subst h
        exact hwf.price_eq lidx hl o (findById_mem _ _ _ hfind)
    · intro o' hmem
      dsimp only at hmem
      rw [show (if ((s.levels lidx).total_quantity -
            (o.quantity_remaining - (qn - o.quantity_cumulative)) = 0) then
            adv (setLevel s lidx { s.levels lidx with
              orders := updateById (s.levels lidx).orders tid
                { o with quantity := qn, quantity_remaining := qn - o.quantity_cumulative }
              total_quantity := (s.levels lidx).total_quantity -
                (o.quantity_remaining - (qn - o.quantity_cumulative)) })
            else setLevel s lidx { s.levels lidx with
              orders := updateById (s.levels lidx).orders tid
                { o with quantity := qn, quantity_remaining := qn - o.quantity_cumulative }
              total_quantity := (s.levels lidx).total_quantity -
                (o.quantity_remaining - (qn - o.quantity_cumulative)) }).is_bid
          = s.is_bid from by
        split
        · rw [hadv_bid]
          exact setLevel_is_bid _ _ _
        · exact setLevel_is_bid _ _ _]
      rcases mem_updateById _ _ _ _ (mem_eraseById _ _ _ hmem) with h | h
      · exact hwf.flag_eq lidx hl o' h
      · subst h
        exact hwf.flag_eq lidx hl o (findById_mem _ _ _ hfind)
  refine sideWf_of_eq_fields _ _ ?_ ?_ ?_ hcore
  · rfl
  · rfl
  · exact hcore.best_le

theorem levels_of_adv_ite (c : Prop) [Decidable c] (adv : OrderBookSide → OrderBookSide)
    (hadv_lv : ∀ x, (adv x).levels = x.levels) (s' : OrderBookSide) :
    (if c then adv s' else s').levels = s'.levels := by
  split
  · exact hadv_lv _
  · rfl

theorem is_bid_of_adv_ite (c : Prop) [Decidable c] (adv : OrderBookSide → OrderBookSide)
    (hadv_bid : ∀ x, (adv x).is_bid = x.is_bid) (s' : OrderBookSide) :
    (if c then adv s' else s').is_bid = s'.is_bid := by
  split
  · exact hadv_bid _
  · rfl

theorem amend_order_wf (b : OrderBook) (cid crid tid qn : Nat) (hwf : Wf b) :
    (amend_order b cid crid tid qn).crashed = false ∧
      Wf (amend_order b cid crid tid qn).book := by
  cases hentry : b.order_index tid with
  | absent =>
      simp only [amend_order, hentry]
      exact ⟨trivial, hwf⟩
  | null => exact absurd hentry (hwf.index_no_null tid)
  | live lb lp =>
      obtain ⟨h1, h2, o, hfind, hob, hop⟩ := hwf.index_live tid lb lp hentry
      have hoid : o.order_id = tid := findById_id _ _ _ hfind
      simp only [amend_order, hentry, hfind]
      by_cases hcl : o.client_id ≠ cid
      · rw [if_pos hcl]
        exact ⟨rfl, hwf⟩
      rw [if_neg hcl]
      by_cases hqc : qn < o.quantity_cumulative
      · rw [if_pos hqc]
        exact ⟨rfl, hwf⟩
      rw [if_neg hqc]
      by_cases hup : o.quantity_remaining < qn - o.quantity_cumulative
      · rw [if_pos hup]
        exact ⟨rfl, hwf⟩
      rw [if_neg hup]
      by_cases heqr : qn - o.quantity_cumulative = o.quantity_remaining
      · rw [if_pos heqr]
        exact ⟨rfl, hwf⟩
      rw [if_neg heqr]
      have hidx : price_to_index o.price = price_to_index lp := by rw [hop]
      have hl : price_to_index o.price < NUM_BOOK_LEVELS := by
        rw [hidx]
        exact price_to_index_lt lp h1 h2
      have hnr : qn - o.quantity_cumulative ≤ o.quantity_remaining := Nat.le_of_not_lt hup
      by_cases hbid : o.is_bid = true
      · have hlb : lb = true := by rw [← hob, hbid]
        have hfindb : findById ((b.bids.levels (price_to_index o.price)).orders) tid
            = some o := by
          rw [hidx]
          rw [hlb, if_pos rfl] at hfind
          exact hfind
        have hfu := findById_updateById_self (b.bids.levels (price_to_index o.price)).orders
          tid o { o with quantity := qn, quantity_remaining := qn - o.quantity_cumulative }
          hfindb hoid
        simp only [if_pos hbid]
        by_cases hnr0 : qn - o.quantity_cumulative = 0
        · rw [if_pos hnr0]
          refine ⟨rfl, ?_⟩
          refine ⟨?_, hwf.asks_wf, ?_, hwf.asks_flag, ?_, hwf.fresh_asks, ?_, ?_⟩
          · exact sideWf_amend_side_remove b.bids (price_to_index o.price) hl tid o qn
              update_best_bid_after_empty update_best_bid_after_empty_levels
              update_best_bid_after_empty_is_bid update_best_bid_after_empty_best_le
              hfindb hoid hnr hnr0 hwf.bids_wf
          · dsimp only
            rw [setLevel_is_bid,
              is_bid_of_adv_ite _ update_best_bid_after_empty
                update_best_bid_after_empty_is_bid, setLevel_is_bid]
            exact hwf.bids_flag
          · intro i hi o' hmem
            dsimp only at hmem
            by_cases hil : i = price_to_index o.price
            · subst hil
              rw [setLevel_levels_self] at hmem
              dsimp only at hmem
              rcases mem_updateById _ _ _ _ (mem_eraseById _ _ _ hmem) with h | h
              · exact hwf.fresh_bids _ hi o' h
              · subst h
                exact hwf.fresh_bids _ hi o (findById_mem _ _ _ hfindb)
            · rw [setLevel_levels_ne _ _ _ _ hil,
                levels_of_adv_ite _ update_best_bid_after_empty
                  update_best_bid_after_empty_levels,
                setLevel_levels_ne _ _ _ _ hil] at hmem
              exact hwf.fresh_bids i hi o' hmem
          · intro id lb' lp' hid
            dsimp only at hid
            by_cases hidt : id = tid
            · subst hidt
              rw [setIndex_self] at hid
              cases hid
            · rw [setIndex_ne _ _ _ _ hidt] at hid
              obtain ⟨g1, g2, o₀, hfind₀, hob₀, hop₀⟩ := hwf.index_live id lb' lp' hid
              refine ⟨g1, g2, ?_⟩
              by_cases hlb' : lb' = true
              · rw [if_pos hlb'] at hfind₀ ⊢
                refine ⟨o₀, ?_, hob₀, hop₀⟩
                by_cases hil : price_to_index lp' = price_to_index o.price
                · rw [hil, setLevel_levels_self]
                  dsimp only
                  rw [findById_eraseById_ne _ _ _ hidt,
                    findById_updateById_ne _ tid id { o with quantity := qn, quantity_remaining := qn - o.quantity_cumulative } hidt hoid, ← hil]
                  exact hfind₀
                · rw [setLevel_levels_ne _ _ _ _ hil,
                    levels_of_adv_ite _ update_best_bid_after_empty
                      update_best_bid_after_empty_levels,
                    setLevel_levels_ne _ _ _ _ hil]
                  exact hfind₀
              · rw [if_neg hlb'] at hfind₀ ⊢
                exact ⟨o₀, hfind₀, hob₀, hop₀⟩
          · intro id
            dsimp only
            by_cases hidt : id = tid
            · subst hidt
              rw [setIndex_self]
              exact fun h => IndexEntry.noConfusion h
            · rw [setIndex_ne _ _ _ _ hidt]
              exact hwf.index_no_null id
        · rw [if_neg hnr0]
          refine ⟨rfl, ?_⟩
          refine ⟨?_, hwf.asks_wf, ?_, hwf.asks_flag, ?_, hwf.fresh_asks, ?_,
            hwf.index_no_null⟩
          · exact sideWf_amend_side b.bids (price_to_index o.price) hl tid o qn
              update_best_bid_after_empty update_best_bid_after_empty_levels
              update_best_bid_after_empty_is_bid update_best_bid_after_empty_best_le
              hfindb hnr hwf.bids_wf
          · rw [is_bid_of_adv_ite _ update_best_bid_after_empty
              update_best_bid_after_empty_is_bid, setLevel_is_bid]
            exact hwf.bids_flag
          · intro i hi o' hmem
            rw [show ((if ((b.bids.levels (price_to_index o.price)).total_quantity -
                  (o.quantity_remaining - (qn - o.quantity_cumulative)) = 0) then
                  update_best_bid_after_empty (setLevel b.bids (price_to_index o.price)
                    { b.bids.levels (price_to_index o.price) with
                      orders := updateById ((b.bids.levels (price_to_index o.price)).orders)
                        tid { o with quantity := qn, quantity_remaining := qn - o.quantity_cumulative }
                      total_quantity := (b.bids.levels (price_to_index o.price)).total_quantity
                        - (o.quantity_remaining - (qn - o.quantity_cumulative)) })
                  else setLevel b.bids (price_to_index o.price)
                    { b.bids.levels (price_to_index o.price) with
                      orders := updateById ((b.bids.levels (price_to_index o.price)).orders)
                        tid { o with quantity := qn, quantity_remaining := qn - o.quantity_cumulative }
                      total_quantity := (b.bids.levels (price_to_index o.price)).total_quantity
                        - (o.quantity_remaining - (qn - o.quantity_cumulative)) }).levels)
              = (setLevel b.bids (price_to_index o.price)
                    { b.bids.levels (price_to_index o.price) with
                      orders := updateById ((b.bids.levels (price_to_index o.price)).orders)
                        tid { o with quantity := qn, quantity_remaining := qn - o.quantity_cumulative }
                      total_quantity := (b.bids.levels (price_to_index o.price)).total_quantity
                        - (o.quantity_remaining - (qn - o.quantity_cumulative)) }).levels
              from levels_of_adv_ite _ update_best_bid_after_empty
                update_best_bid_after_empty_levels _] at hmem
            by_cases hil : i = price_to_index o.price
            · subst hil
              rw [setLevel_levels_self] at hmem
              dsimp only at hmem
              rcases mem_updateById _ _ _ _ hmem with h | h
              · exact hwf.fresh_bids _ hi o' h
              · subst h
                exact hwf.fresh_bids _ hi o (findById_mem _ _ _ hfindb)
            · rw [setLevel_levels_ne _ _ _ _ hil] at hmem
              exact hwf.fresh_bids i hi o' hmem
          · intro id lb' lp' hid
            obtain ⟨g1, g2, o₀, hfind₀, hob₀, hop₀⟩ := hwf.index_live id lb' lp' hid
            refine ⟨g1, g2, ?_⟩
            by_cases hlb' : lb' = true
            · rw [if_pos hlb'] at hfind₀ ⊢
              by_cases hidt : id = tid
              · subst hidt
                have hlpeq : lp' = lp := by
                  rw [hid] at hentry
                  injection hentry with e1 e2
                refine ⟨{ o with quantity := qn, quantity_remaining := qn - o.quantity_cumulative }, ?_, ?_, ?_⟩
                · rw [show price_to_index lp' = price_to_index o.price from by
                    rw [hlpeq, ← hidx]]
                  rw [levels_of_adv_ite _ update_best_bid_after_empty
                    update_best_bid_after_empty_levels, setLevel_levels_self]
                  dsimp only
                  exact hfu
                · show o.is_bid = lb'
                  rw [hbid, hlb']
                · show o.price = lp'
                  rw [hop, hlpeq]
              · refine ⟨o₀, ?_, hob₀, hop₀⟩
                rw [levels_of_adv_ite _ update_best_bid_after_empty
                  update_best_bid_after_empty_levels]
                by_cases hil : price_to_index lp' = price_to_index o.price
                · rw [hil, setLevel_levels_self]
                  dsimp only
                  rw [findById_updateById_ne _ tid id { o with quantity := qn, quantity_remaining := qn - o.quantity_cumulative } hidt hoid, ← hil]
                  exact hfind₀
                · rw [setLevel_levels_ne _ _ _ _ hil]
                  exact hfind₀
            · rw [if_neg hlb'] at hfind₀ ⊢
              exact ⟨o₀, hfind₀, hob₀, hop₀⟩
      · have hbf : o.is_bid = false := by
          cases h : o.is_bid
          · rfl
          · exact absurd h hbid
        have hlb : lb = false := by rw [← hob, hbf]
        have hfinda : findById ((b.asks.levels (price_to_index o.price)).orders) tid
            = some o := by
          rw [hidx]
          rw [hlb] at hfind
          simp only [Bool.false_eq_true, if_false] at hfind
          exact hfind
        have hfu := findById_updateById_self (b.asks.levels (price_to_index o.price)).orders
          tid o { o with quantity := qn, quantity_remaining := qn - o.quantity_cumulative }
          hfinda hoid
        simp only [if_neg hbid]
        by_cases hnr0 : qn - o.quantity_cumulative = 0
        · rw [if_pos hnr0]
          refine ⟨rfl, ?_⟩
          refine ⟨hwf.bids_wf, ?_, hwf.bids_flag, ?_, hwf.fresh_bids, ?_, ?_, ?_⟩
          · exact sideWf_amend_side_remove b.asks (price_to_index o.price) hl tid o qn
              update_best_ask_after_empty update_best_ask_after_empty_levels
              update_best_ask_after_empty_is_bid update_best_ask_after_empty_best_le
              hfinda hoid hnr hnr0 hwf.asks_wf
          · dsimp only
            rw [setLevel_is_bid,
              is_bid_of_adv_ite _ update_best_ask_after_empty
                update_best_ask_after_empty_is_bid, setLevel_is_bid]
            exact hwf.asks_flag
          · intro i hi o' hmem
            dsimp only at hmem
            by_cases hil : i = price_to_index o.price
            · subst hil
              rw [setLevel_levels_self] at hmem
              dsimp only at hmem
              rcases mem_updateById _ _ _ _ (mem_eraseById _ _ _ hmem) with h | h
              · exact hwf.fresh_asks _ hi o' h
              · subst h
                exact hwf.fresh_asks _ hi o (findById_mem _ _ _ hfinda)
            · rw [setLevel_levels_ne _ _ _ _ hil,
                levels_of_adv_ite _ update_best_ask_after_empty
                  update_best_ask_after_empty_levels,
                setLevel_levels_ne _ _ _ _ hil] at hmem
              exact hwf.fresh_asks i hi o' hmem
          · intro id lb' lp' hid
            dsimp only at hid
            by_cases hidt : id = tid
            · subst hidt
              rw [setIndex_self] at hid
              cases hid
            · rw [setIndex_ne _ _ _ _ hidt] at hid
              obtain ⟨g1, g2, o₀, hfind₀, hob₀, hop₀⟩ := hwf.index_live id lb' lp' hid
              refine ⟨g1, g2, ?_⟩
              by_cases hlb' : lb' = true
              · rw [if_pos hlb'] at hfind₀ ⊢
                exact ⟨o₀, hfind₀, hob₀, hop₀⟩
              · rw [if_neg hlb'] at hfind₀ ⊢
                refine ⟨o₀, ?_, hob₀, hop₀⟩
                by_cases hil : price_to_index lp' = price_to_index o.price
                · rw [hil, setLevel_levels_self]
                  dsimp only
                  rw [findById_eraseById_ne _ _ _ hidt,
                    findById_updateById_ne _ tid id { o with quantity := qn, quantity_remaining := qn - o.quantity_cumulative } hidt hoid, ← hil]
                  exact hfind₀
                · rw [setLevel_levels_ne _ _ _ _ hil,
                    levels_of_adv_ite _ update_best_ask_after_empty
                      update_best_ask_after_empty_levels,
                    setLevel_levels_ne _ _ _ _ hil]
                  exact hfind₀
          · intro id
            dsimp only
            by_cases hidt : id = tid
            · subst hidt
              rw [setIndex_self]
              exact fun h => IndexEntry.noConfusion h
            · rw [setIndex_ne _ _ _ _ hidt]
              exact hwf.index_no_null id
        · rw [if_neg hnr0]
          refine ⟨rfl, ?_⟩
          refine ⟨hwf.bids_wf, ?_, hwf.bids_flag, ?_, hwf.fresh_bids, ?_, ?_,
            hwf.index_no_null⟩
          · exact sideWf_amend_side b.asks (price_to_index o.price) hl tid o qn
              update_best_ask_after_empty update_best_ask_after_empty_levels
              update_best_ask_after_empty_is_bid update_best_ask_after_empty_best_le
              hfinda hnr hwf.asks_wf
          · rw [is_bid_of_adv_ite _ update_best_ask_after_empty
              update_best_ask_after_empty_is_bid, setLevel_is_bid]
            exact hwf.asks_flag
          · intro i hi o' hmem
            rw [show ((if ((b.asks.levels (price_to_index o.price)).total_quantity -
                  (o.quantity_remaining - (qn - o.quantity_cumulative)) = 0) then
                  update_best_ask_after_empty (setLevel b.asks (price_to_index o.price)
                    { b.asks.levels (price_to_index o.price) with
                      orders := updateById ((b.asks.levels (price_to_index o.price)).orders)
                        tid { o with quantity := qn, quantity_remaining := qn - o.quantity_cumulative }
                      total_quantity := (b.asks.levels (price_to_index o.price)).total_quantity
                        - (o.quantity_remaining - (qn - o.quantity_cumulative)) })
                  else setLevel b.asks (price_to_index o.price)
                    { b.asks.levels (price_to_index o.price) with
                      orders := updateById ((b.asks.levels (price_to_index o.price)).orders)
                        tid { o with quantity := qn, quantity_remaining := qn - o.quantity_cumulative }
                      total_quantity := (b.asks.levels (price_to_index o.price)).total_quantity
                        - (o.quantity_remaining - (qn - o.quantity_cumulative)) }).levels)
              = (setLevel b.asks (price_to_index o.price)
                    { b.asks.levels (price_to_index o.price) with
                      orders := updateById ((b.asks.levels (price_to_index o.price)).orders)
                        tid { o with quantity := qn, quantity_remaining := qn - o.quantity_cumulative }
                      total_quantity := (b.asks.levels (price_to_index o.price)).total_quantity
                        - (o.quantity_remaining - (qn - o.quantity_cumulative)) }).levels
              from levels_of_adv_ite _ update_best_ask_after_empty
                update_best_ask_after_empty_levels _] at hmem
            by_cases hil : i = price_to_index o.price
            · subst hil
              rw [setLevel_levels_self] at hmem
              dsimp only at hmem
              rcases mem_updateById _ _ _ _ hmem with h | h
              · exact hwf.fresh_asks _ hi o' h
              · subst h
                exact hwf.fresh_asks _ hi o (findById_mem _ _ _ hfinda)
            · rw [setLevel_levels_ne _ _ _ _ hil] at hmem
              exact hwf.fresh_asks i hi o' hmem
          · intro id lb' lp' hid
            obtain ⟨g1, g2, o₀, hfind₀, hob₀, hop₀⟩ := hwf.index_live id lb' lp' hid
            refine ⟨g1, g2, ?_⟩
            by_cases hlb' : lb' = true
            · rw [if_pos hlb'] at hfind₀ ⊢
              exact ⟨o₀, hfind₀, hob₀, hop₀⟩
            · rw [if_neg hlb'] at hfind₀ ⊢
              by_cases hidt : id = tid
              · subst hidt
                have hlpeq : lp' = lp := by
                  rw [hid] at hentry
                  injection hentry with e1 e2
                refine ⟨{ o with quantity := qn, quantity_remaining := qn - o.quantity_cumulative }, ?_, ?_, ?_⟩
                · rw [show price_to_index lp' = price_to_index o.price from by
                    rw [hlpeq, ← hidx]]
                  rw [levels_of_adv_ite _ update_best_ask_after_empty
                    update_best_ask_after_empty_levels, setLevel_levels_self]
                  dsimp only
                  exact hfu
                · show o.is_bid = lb'
                  have hlbf : lb' = false := by
                    cases h : lb'
                    · rfl
                    · exact absurd h hlb'
                  rw [hbf, hlbf]
                · show o.price = lp'
                  rw [hop, hlpeq]
              · refine ⟨o₀, ?_, hob₀, hop₀⟩
                rw [levels_of_adv_ite _ update_best_ask_after_empty
                  update_best_ask_after_empty_levels]
                by_cases hil : price_to_index lp' = price_to_index o.price
                · rw [hil, setLevel_levels_self]
                  dsimp only
                  rw [findById_updateById_ne _ tid id { o with quantity := qn, quantity_remaining := qn - o.quantity_cumulative } hidt hoid, ← hil]
                  exact hfind₀
                · rw [setLevel_levels_ne _ _ _ _ hil]
                  exact hfind₀

theorem add_order_full (s : OrderBookSide) (price : Int) (q qr oid cid crid : Nat)
    (hpool : s.pool_live = MAX_ORDERS) :
    add_order s price q qr oid cid crid
      = (none, s, [BookEvent.onError cid crid ERR_ORDER_BOOK_FULL]) := by
  unfold add_order
  rw [if_pos hpool]

theorem add_order_ok (s : OrderBookSide) (price : Int) (q qr oid cid crid : Nat)
    (hpool : ¬ s.pool_live = MAX_ORDERS) :
    add_order s price q qr oid cid crid =
      (some { client_id := cid
              order_id := oid
              price := price
              quantity := q
              quantity_remaining := qr
              quantity_cumulative := q - qr
              is_bid := s.is_bid },
        (if s.is_bid then
          update_best_bid_after_order
            { setLevel s (price_to_index price)
                { s.levels (price_to_index price) with
                  orders := (s.levels (price_to_index price)).orders ++
                    [{ client_id := cid
                       order_id := oid
                       price := price
                       quantity := q
                       quantity_remaining := qr
                       quantity_cumulative := q - qr
                       is_bid := s.is_bid }]
                  total_quantity := (s.levels (price_to_index price)).total_quantity + qr } with
              pool_live := s.pool_live + 1 }
            (price_to_index price)
        else
          update_best_ask_after_order
            { setLevel s (price_to_index price)
                { s.levels (price_to_index price) with
                  orders := (s.levels (price_to_index price)).orders ++
                    [{ client_id := cid
                       order_id := oid
                       price := price
                       quantity := q
                       quantity_remaining := qr
                       quantity_cumulative := q - qr
                       is_bid := s.is_bid }]
                  total_quantity := (s.levels (price_to_index price)).total_quantity + qr } with
              pool_live := s.pool_live + 1 }
            (price_to_index price)),
        [BookEvent.onLevelUpdate (sideTag s.is_bid)
          ((s.levels (price_to_index price)).price)
          ((s.levels (price_to_index price)).total_quantity + qr)]) := by
  unfold add_order
  rw [if_neg hpool]

theorem sideWf_after_add (s : OrderBookSide) (price : Int) (q qr oid cid : Nat)
    (h1 : MINIMUM_BID ≤ price) (h2 : price ≤ MAXIMUM_ASK)
    (ub : OrderBookSide → Nat → OrderBookSide)
    (hub_lv : ∀ t i, (ub t i).levels = t.levels)
    (hub_bid : ∀ t i, (ub t i).is_bid = t.is_bid)
    (hub_best : ∀ t i, i < NUM_BOOK_LEVELS → t.best_price_index ≤ NUM_BOOK_LEVELS →
      (ub t i).best_price_index ≤ NUM_BOOK_LEVELS)
    (hwf : SideWf s) :
    SideWf (ub
      { setLevel s (price_to_index price)
          { s.levels (price_to_index price) with
            orders := (s.levels (price_to_index price)).orders ++
              [{ client_id := cid
                 order_id := oid
                 price := price
                 quantity := q
                 quantity_remaining := qr
                 quantity_cumulative := q - qr
                 is_bid := s.is_bid }]
            total_quantity := (s.levels (price_to_index price)).total_quantity + qr } with
        pool_live := s.pool_live + 1 }
      (price_to_index price)) := by
  have hl := price_to_index_lt price h1 h2
  have hcore : SideWf (setLevel s (price_to_index price)
      { s.levels (price_to_index price) with
        orders := (s.levels (price_to_index price)).orders ++
          [{ client_id := cid
             order_id := oid
             price := price
             quantity := q
             quantity_remaining := qr
             quantity_cumulative := q - qr
             is_bid := s.is_bid }]
        total_quantity := (s.levels (price_to_index price)).total_quantity + qr }) := by
    refine sideWf_setLevel s (price_to_index price) hl _ hwf rfl ?_ ?_ ?_
    · dsimp only
      rw [sumRem_append_singleton, hwf.sum_eq (price_to_index price) hl]
    · intro o hmem
      dsimp only at hmem ⊢
      rcases List.mem_append.mp hmem with h | h
      · exact hwf.price_eq _ hl o h
      · rw [List.mem_singleton] at h
        subst h
        exact (level_price_at s hwf price h1 h2).symm
    · intro o hmem
      dsimp only at hmem
      rcases List.mem_append.mp hmem with h | h
      · exact hwf.flag_eq _ hl o h
      · rw [List.mem_singleton] at h
        subst h
        rfl
  have hmid : SideWf { setLevel s (price_to_index price)
      { s.levels (price_to_index price) with
        orders := (s.levels (price_to_index price)).orders ++
          [{ client_id := cid
             order_id := oid
             price := price
             quantity := q
             quantity_remaining := qr
             quantity_cumulative := q - qr
             is_bid := s.is_bid }]
        total_quantity := (s.levels (price_to_index price)).total_quantity + qr } with
      pool_live := s.pool_live + 1 } := by
    refine sideWf_of_eq_fields _ _ ?_ ?_ ?_ hcore
    · rfl
    · rfl
    · exact hcore.best_le
  refine sideWf_of_eq_fields _ _ ?_ ?_ ?_ hmid
  · exact hub_lv _ _
  · exact hub_bid _ _
  · exact hub_best _ _ hl hmid.best_le

theorem match_buy_sideWf (s : OrderBookSide) (ip : Int) (q oid cid fuel : Nat)
    (hwf : SideWf s) : SideWf (match_buy s ip q oid cid fuel).side := by
  unfold match_buy
  exact match_loop_sideWf _ _ update_best_ask_after_empty_levels
    update_best_ask_after_empty_is_bid update_best_ask_after_empty_best_le
    ip q oid cid SideT.SELL fuel s q [] [] hwf

theorem match_buy_is_bid (s : OrderBookSide) (ip : Int) (q oid cid fuel : Nat) :
    (match_buy s ip q oid cid fuel).side.is_bid = s.is_bid := by
  unfold match_buy
  exact match_loop_side_is_bid _ _ update_best_ask_after_empty_is_bid
    ip q oid cid SideT.SELL fuel s q [] []

theorem match_buy_fresh (s : OrderBookSide) (ip : Int) (q oid cid fuel n : Nat)
    (hbest : s.best_price_index ≤ NUM_BOOK_LEVELS)
    (hlv : ∀ i, i < NUM_BOOK_LEVELS → ∀ o ∈ (s.levels i).orders, o.order_id < n) :
    (∀ i, i < NUM_BOOK_LEVELS →
      ∀ o ∈ ((match_buy s ip q oid cid fuel).side.levels i).orders, o.order_id < n) ∧
    (∀ x ∈ (match_buy s ip q oid cid fuel).filled, x < n) := by
  unfold match_buy
  exact match_loop_fresh _ _ update_best_ask_after_empty_levels
    update_best_ask_after_empty_best_le ip q oid cid SideT.SELL n fuel s q [] []
    hbest hlv (by intro x hx; cases hx)

theorem match_buy_find_preserved (s : OrderBookSide) (ip : Int) (q oid cid fuel : Nat)
    (i id : Nat) (o : Order) (hi : i < NUM_BOOK_LEVELS)
    (hfind : findById ((s.levels i).orders) id = some o)
    (hnot : id ∉ (match_buy s ip q oid cid fuel).filled) :
    ∃ o', findById (((match_buy s ip q oid cid fuel).side.levels i).orders) id = some o' ∧
      o'.price = o.price ∧ o'.is_bid = o.is_bid := by
  unfold match_buy at hnot ⊢
  exact match_loop_find_preserved _ _ update_best_ask_after_empty_levels
    ip q oid cid SideT.SELL fuel s q [] [] i id o hi hfind hnot

theorem match_sell_sideWf (s : OrderBookSide) (ip : Int) (q oid cid fuel : Nat)
    (hwf : SideWf s) : SideWf (match_sell s ip q oid cid fuel).side := by
  unfold match_sell
  exact match_loop_sideWf _ _ update_best_bid_after_empty_levels
    update_best_bid_after_empty_is_bid update_best_bid_after_empty_best_le
    ip q oid cid SideT.BUY fuel s q [] [] hwf

theorem match_sell_is_bid (s : OrderBookSide) (ip : Int) (q oid cid fuel : Nat) :
    (match_sell s ip q oid cid fuel).side.is_bid = s.is_bid := by
  unfold match_sell
  exact match_loop_side_is_bid _ _ update_best_bid_after_empty_is_bid
    ip q oid cid SideT.BUY fuel s q [] []

theorem match_sell_fresh (s : OrderBookSide) (ip : Int) (q oid cid fuel n : Nat)
    (hbest : s.best_price_index ≤ NUM_BOOK_LEVELS)
    (hlv : ∀ i, i < NUM_BOOK_LEVELS → ∀ o ∈ (s.levels i).orders, o.order_id < n) :
    (∀ i, i < NUM_BOOK_LEVELS →
      ∀ o ∈ ((match_sell s ip q oid cid fuel).side.levels i).orders, o.order_id < n) ∧
    (∀ x ∈ (match_sell s ip q oid cid fuel).filled, x < n) := by
  unfold match_sell
  exact match_loop_fresh _ _ update_best_bid_after_empty_levels
    update_best_bid_after_empty_best_le ip q oid cid SideT.BUY n fuel s q [] []
    hbest hlv (by intro x hx; cases hx)

theorem match_sell_find_preserved (s : OrderBookSide) (ip : Int) (q oid cid fuel : Nat)
    (i id : Nat) (o : Order) (hi : i < NUM_BOOK_LEVELS)
    (hfind : findById ((s.levels i).orders) id = some o)
    (hnot : id ∉ (match_sell s ip q oid cid fuel).filled) :
    ∃ o', findById (((match_sell s ip q oid cid fuel).side.levels i).orders) id = some o' ∧
      o'.price = o.price ∧ o'.is_bid = o.is_bid := by
  unfold match_sell at hnot ⊢
  exact match_loop_find_preserved _ _ update_best_bid_after_empty_levels
    ip q oid cid SideT.BUY fuel s q [] [] i id o hi hfind hnot

theorem submit_order_wf (b : OrderBook) (price : Int) (quantity : Nat) (is_bid : Bool)
    (cid crid fuel : Nat) (hwf : Wf b)
    (hc : (submit_order b price quantity is_bid cid crid fuel).crashed = false)
    (hf : (submit_order b price quantity is_bid cid crid fuel).out_of_fuel = false) :
    Wf (submit_order b price quantity is_bid cid crid fuel).book := by
  by_cases hq : quantity = 0
  · simp only [submit_order, if_pos hq]
    exact hwf
  by_cases hp : price < MINIMUM_BID ∨ price > MAXIMUM_ASK
  · simp only [submit_order, if_neg hq, if_pos hp]
    exact hwf
  have hp' := hp
  push_neg at hp'
  obtain ⟨hp1, hp2⟩ := hp'
  cases is_bid with
  | true =>
      simp only [submit_order] at hc hf ⊢
      rw [if_neg hq, if_neg hp, if_true] at hc hf ⊢
      by_cases hof : (match_buy b.asks price quantity b.order_id cid fuel).out_of_fuel = true
      · rw [if_pos hof] at hf
        exact Bool.noConfusion hf
      rw [if_neg hof] at hc ⊢
      by_cases hrem : (match_buy b.asks price quantity b.order_id cid fuel).remaining > 0
      · rw [if_pos hrem] at hc ⊢
        by_cases hpool : b.bids.pool_live = MAX_ORDERS
        · rw [add_order_full b.bids price quantity
            (match_buy b.asks price quantity b.order_id cid fuel).remaining
            b.order_id cid crid hpool] at hc
          dsimp only at hc
          exact Bool.noConfusion hc
        · rw [add_order_ok b.bids price quantity
            (match_buy b.asks price quantity b.order_id cid fuel).remaining
            b.order_id cid crid hpool]
          rw [if_pos hwf.bids_flag]
          dsimp only
          refine ⟨?_, ?_, ?_, ?_, ?_, ?_, ?_, ?_⟩
          · exact sideWf_after_add b.bids price quantity
              (match_buy b.asks price quantity b.order_id cid fuel).remaining
              b.order_id cid hp1 hp2 update_best_bid_after_order
              update_best_bid_after_order_levels update_best_bid_after_order_is_bid
              update_best_bid_after_order_best_le hwf.bids_wf
          · exact match_buy_sideWf b.asks price quantity b.order_id cid fuel hwf.asks_wf
          · dsimp only
            rw [update_best_bid_after_order_is_bid]
            dsimp only
            rw [setLevel_is_bid]
            exact hwf.bids_flag
          · dsimp only
            rw [match_buy_is_bid]
            exact hwf.asks_flag
          · intro i hi o hmem
            dsimp only at hmem ⊢
            rw [update_best_bid_after_order_levels] at hmem
            dsimp only at hmem
            by_cases hil : i = price_to_index price
            · subst hil
              rw [setLevel_levels_self] at hmem
              dsimp only at hmem
              rcases List.mem_append.mp hmem with h | h
              · exact Nat.lt_succ_of_lt (hwf.fresh_bids _ hi o h)
              · rw [List.mem_singleton] at h
                subst h
                exact Nat.lt_succ_self _
            · rw [setLevel_levels_ne _ _ _ _ hil] at hmem
              exact Nat.lt_succ_of_lt (hwf.fresh_bids i hi o hmem)
          · intro i hi o hmem
            dsimp only at hmem ⊢
            exact (match_buy_fresh b.asks price quantity b.order_id cid fuel
              (b.order_id + 1) hwf.asks_wf.best_le
              (fun j hj o' ho' => Nat.lt_succ_of_lt (hwf.fresh_asks j hj o' ho'))).1 i hi o hmem
          · intro id lb lp hid
            dsimp only at hid
            have hnotf : id ∉ (match_buy b.asks price quantity b.order_id cid fuel).filled := by
              intro hmem
              rw [eraseIds_mem _ _ _ hmem] at hid
              exact IndexEntry.noConfusion hid
            rw [eraseIds_not_mem _ _ _ hnotf] at hid
            by_cases hido : id = b.order_id
            · subst hido
              rw [setIndex_self] at hid
              injection hid with e1 e2
              subst e1
              subst e2
              refine ⟨hp1, hp2, ?_⟩
              refine ⟨{ client_id := cid
                        order_id := b.order_id
                        price := price
                        quantity := quantity
                        quantity_remaining :=
                          (match_buy b.asks price quantity b.order_id cid fuel).remaining
                        quantity_cumulative := quantity -
                          (match_buy b.asks price quantity b.order_id cid fuel).remaining
                        is_bid := b.bids.is_bid }, ?_, ?_, ?_⟩
              · rw [if_pos rfl]
                dsimp only
                rw [update_best_bid_after_order_levels]
                dsimp only
                rw [setLevel_levels_self]
                dsimp only
                rw [findById_append_of_none _ _ _
                  (findById_none_of_lt _ _ (hwf.fresh_bids (price_to_index price)
                    (price_to_index_lt price hp1 hp2)))]
                exact findById_cons_self _ _ _ rfl
              · exact hwf.bids_flag
              · rfl
            · rw [setIndex_ne _ _ _ _ hido] at hid
              obtain ⟨g1, g2, o, hfind, hob, hop⟩ := hwf.index_live id lb lp hid
              refine ⟨g1, g2, ?_⟩
              by_cases hlb : lb = true
              · rw [if_pos hlb] at hfind ⊢
                dsimp only
                rw [update_best_bid_after_order_levels]
                dsimp only
                by_cases hil : price_to_index lp = price_to_index price
                · rw [hil, setLevel_levels_self]
                  dsimp only
                  rw [hil] at hfind
                  exact ⟨o, findById_append_of_some _ _ _ _ hfind, hob, hop⟩
                · rw [setLevel_levels_ne _ _ _ _ hil]
                  exact ⟨o, hfind, hob, hop⟩
              · rw [if_neg hlb] at hfind ⊢
                dsimp only
                obtain ⟨o', hfind', hop', hob'⟩ := match_buy_find_preserved b.asks price
                  quantity b.order_id cid fuel (price_to_index lp) id o
                  (price_to_index_lt lp g1 g2) hfind hnotf
                refine ⟨o', hfind', ?_, ?_⟩
                · rw [hob']
                  exact hob
                · rw [hop']
                  exact hop
          · intro id
            dsimp only
            rcases eraseIds_entry (match_buy b.asks price quantity b.order_id cid fuel).filled
              (setIndex b.order_index b.order_id (IndexEntry.live true price)) id with h | h
            · rw [h]
              by_cases hido : id = b.order_id
              · subst hido
                rw [setIndex_self]
                exact fun he => IndexEntry.noConfusion he
              · rw [setIndex_ne _ _ _ _ hido]
                exact hwf.index_no_null id
            · rw [h]
              exact fun he => IndexEntry.noConfusion he
      · rw [if_neg hrem]
        refine ⟨hwf.bids_wf, ?_, hwf.bids_flag, ?_, ?_, ?_, ?_, ?_⟩
        · exact match_buy_sideWf b.asks price quantity b.order_id cid fuel hwf.asks_wf
        · dsimp only
          rw [match_buy_is_bid]
          exact hwf.asks_flag
        · intro i hi o hmem
          dsimp only at hmem ⊢
          exact Nat.lt_succ_of_lt (hwf.fresh_bids i hi o hmem)
        · intro i hi o hmem
          dsimp only at hmem ⊢
          exact (match_buy_fresh b.asks price quantity b.order_id cid fuel (b.order_id + 1)
            hwf.asks_wf.best_le
            (fun j hj o' ho' => Nat.lt_succ_of_lt (hwf.fresh_asks j hj o' ho'))).1 i hi o hmem
        · intro id lb lp hid
          dsimp only at hid
          have hnotf : id ∉ (match_buy b.asks price quantity b.order_id cid fuel).filled := by
            intro hmem
            rw [eraseIds_mem _ _ _ hmem] at hid
            exact IndexEntry.noConfusion hid
          rw [eraseIds_not_mem _ _ _ hnotf] at hid
          obtain ⟨g1, g2, o, hfind, hob, hop⟩ := hwf.index_live id lb lp hid
          refine ⟨g1, g2, ?_⟩
          by_cases hlb : lb = true
          · rw [if_pos hlb] at hfind ⊢
            exact ⟨o, hfind, hob, hop⟩
          · rw [if_neg hlb] at hfind ⊢
            dsimp only
            obtain ⟨o', hfind', hop', hob'⟩ := match_buy_find_preserved b.asks price quantity
              b.order_id cid fuel (price_to_index lp) id o (price_to_index_lt lp g1 g2)
              hfind hnotf
            refine ⟨o', hfind', ?_, ?_⟩
            · rw [hob']
              exact hob
            · rw [hop']
              exact hop
        · intro id
          dsimp only
          rcases eraseIds_entry (match_buy b.asks price quantity b.order_id cid fuel).filled
            b.order_index id with h | h
          · rw [h]
            exact hwf.index_no_null id
          · rw [h]
            exact fun he => IndexEntry.noConfusion he
  | false =>
      simp only [submit_order] at hc hf ⊢
      rw [if_neg hq, if_neg hp, if_neg Bool.false_ne_true] at hc hf ⊢
      by_cases hof : (match_sell b.bids price quantity b.order_id cid fuel).out_of_fuel = true
      · rw [if_pos hof] at hf
        exact Bool.noConfusion hf
      rw [if_neg hof] at hc ⊢
      by_cases hrem : (match_sell b.bids price quantity b.order_id cid fuel).remaining > 0
      · rw [if_pos hrem] at hc ⊢
        by_cases hpool : b.asks.pool_live = MAX_ORDERS
        · rw [add_order_full b.asks price quantity
            (match_sell b.bids price quantity b.order_id cid fuel).remaining
            b.order_id cid crid hpool] at hc
          dsimp only at hc
          exact Bool.noConfusion hc
        · rw [add_order_ok b.asks price quantity
            (match_sell b.bids price quantity b.order_id cid fuel).remaining
            b.order_id cid crid hpool]
          have hnb : ¬ (b.asks.is_bid = true) := by
            rw [hwf.asks_flag]
            exact Bool.false_ne_true
          rw [if_neg hnb]
          dsimp only
          refine ⟨?_, ?_, ?_, ?_, ?_, ?_, ?_, ?_⟩
          · exact match_sell_sideWf b.bids price quantity b.order_id cid fuel hwf.bids_wf
          · exact sideWf_after_add b.asks price quantity
              (match_sell b.bids price quantity b.order_id cid fuel).remaining
              b.order_id cid hp1 hp2 update_best_ask_after_order
              update_best_ask_after_order_levels update_best_ask_after_order_is_bid
              update_best_ask_after_order_best_le hwf.asks_wf
          · dsimp only
            rw [match_sell_is_bid]
            exact hwf.bids_flag
          · dsimp only
            rw [update_best_ask_after_order_is_bid]
            dsimp only
            rw [setLevel_is_bid]
            exact hwf.asks_flag
          · intro i hi o hmem
            dsimp only at hmem ⊢
            exact (match_sell_fresh b.bids price quantity b.order_id cid fuel
              (b.order_id + 1) hwf.bids_wf.best_le
              (fun j hj o' ho' => Nat.lt_succ_of_lt (hwf.fresh_bids j hj o' ho'))).1 i hi o hmem
          · intro i hi o hmem
            dsimp only at hmem ⊢
            rw [update_best_ask_after_order_levels] at hmem
            dsimp only at hmem
            by_cases hil : i = price_to_index price
            · subst hil
              rw [setLevel_levels_self] at hmem
              dsimp only at hmem
              rcases List.mem_append.mp hmem with h | h
              · exact Nat.lt_succ_of_lt (hwf.fresh_asks _ hi o h)
              · rw [List.mem_singleton] at h
                subst h
                exact Nat.lt_succ_self _
            · rw [setLevel_levels_ne _ _ _ _ hil] at hmem
              exact Nat.lt_succ_of_lt (hwf.fresh_asks i hi o hmem)
          · intro id lb lp hid
            dsimp only at hid
            have hnotf : id ∉ (match_sell b.bids price quantity b.order_id cid fuel).filled := by
              intro hmem
              rw [eraseIds_mem _ _ _ hmem] at hid
              exact IndexEntry.noConfusion hid
            rw [eraseIds_not_mem _ _ _ hnotf] at hid
            by_cases hido : id = b.order_id
            · subst hido
              rw [setIndex_self] at hid
              injection hid with e1 e2
              subst e1
              subst e2
              refine ⟨hp1, hp2, ?_⟩
              refine ⟨{ client_id := cid
                        order_id := b.order_id
                        price := price
                        quantity := quantity
                        quantity_remaining :=
                          (match_sell b.bids price quantity b.order_id cid fuel).remaining
                        quantity_cumulative := quantity -
                          (match_sell b.bids price quantity b.order_id cid fuel).remaining
                        is_bid := b.asks.is_bid }, ?_, ?_, ?_⟩
              · rw [if_neg Bool.false_ne_true]
                dsimp only
                rw [update_best_ask_after_order_levels]
                dsimp only
                rw [setLevel_levels_self]
                dsimp only
                rw [findById_append_of_none _ _ _
                  (findById_none_of_lt _ _ (hwf.fresh_asks (price_to_index price)
                    (price_to_index_lt price hp1 hp2)))]
                exact findById_cons_self _ _ _ rfl
              · exact hwf.asks_flag
              · rfl
            · rw [setIndex_ne _ _ _ _ hido] at hid
              obtain ⟨g1, g2, o, hfind, hob, hop⟩ := hwf.index_live id lb lp hid
              refine ⟨g1, g2, ?_⟩
              by_cases hlb : lb = true
              · rw [if_pos hlb] at hfind ⊢
                dsimp only
                obtain ⟨o', hfind', hop', hob'⟩ := match_sell_find_preserved b.bids price
                  quantity b.order_id cid fuel (price_to_index lp) id o
                  (price_to_index_lt lp g1 g2) hfind hnotf
                refine ⟨o', hfind', ?_, ?_⟩
                · rw [hob']
                  exact hob
                · rw [hop']
                  exact hop
              · rw [if_neg hlb] at hfind ⊢
                dsimp only
                rw [update_best_ask_after_order_levels]
                dsimp only
                by_cases hil : price_to_index lp = price_to_index price
                · rw [hil, setLevel_levels_self]
                  dsimp only
                  rw [hil] at hfind
                  exact ⟨o, findById_append_of_some _ _ _ _ hfind, hob, hop⟩
                · rw [setLevel_levels_ne _ _ _ _ hil]
                  exact ⟨o, hfind, hob, hop⟩
          · intro id
            dsimp only
            rcases eraseIds_entry (match_sell b.bids price quantity b.order_id cid fuel).filled
              (setIndex b.order_index b.order_id (IndexEntry.live false price)) id with h | h
            · rw [h]
              by_cases hido : id = b.order_id
              · subst hido
                rw [setIndex_self]
                exact fun he => IndexEntry.noConfusion he
              · rw [setIndex_ne _ _ _ _ hido]
                exact hwf.index_no_null id
            · rw [h]
              exact fun he => IndexEntry.noConfusion he
      · rw [if_neg hrem]
        refine ⟨?_, hwf.asks_wf, ?_, hwf.asks_flag, ?_, ?_, ?_, ?_⟩
        · exact match_sell_sideWf b.bids price quantity b.order_id cid fuel hwf.bids_wf
        · dsimp only
          rw [match_sell_is_bid]
          exact hwf.bids_flag
        · intro i hi o hmem
          dsimp only at hmem ⊢
          exact (match_sell_fresh b.bids price quantity b.order_id cid fuel (b.order_id + 1)
            hwf.bids_wf.best_le
            (fun j hj o' ho' => Nat.lt_succ_of_lt (hwf.fresh_bids j hj o' ho'))).1 i hi o hmem
        · intro i hi o hmem
          dsimp only at hmem ⊢
          exact Nat.lt_succ_of_lt (hwf.fresh_asks i hi o hmem)
        · intro id lb lp hid
          dsimp only at hid
          have hnotf : id ∉ (match_sell b.bids price quantity b.order_id cid fuel).filled := by
            intro hmem
            rw [eraseIds_mem _ _ _ hmem] at hid
            exact IndexEntry.noConfusion hid
          rw [eraseIds_not_mem _ _ _ hnotf] at hid
          obtain ⟨g1, g2, o, hfind, hob, hop⟩ := hwf.index_live id lb lp hid
          refine ⟨g1, g2, ?_⟩
          by_cases hlb : lb = true
          · rw [if_pos hlb] at hfind ⊢
            dsimp only
            obtain ⟨o', hfind', hop', hob'⟩ := match_sell_find_preserved b.bids price quantity
              b.order_id cid fuel (price_to_index lp) id o (price_to_index_lt lp g1 g2)
              hfind hnotf
            refine ⟨o', hfind', ?_, ?_⟩
            · rw [hob']
              exact hob
            · rw [hop']
              exact hop
          · rw [if_neg hlb] at hfind ⊢
            exact ⟨o, hfind, hob, hop⟩
        · intro id
          dsimp only
          rcases eraseIds_entry (match_sell b.bids price quantity b.order_id cid fuel).filled
            b.order_index id with h | h
          · rw [h]
            exact hwf.index_no_null id
          · rw [h]
            exact fun he => IndexEntry.noConfusion he

theorem sideWf_init (f : Bool) : SideWf (initSide f) := by
  refine ⟨?_, ?_, ?_, ?_, Nat.le_refl _⟩
  · intro i hi
    rfl
  · intro i hi o hmem
    cases hmem
  · intro i hi o hmem
    cases hmem
  · intro i hi
    rfl

theorem wf_initBook : Wf initBook := by
  refine ⟨sideWf_init true, sideWf_init false, rfl, rfl, ?_, ?_, ?_, ?_⟩
  · intro i hi o hmem
    cases hmem
  · intro i hi o hmem
    cases hmem
  · intro id lb lp hid
    exact IndexEntry.noConfusion hid
  · intro id hid
    exact IndexEntry.noConfusion hid

theorem wf_of_reachable (b : OrderBook) (hr : Reachable b) : Wf b := by
  induction hr with
  | init => exact wf_initBook
  | submit b price quantity is_bid cid crid fuel hb hc hf ih =>
      exact submit_order_wf b price quantity is_bid cid crid fuel ih hc hf
  | cancel b cid crid tid hb hc ih =>
      exact (cancel_order_wf b cid crid tid ih).2
  | amend b cid crid tid qn hb hc ih =>
      exact (amend_order_wf b cid crid tid qn ih).2

theorem submit_events_trade_ok (b : OrderBook) (price : Int) (quantity : Nat)
    (is_bid : Bool) (cid crid fuel : Nat) :
    ∀ e ∈ (submit_order b price quantity is_bid cid crid fuel).events, tradePriceQtyOk e := by
  intro e he
  by_cases hq : quantity = 0
  · simp only [submit_order, if_pos hq] at he
    rw [List.mem_singleton] at he
    subst he
    intro mk tcid toid pr tt tc tq heq
    exact BookEvent.noConfusion heq
  by_cases hp : price < MINIMUM_BID ∨ price > MAXIMUM_ASK
  · simp only [submit_order, if_neg hq, if_pos hp] at he
    rw [List.mem_singleton] at he
    subst he
    intro mk tcid toid pr tt tc tq heq
    exact BookEvent.noConfusion heq
  cases is_bid with
  | true =>
      simp only [submit_order] at he
      rw [if_neg hq, if_neg hp, if_true] at he
      have hr : ∀ e' ∈ (match_buy b.asks price quantity b.order_id cid fuel).events,
          tradePriceQtyOk e' := by
        intro e' he'
        unfold match_buy at he'
        exact match_loop_trade_ok _ _ price quantity b.order_id cid SideT.SELL fuel
          b.asks quantity [] [] (Nat.le_refl _)
          (fun x hx => absurd hx (List.not_mem_nil x)) e' he'
      by_cases hof : (match_buy b.asks price quantity b.order_id cid fuel).out_of_fuel = true
      · rw [if_pos hof] at he
        exact hr e he
      rw [if_neg hof] at he
      by_cases hrem : (match_buy b.asks price quantity b.order_id cid fuel).remaining > 0
      · rw [if_pos hrem] at he
        by_cases hpool : b.bids.pool_live = MAX_ORDERS
        · rw [add_order_full b.bids price quantity _ b.order_id cid crid hpool] at he
          dsimp only at he
          rcases List.mem_append.mp he with h | h
          · exact hr e h
          · rw [List.mem_singleton] at h
            subst h
            intro mk tcid toid pr tt tc tq heq
            exact BookEvent.noConfusion heq
        · rw [add_order_ok b.bids price quantity _ b.order_id cid crid hpool] at he
          dsimp only at he
          rcases List.mem_append.mp he with h | h
          · rcases List.mem_append.mp h with h' | h'
            · exact hr e h'
            · rw [List.mem_singleton] at h'
              subst h'
              intro mk tcid toid pr tt tc tq heq
              exact BookEvent.noConfusion heq
          · rw [List.mem_singleton] at h
            subst h
            intro mk tcid toid pr tt tc tq heq
            exact BookEvent.noConfusion heq
      · rw [if_neg hrem] at he
        exact hr e he
  | false =>
      simp only [submit_order] at he
      rw [if_neg hq, if_neg hp, if_neg Bool.false_ne_true] at he
      have hr : ∀ e' ∈ (match_sell b.bids price quantity b.order_id cid fuel).events,
          tradePriceQtyOk e' := by
        intro e' he'
        unfold match_sell at he'
        exact match_loop_trade_ok _ _ price quantity b.order_id cid SideT.BUY fuel
          b.bids quantity [] [] (Nat.le_refl _)
          (fun x hx => absurd hx (List.not_mem_nil x)) e' he'
      by_cases hof : (match_sell b.bids price quantity b.order_id cid fuel).out_of_fuel = true
      · rw [if_pos hof] at he
        exact hr e he
      rw [if_neg hof] at he
      by_cases hrem : (match_sell b.bids price quantity b.order_id cid fuel).remaining > 0
      · rw [if_pos hrem] at he
        by_cases hpool : b.asks.pool_live = MAX_ORDERS
        · rw [add_order_full b.asks price quantity _ b.order_id cid crid hpool] at he
          dsimp only at he
          rcases List.mem_append.mp he with h | h
          · exact hr e h
          · rw [List.mem_singleton] at h
            subst h
            intro mk tcid toid pr tt tc tq heq
            exact BookEvent.noConfusion heq
        · rw [add_order_ok b.asks price quantity _ b.order_id cid crid hpool] at he
          dsimp only at he
          rcases List.mem_append.mp he with h | h
          · rcases List.mem_append.mp h with h' | h'
            · exact hr e h'
            · rw [List.mem_singleton] at h'
              subst h'
              intro mk tcid toid pr tt tc tq heq
              exact BookEvent.noConfusion heq
          · rw [List.mem_singleton] at h
            subst h
            intro mk tcid toid pr tt tc tq heq
            exact BookEvent.noConfusion heq
      · rw [if_neg hrem] at he
        exact hr e he

theorem submit_events_maker_flag (b : OrderBook) (price : Int) (quantity : Nat)
    (is_bid : Bool) (cid crid fuel : Nat) (hwf : Wf b) :
    ∀ e ∈ (submit_order b price quantity is_bid cid crid fuel).events,
      makerFlagOk (! is_bid) e := by
  intro e he
  by_cases hq : quantity = 0
  · simp only [submit_order, if_pos hq] at he
    rw [List.mem_singleton] at he
    subst he
    intro mk tcid toid pr tt tc tq heq
    exact BookEvent.noConfusion heq
  by_cases hp : price < MINIMUM_BID ∨ price > MAXIMUM_ASK
  · simp only [submit_order, if_neg hq, if_pos hp] at he
    rw [List.mem_singleton] at he
    subst he
    intro mk tcid toid pr tt tc tq heq
    exact BookEvent.noConfusion heq
  cases is_bid with
  | true =>
      simp only [submit_order] at he
      rw [if_neg hq, if_neg hp, if_true] at he
      have hr : ∀ e' ∈ (match_buy b.asks price quantity b.order_id cid fuel).events,
          makerFlagOk false e' := by
        intro e' he'
        unfold match_buy at he'
        refine match_loop_maker_flag _ _ update_best_ask_after_empty_levels
          update_best_ask_after_empty_best_le price quantity b.order_id cid SideT.SELL false
          fuel b.asks quantity [] [] hwf.asks_wf.best_le ?_ ?_ e' he'
        · intro i hi o ho
          have h := hwf.asks_wf.flag_eq i hi o ho
          rw [hwf.asks_flag] at h
          exact h
        · intro x hx
          cases hx
      by_cases hof : (match_buy b.asks price quantity b.order_id cid fuel).out_of_fuel = true
      · rw [if_pos hof] at he
        exact hr e he
      rw [if_neg hof] at he
      by_cases hrem : (match_buy b.asks price quantity b.order_id cid fuel).remaining > 0
      · rw [if_pos hrem] at he
        by_cases hpool : b.bids.pool_live = MAX_ORDERS
        · rw [add_order_full b.bids price quantity _ b.order_id cid crid hpool] at he
          dsimp only at he
          rcases List.mem_append.mp he with h | h
          · exact hr e h
          · rw [List.mem_singleton] at h
            subst h
            intro mk tcid toid pr tt tc tq heq
            exact BookEvent.noConfusion heq
        · rw [add_order_ok b.bids price quantity _ b.order_id cid crid hpool] at he
          dsimp only at he
          rcases List.mem_append.mp he with h | h
          · rcases List.mem_append.mp h with h' | h'
            · exact hr e h'
            · rw [List.mem_singleton] at h'
              subst h'
              intro mk tcid toid pr tt tc tq heq
              exact BookEvent.noConfusion heq
          · rw [List.mem_singleton] at h
            subst h
            intro mk tcid toid pr tt tc tq heq
            exact BookEvent.noConfusion heq
      · rw [if_neg hrem] at he
        exact hr e he
  | false =>
      simp only [submit_order] at he
      rw [if_neg hq, if_neg hp, if_neg Bool.false_ne_true] at he
      have hr : ∀ e' ∈ (match_sell b.bids price quantity b.order_id cid fuel).events,
          makerFlagOk true e' := by
        intro e' he'
        unfold match_sell at he'
        refine match_loop_maker_flag _ _ update_best_bid_after_empty_levels
          update_best_bid_after_empty_best_le price quantity b.order_id cid SideT.BUY true
          fuel b.bids quantity [] [] hwf.bids_wf.best_le ?_ ?_ e' he'
        · intro i hi o ho
          have h := hwf.bids_wf.flag_eq i hi o ho
          rw [hwf.bids_flag] at h
          exact h
        · intro x hx
          cases hx
      by_cases hof : (match_sell b.bids price quantity b.order_id cid fuel).out_of_fuel = true
      · rw [if_pos hof] at he
        exact hr e he
      rw [if_neg hof] at he
      by_cases hrem : (match_sell b.bids price quantity b.order_id cid fuel).remaining > 0
      · rw [if_pos hrem] at he
        by_cases hpool : b.asks.pool_live = MAX_ORDERS
        · rw [add_order_full b.asks price quantity _ b.order_id cid crid hpool] at he
          dsimp only at he
          rcases List.mem_append.mp he with h | h
          · exact hr e h
          · rw [List.mem_singleton] at h
            subst h
            intro mk tcid toid pr tt tc tq heq
            exact BookEvent.noConfusion heq
        · rw [add_order_ok b.asks price quantity _ b.order_id cid crid hpool] at he
          dsimp only at he
          rcases List.mem_append.mp he with h | h
          · rcases List.mem_append.mp h with h' | h'
            · exact hr e h'
            · rw [List.mem_singleton] at h'
              subst h'
              intro mk tcid toid pr tt tc tq heq
              exact BookEvent.noConfusion heq
          · rw [List.mem_singleton] at h
            subst h
            intro mk tcid toid pr tt tc tq heq
            exact BookEvent.noConfusion heq
      · rw [if_neg hrem] at he
        exact hr e he

theorem submit_valid_price_no_error (price : Int) (q : Nat) (is_bid : Bool)
    (cid crid fuel : Nat) (hq : ¬ q = 0)
    (h1 : MINIMUM_BID ≤ price) (h2 : price ≤ MAXIMUM_ASK) :
    ∀ e ∈ (submit_order initBook price q is_bid cid crid fuel).events, notErrorEv e := by
  intro e he
  have hp : ¬ (price < MINIMUM_BID ∨ price > MAXIMUM_ASK) := by
    intro h
    rcases h with h | h
    · omega
    · omega
  cases is_bid with
  | true =>
      simp only [submit_order] at he
      rw [if_neg hq, if_neg hp, if_true] at he
      cases fuel with
      | zero =>
          have hmb : match_buy initBook.asks price q initBook.order_id cid 0
              = { side := initBook.asks, remaining := q, events := [], filled := [],
                  out_of_fuel := true } := by
            unfold match_buy
            rw [match_loop_fuel_zero]
          rw [hmb] at he
          dsimp only at he
          rw [if_pos rfl] at he
          cases he
      | succ n =>
          have hmb : match_buy initBook.asks price q initBook.order_id cid (n + 1)
              = { side := initBook.asks, remaining := q, events := [], filled := [],
                  out_of_fuel := false } := by
            unfold match_buy
            exact match_loop_best_empty _ _ price q initBook.order_id cid SideT.SELL n
              initBook.asks q [] [] hq rfl
          rw [hmb] at he
          dsimp only at he
          rw [if_neg Bool.false_ne_true, if_pos (Nat.pos_of_ne_zero hq)] at he
          rw [add_order_ok initBook.bids price q q initBook.order_id cid crid
            (by decide)] at he
          dsimp only at he
          rcases List.mem_append.mp he with h | h
          · rcases List.mem_append.mp h with h' | h'
            · cases h'
            · rw [List.mem_singleton] at h'
              subst h'
              intro cid' crid' code heq
              exact BookEvent.noConfusion heq
          · rw [List.mem_singleton] at h
            subst h
            intro cid' crid' code heq
            exact BookEvent.noConfusion heq
  | false =>
      simp only [submit_order] at he
      rw [if_neg hq, if_neg hp, if_neg Bool.false_ne_true] at he
      cases fuel with
      | zero =>
          have hms : match_sell initBook.bids price q initBook.order_id cid 0
              = { side := initBook.bids, remaining := q, events := [], filled := [],
                  out_of_fuel := true } := by
            unfold match_sell
            rw [match_loop_fuel_zero]
          rw [hms] at he
          dsimp only at he
          rw [if_pos rfl] at he
          cases he
      | succ n =>
          have hms : match_sell initBook.bids price q initBook.order_id cid (n + 1)
              = { side := initBook.bids, remaining := q, events := [], filled := [],
                  out_of_fuel := false } := by
            unfold match_sell
            exact match_loop_best_empty _ _ price q initBook.order_id cid SideT.BUY n
              initBook.bids q [] [] hq rfl
          rw [hms] at he
          dsimp only at he
          rw [if_neg Bool.false_ne_true, if_pos (Nat.pos_of_ne_zero hq)] at he
          rw [add_order_ok initBook.asks price q q initBook.order_id cid crid
            (by decide)] at he
          dsimp only at he
          rcases List.mem_append.mp he with h | h
          · rcases List.mem_append.mp h with h' | h'
            · cases h'
            · rw [List.mem_singleton] at h'
              subst h'
              intro cid' crid' code heq
              exact BookEvent.noConfusion heq
          · rw [List.mem_singleton] at h
            subst h
            intro cid' crid' code heq
            exact BookEvent.noConfusion heq

theorem eventSeqs_append (l₁ l₂ : List Out) :
    eventSeqs (l₁ ++ l₂) = eventSeqs l₁ ++ eventSeqs l₂ :=
  List.filterMap_append _ _ _

theorem chainLt_append (l₁ l₂ : List Nat) (b : Nat)
    (h₁ : List.Chain' (fun x y => x < y) l₁) (h₂ : List.Chain' (fun x y => x < y) l₂)
    (hb₁ : ∀ x ∈ l₁, x < b) (hb₂ : ∀ x ∈ l₂, b ≤ x) :
    List.Chain' (fun x y => x < y) (l₁ ++ l₂) :=
  h₁.append h₂ (fun x hx y hy =>
    Nat.lt_of_lt_of_le (hb₁ x (List.mem_of_mem_getLast? hx))
      (hb₂ y (List.mem_of_mem_head? hy)))

theorem processEvent_seq_le (st : ExchangeState) (ev : BookEvent) :
    st.sequence_number ≤ (processEvent st ev).1.sequence_number := by
  cases ev <;> dsimp only [processEvent] <;> omega

theorem processEvent_eventSeqs (st : ExchangeState) (ev : BookEvent) :
    seqStrictMono (eventSeqs (processEvent st ev).2) ∧
    ∀ x ∈ eventSeqs (processEvent st ev).2,
      st.sequence_number ≤ x ∧ x < (processEvent st ev).1.sequence_number := by
  cases ev <;>
    refine ⟨?_, ?_⟩ <;>
    simp [processEvent, eventSeqs, seqStrictMono]

theorem processEvents_seqs (evs : List BookEvent) : ∀ st : ExchangeState,
    st.sequence_number ≤ (processEvents st evs).1.sequence_number ∧
    seqStrictMono (eventSeqs (processEvents st evs).2) ∧
    ∀ x ∈ eventSeqs (processEvents st evs).2,
      st.sequence_number ≤ x ∧ x < (processEvents st evs).1.sequence_number := by
  induction evs with
  | nil =>
      intro st
      exact ⟨Nat.le_refl _, List.chain'_nil, fun x hx => absurd hx (List.not_mem_nil x)⟩
  | cons ev rest ih =>
      intro st
      obtain ⟨h2, h3⟩ := processEvent_eventSeqs st ev
      have h1 := processEvent_seq_le st ev
      obtain ⟨g1, g2, g3⟩ := ih (processEvent st ev).1
      refine ⟨Nat.le_trans h1 g1, ?_, ?_⟩
      · show seqStrictMono (eventSeqs ((processEvent st ev).2
          ++ (processEvents (processEvent st ev).1 rest).2))
        rw [eventSeqs_append]
        exact chainLt_append _ _ (processEvent st ev).1.sequence_number h2 g2
          (fun x hx => (h3 x hx).2) (fun x hx => (g3 x hx).1)
      · show ∀ x ∈ eventSeqs ((processEvent st ev).2
          ++ (processEvents (processEvent st ev).1 rest).2),
          st.sequence_number ≤ x ∧ x < (processEvents (processEvent st ev).1 rest).1.sequence_number
        intro x hx
        rw [eventSeqs_append] at hx
        rcases List.mem_append.mp hx with h | h
        · exact ⟨(h3 x h).1, Nat.lt_of_lt_of_le (h3 x h).2 g1⟩
        · exact ⟨Nat.le_trans h1 (g3 x h).1, (g3 x h).2⟩

theorem dispatchMsg_seqs (fuel : Nat) (st : ExchangeState) (msg : InMsg) :
    st.sequence_number ≤ (dispatchMsg fuel st msg).1.sequence_number ∧
    seqStrictMono (eventSeqs (dispatchMsg fuel st msg).2) ∧
    ∀ x ∈ eventSeqs (dispatchMsg fuel st msg).2,
      st.sequence_number ≤ x ∧ x < (dispatchMsg fuel st msg).1.sequence_number := by
  cases msg with
  | insertOrder conn crid side price q lf =>
      obtain ⟨g1, g2, g3⟩ := processEvents_seqs
        (submit_order st.book price q (side = SideT.BUY) conn crid fuel).events
        { st with book := (submit_order st.book price q (side = SideT.BUY) conn crid fuel).book }
      exact ⟨g1, g2, g3⟩
  | cancelOrder conn crid oid =>
      obtain ⟨g1, g2, g3⟩ := processEvents_seqs
        (cancel_order st.book conn crid oid).events
        { st with book := (cancel_order st.book conn crid oid).book }
      exact ⟨g1, g2, g3⟩
  | amendOrder conn crid oid qn =>
      obtain ⟨g1, g2, g3⟩ := processEvents_seqs
        (amend_order st.book conn crid oid qn).events
        { st with book := (amend_order st.book conn crid oid qn).book }
      exact ⟨g1, g2, g3⟩
  | subscribe conn =>
      exact ⟨Nat.le_refl _, List.chain'_nil, fun x hx => absurd hx (List.not_mem_nil x)⟩
  | unsubscribe conn =>
      exact ⟨Nat.le_refl _, List.chain'_nil, fun x hx => absurd hx (List.not_mem_nil x)⟩
  | disconnect conn =>
      exact ⟨Nat.le_refl _, List.chain'_nil, fun x hx => absurd hx (List.not_mem_nil x)⟩

theorem runEngine_seqs (fuel : Nat) (msgs : List InMsg) : ∀ st : ExchangeState,
    st.sequence_number ≤ (runEngine fuel st msgs).1.sequence_number ∧
    seqStrictMono (eventSeqs (runEngine fuel st msgs).2) ∧
    ∀ x ∈ eventSeqs (runEngine fuel st msgs).2,
      st.sequence_number ≤ x ∧ x < (runEngine fuel st msgs).1.sequence_number := by
  induction msgs with
  | nil =>
      intro st
      exact ⟨Nat.le_refl _, List.chain'_nil, fun x hx => absurd hx (List.not_mem_nil x)⟩
  | cons msg rest ih =>
      intro st
      by_cases hh : st.halted = true
      · simp only [runEngine]
        rw [if_pos hh]
        exact ⟨Nat.le_refl _, List.chain'_nil, fun x hx => absurd hx (List.not_mem_nil x)⟩
      · simp only [runEngine]
        rw [if_neg hh]
        obtain ⟨d1, d2, d3⟩ := dispatchMsg_seqs fuel st msg
        obtain ⟨g1, g2, g3⟩ := ih (dispatchMsg fuel st msg).1
        refine ⟨Nat.le_trans d1 g1, ?_, ?_⟩
        · show seqStrictMono (eventSeqs ((dispatchMsg fuel st msg).2
            ++ (runEngine fuel (dispatchMsg fuel st msg).1 rest).2))
          rw [eventSeqs_append]
          exact chainLt_append _ _ (dispatchMsg fuel st msg).1.sequence_number d2 g2
            (fun x hx => (d3 x hx).2) (fun x hx => (g3 x hx).1)
        · show ∀ x ∈ eventSeqs ((dispatchMsg fuel st msg).2
            ++ (runEngine fuel (dispatchMsg fuel st msg).1 rest).2),
            st.sequence_number ≤ x ∧
              x < (runEngine fuel (dispatchMsg fuel st msg).1 rest).1.sequence_number
          intro x hx
          rw [eventSeqs_append] at hx
          rcases List.mem_append.mp hx with h | h
          · exact ⟨(d3 x h).1, Nat.lt_of_lt_of_le (d3 x h).2 g1⟩
          · exact ⟨Nat.le_trans d1 (g3 x h).1, (g3 x h).2⟩

/-! The claims. -/

/-- C1: every trade reported by `submit_order` executes at the resting
maker's price with traded quantity `min(maker remaining, incoming
remaining)`; on a well-formed book the maker of every trade carries the
opposite side flag to the aggressor, so `on_trade` stamps `taker_side` with
the aggressor's side; and the spec's concrete scenario (rest `BUY 995x10`,
insert `SELL 990x4`) emits exactly the maker and taker `PARTIAL_FILL_ORDER`s
at price 995 with `last_quantity = 4`, `TRADE_EVENT{price=995, quantity=4,
taker_side=SELL}` and `PRICE_LEVEL_UPDATE{side=BUY, price=995, volume=6}`,
with no sell resting. -/
theorem c1_trade_price_quantity_and_frames :
    (∀ (b : OrderBook) (price : Int) (quantity : Nat) (is_bid : Bool) (cid crid fuel : Nat),
      ∀ e ∈ (submit_order b price quantity is_bid cid crid fuel).events, tradePriceQtyOk e) ∧
    (∀ (b : OrderBook) (price : Int) (quantity : Nat) (is_bid : Bool) (cid crid fuel : Nat),
      Wf b → ∀ e ∈ (submit_order b price quantity is_bid cid crid fuel).events,
        makerFlagOk (! is_bid) e) ∧
    (runEngine 10 initExchange c1Msgs).2 =
      [Out.feed (MdFrame.priceLevelUpdate 0 SideT.BUY 995 10),
        Out.toClient 0 (Frame.confirmOrderInserted 0 0 SideT.BUY 995 10 10),
        Out.feed (MdFrame.orderInsertedEvent 1 0 SideT.BUY 995 10),
        Out.toClient 0 (Frame.partialFill 0 0 995 4 6 4),
        Out.toClient 1 (Frame.partialFill 1 0 995 4 0 4),
        Out.feed (MdFrame.tradeEvent 2 0 995 4 SideT.SELL),
        Out.feed (MdFrame.priceLevelUpdate 3 SideT.BUY 995 6)] ∧
    ((runEngine 10 initExchange c1Msgs).1.book.asks.levels (price_to_index 990)).total_quantity
      = 0 :=
  ⟨submit_events_trade_ok, submit_events_maker_flag, by decide, by decide⟩

/-- Witness for C1: the concrete trade of the spec scenario (maker `BUY
995x10` partially filled by `SELL 990x4`) satisfies both universal parts at
the resting book `bookAfterBuy995`. -/
theorem c1_witness :
    tradePriceQtyOk (BookEvent.onTrade
      { client_id := 0, order_id := 0, price := 995, quantity := 10,
        quantity_remaining := 6, quantity_cumulative := 4, is_bid := true } 1 1 995 4 4 4) ∧
    makerFlagOk true (BookEvent.onTrade
      { client_id := 0, order_id := 0, price := 995, quantity := 10,
        quantity_remaining := 6, quantity_cumulative := 4, is_bid := true } 1 1 995 4 4 4) :=
  ⟨c1_trade_price_quantity_and_frames.1 bookAfterBuy995 990 4 false 1 2 10 _ (by decide),
    c1_trade_price_quantity_and_frames.2.1 bookAfterBuy995 990 4 false 1 2 10
      (submit_order_wf initBook 995 10 true 0 1 10 wf_initBook (by decide) (by decide))
      _ (by decide)⟩

/-- C2: in every reachable order-book state (i.e. after every sequence of
`submit_order`, `cancel_order` and `amend_order` operations), each price
level's `total_quantity` equals the sum of `quantity_remaining` over the
orders in that level's FIFO, and every linked order's price equals the
level's price, on both sides. -/
theorem c2_level_volume_invariant (b : OrderBook) (hr : Reachable b) :
    ∀ i, i < NUM_BOOK_LEVELS →
      (b.bids.levels i).total_quantity = sumRem ((b.bids.levels i).orders) ∧
      (b.asks.levels i).total_quantity = sumRem ((b.asks.levels i).orders) ∧
      (∀ o ∈ (b.bids.levels i).orders, o.price = (b.bids.levels i).price) ∧
      (∀ o ∈ (b.asks.levels i).orders, o.price = (b.asks.levels i).price) := by
  intro i hi
  have hwf := wf_of_reachable b hr
  exact ⟨hwf.bids_wf.sum_eq i hi, hwf.asks_wf.sum_eq i hi,
    hwf.bids_wf.price_eq i hi, hwf.asks_wf.price_eq i hi⟩

/-- Witness for C2: the invariant instantiated at the reachable book holding
`BUY 995x10`, at the level of price 995 (index 994). -/
theorem c2_witness :
    (bookAfterBuy995.bids.levels 994).total_quantity
        = sumRem ((bookAfterBuy995.bids.levels 994).orders) ∧
    (bookAfterBuy995.asks.levels 994).total_quantity
        = sumRem ((bookAfterBuy995.asks.levels 994).orders) ∧
    (∀ o ∈ (bookAfterBuy995.bids.levels 994).orders,
      o.price = (bookAfterBuy995.bids.levels 994).price) ∧
    (∀ o ∈ (bookAfterBuy995.asks.levels 994).orders,
      o.price = (bookAfterBuy995.asks.levels 994).price) :=
  c2_level_volume_invariant bookAfterBuy995
    (Reachable.submit initBook 995 10 true 0 1 10 Reachable.init (by decide) (by decide))
    994 (by decide)

set_option maxRecDepth 40000 in
/-- C3 is refuted: the book `c3Book` is reachable by complete, non-crashing
operations (rest bids `995x10` and `990x5`, amend the non-best `990` order
to total quantity zero, then insert `SELL 990x5`), yet it is crossed: the
emptied level triggers `amend_order`'s unguarded best-price rescan, which
runs from the unrelated best index `994`, finds nothing below it and marks
the whole bid side empty, so the following sell no longer matches the
still-resting `995` bid and rests at `990` below it. -/
theorem c3_crossed_book_reachable : Reachable c3Book ∧ crossedBook c3Book := by
  constructor
  · exact Reachable.submit _ 990 5 false 7 4 10
      (Reachable.amend _ 0 3 1 0
        (Reachable.submit _ 990 5 true 0 2 10
          (Reachable.submit initBook 995 10 true 0 1 10 Reachable.init
            (by decide) (by decide))
          (by decide) (by decide))
        (by decide))
      (by decide) (by decide)
  · refine ⟨994, 989, by decide, by decide, ?_, ?_, ?_⟩
    · decide
    · decide
    · decide

/-- C4 is refuted on its concrete part: the `INSERT_ORDER` of `c4Msgs`
carries `client_request_id = 7`, but the only response sent to the
requesting client is a `CONFIRM_ORDER_INSERTED` carrying
`client_request_id = 0` (the bid branch of `OrderBook::submit_order` passes
a literal `0` to `on_order_inserted`), so no response ties back to request
id 7. -/
theorem c4_buy_confirm_drops_request_id :
    requestIdsOf (runEngine 10 initExchange c4Msgs).2 = [0] ∧
    Out.toClient 3 (Frame.confirmOrderInserted 0 0 SideT.BUY 995 10 10)
      ∈ (runEngine 10 initExchange c4Msgs).2 := by
  exact ⟨by decide, by decide⟩

/-- C5 is refuted: the fill-and-kill insert of `c5Msgs` (`SELL 990x4` on an
empty book, lifespan `FILL_AND_KILL`) leaves its whole residual resting on
the ask side and emits a resting `CONFIRM_ORDER_INSERTED`, because
`Exchange::dispatch_` drops the payload's `lifespan` field. -/
theorem c5_fill_and_kill_rests :
    ((runEngine 10 initExchange c5Msgs).1.book.asks.levels (price_to_index 990)).total_quantity
        = 4 ∧
    Out.toClient 1 (Frame.confirmOrderInserted 9 0 SideT.SELL 990 4 4)
      ∈ (runEngine 10 initExchange c5Msgs).2 := by
  exact ⟨by decide, by decide⟩

/-- C6 is refuted: with the pool at capacity, `submit_order` of a resting
buy does emit `ORDER_BOOK_FULL`, but it also mutates state - the null
`Order*` returned by `add_order` is stored into `order_index_` before being
checked - and then dereferences that null pointer (`crashed`). -/
theorem c6_full_pool_submit_mutates :
    (submit_order fullPoolBook 995 10 true 7 1 10).crashed = true ∧
    (submit_order fullPoolBook 995 10 true 7 1 10).book.order_index 0 = IndexEntry.null ∧
    (submit_order fullPoolBook 995 10 true 7 1 10).events
      = [BookEvent.onError 7 1 ERR_ORDER_BOOK_FULL] := by
  exact ⟨by decide, by decide, by decide⟩

/-- C7: cancelling an order id that is absent from `order_index_` (as a
fully filled or already cancelled id is) emits `ERROR_MSG` with code
`ORDER_NOT_FOUND` to the requester and returns the book entirely unchanged. -/
theorem c7_cancel_missing_id (b : OrderBook) (cid crid tid : Nat)
    (habs : b.order_index tid = IndexEntry.absent) :
    (cancel_order b cid crid tid).book = b ∧
    (cancel_order b cid crid tid).events
      = [BookEvent.onError cid crid ERR_ORDER_NOT_FOUND] := by
  simp only [cancel_order, habs]
  exact ⟨trivial, trivial⟩

/-- Witness for C7: after `BUY 995x10` is fully filled by `SELL 995x10`,
its id 0 has been erased from the index, and cancelling it yields
`ORDER_NOT_FOUND` with the book unchanged. -/
theorem c7_witness :
    (cancel_order (submit_order bookAfterBuy995 995 10 false 1 2 10).book 0 9 0).book
        = (submit_order bookAfterBuy995 995 10 false 1 2 10).book ∧
    (cancel_order (submit_order bookAfterBuy995 995 10 false 1 2 10).book 0 9 0).events
        = [BookEvent.onError 0 9 ERR_ORDER_NOT_FOUND] :=
  c7_cancel_missing_id _ 0 9 0 (by decide)

/-- C8 as amended: across every run of the engine the sequence numbers of
the five incremental market-data event frames are strictly monotonically
increasing in emission order; the `ORDER_BOOK_SNAPSHOT` sent to a new
subscriber is deliberately stamped with the current sequence number without
incrementing it, so the snapshot is excluded from the strict chain. -/
theorem c8_event_seqs_strictly_monotonic :
    (∀ (fuel : Nat) (msgs : List InMsg),
      seqStrictMono (eventSeqs (runEngine fuel initExchange msgs).2)) ∧
    (∀ (st : ExchangeState) (conn : Nat),
      (subscribe_market_feed st conn).2
        = [Out.toClient conn (Frame.orderBookSnapshot (build_snapshot st.book)
            st.sequence_number)] ∧
      (subscribe_market_feed st conn).1.sequence_number = st.sequence_number) :=
  ⟨fun fuel msgs => (runEngine_seqs fuel msgs initExchange).2.1,
    fun _ _ => ⟨rfl, rfl⟩⟩

/-- Counterexample to C8 as stated: in the run `c8Msgs` (subscribe, then a
resting insert) the snapshot shares sequence number 0 with the next
`PRICE_LEVEL_UPDATE`, so the market-data trace `[0, 0, 1]` is not strictly
monotonic. -/
theorem c8_snapshot_seq_counterexample :
    ¬ seqStrictMono (mdSeqs (runEngine 10 initExchange c8Msgs).2) := by
  intro hmono
  unfold seqStrictMono at hmono
  rw [show mdSeqs (runEngine 10 initExchange c8Msgs).2 = [0, 0, 1] from by decide] at hmono
  exact absurd (List.chain'_cons.mp hmono).1 (by decide)

/-- C9: `submit_order` with `quantity = 0` errors with `INVALID_VOLUME` and
changes nothing; with positive quantity and price strictly outside
`[MINIMUM_BID, MAXIMUM_ASK]` it errors with `INVALID_PRICE` and changes
nothing; and with positive quantity at price exactly `MINIMUM_BID` or
exactly `MAXIMUM_ASK` (here on the fresh book) it emits no error at all. -/
theorem c9_submit_price_volume_validation (b : OrderBook) (price : Int) (q : Nat)
    (is_bid : Bool) (cid crid fuel : Nat) :
    (q = 0 → (submit_order b price q is_bid cid crid fuel).events
        = [BookEvent.onError cid crid ERR_INVALID_VOLUME] ∧
      (submit_order b price q is_bid cid crid fuel).book = b) ∧
    (¬ q = 0 → (price < MINIMUM_BID ∨ price > MAXIMUM_ASK) →
      (submit_order b price q is_bid cid crid fuel).events
        = [BookEvent.onError cid crid ERR_INVALID_PRICE] ∧
      (submit_order b price q is_bid cid crid fuel).book = b) ∧
    (¬ q = 0 → ∀ e ∈ (submit_order initBook MINIMUM_BID q is_bid cid crid fuel).events,
      notErrorEv e) ∧
    (¬ q = 0 → ∀ e ∈ (submit_order initBook MAXIMUM_ASK q is_bid cid crid fuel).events,
      notErrorEv e) := by
  refine ⟨?_, ?_, ?_, ?_⟩
  · intro hq
    simp only [submit_order, if_pos hq]
    exact ⟨trivial, trivial⟩
  · intro hq hp
    simp only [submit_order, if_neg hq, if_pos hp]
    exact ⟨trivial, trivial⟩
  · intro hq
    exact submit_valid_price_no_error MINIMUM_BID q is_bid cid crid fuel hq
      (Int.le_refl _) (by decide)
  · intro hq
    exact submit_valid_price_no_error MAXIMUM_ASK q is_bid cid crid fuel hq
      (by decide) (Int.le_refl _)

/-- Witness for C9: a zero-quantity submit errors with `INVALID_VOLUME`, a
submit at price 10001 errors with `INVALID_PRICE`, and the resting
confirmations of submits at exactly `MINIMUM_BID` and `MAXIMUM_ASK` are not
errors. -/
theorem c9_witness :
    ((submit_order initBook 995 0 true 3 4 10).events
        = [BookEvent.onError 3 4 ERR_INVALID_VOLUME] ∧
      (submit_order initBook 995 0 true 3 4 10).book = initBook) ∧
    ((submit_order initBook 10001 5 true 3 4 10).events
        = [BookEvent.onError 3 4 ERR_INVALID_PRICE] ∧
      (submit_order initBook 10001 5 true 3 4 10).book = initBook) ∧
    notErrorEv (BookEvent.onOrderInserted 0
      { client_id := 3, order_id := 0, price := 1, quantity := 5,
        quantity_remaining := 5, quantity_cumulative := 0, is_bid := true }) ∧
    notErrorEv (BookEvent.onOrderInserted 0
      { client_id := 3, order_id := 0, price := 10000, quantity := 5,
        quantity_remaining := 5, quantity_cumulative := 0, is_bid := true }) :=
  ⟨(c9_submit_price_volume_validation initBook 995 0 true 3 4 10).1 rfl,
    (c9_submit_price_volume_validation initBook 10001 5 true 3 4 10).2.1
      (by decide) (by decide),
    (c9_submit_price_volume_validation initBook 1 5 true 3 4 10).2.2.1 (by decide)
      _ (by decide),
    (c9_submit_price_volume_validation initBook 1 5 true 3 4 10).2.2.2 (by decide)
      _ (by decide)⟩

/-- C10: amending a resting order through its owner with a new total
quantity equal to its current total quantity (whose bookkeeping satisfies
`quantity = remaining + cumulative`, as every resting order's does) takes
`amend_order`'s equal-remaining early return: it emits exactly one
`CONFIRM_ORDER_AMENDED` callback to the owner and returns the book - in
particular every level's `total_quantity` - entirely unchanged. -/
theorem c10_amend_equal_quantity_noop (b : OrderBook) (cid crid tid : Nat) (lb : Bool)
    (lp : Int) (o : Order)
    (hentry : b.order_index tid = IndexEntry.live lb lp)
    (hfind : findById (((if lb then b.bids else b.asks).levels (price_to_index lp)).orders) tid
      = some o)
    (hcl : o.client_id = cid)
    (hsum : o.quantity = o.quantity_remaining + o.quantity_cumulative) :
    (amend_order b cid crid tid o.quantity).book = b ∧
    (amend_order b cid crid tid o.quantity).events
      = [BookEvent.onOrderAmended crid o.quantity o] := by
  simp only [amend_order, hentry, hfind]
  rw [if_neg (fun hne => hne hcl),
    if_neg (show ¬ o.quantity < o.quantity_cumulative by omega),
    if_neg (show ¬ o.quantity_remaining < o.quantity - o.quantity_cumulative by omega),
    if_pos (show o.quantity - o.quantity_cumulative = o.quantity_remaining by omega)]
  exact ⟨rfl, rfl⟩

/-- Witness for C10: amending the resting `BUY 995x10` (id 0, total
quantity 10) to total quantity 10 emits only `CONFIRM_ORDER_AMENDED` and
leaves the book unchanged. -/
theorem c10_witness :
    (amend_order bookAfterBuy995 0 4 0 10).book = bookAfterBuy995 ∧
    (amend_order bookAfterBuy995 0 4 0 10).events
      = [BookEvent.onOrderAmended 4 10
          { client_id := 0, order_id := 0, price := 995, quantity := 10,
            quantity_remaining := 10, quantity_cumulative := 0, is_bid := true }] :=
  c10_amend_equal_quantity_noop bookAfterBuy995 0 4 0 true 995
    { client_id := 0, order_id := 0, price := 995, quantity := 10,
      quantity_remaining := 10, quantity_cumulative := 0, is_bid := true }
    (by decide) (by decide) rfl (by decide)
